import Mathlib

/-!
# Mockfish: move generation and game-state maintenance

A shallow embedding of `chess.h` / `chess.cpp` and a verification of the
properties stated about them.

Conventions of the embedding.

* `int8_t` coordinates are `Int`; the values that reach the arithmetic are in
  `-2 .. 9`, so no wrap-around is involved. Squares of the board are `Fin 8`
  (the bit-fields `uint8_t x : 3`).
* `uint32_t` rows and `uint64_t` masks are `Nat`; the only place where a
  width matters, the complement in `set_piece`, is taken inside 32 bits.
* A `piece` is the 4-bit value stored in a row or in the bit-field
  `piece p : 4`, so it is a `Fin 16`.
* The caller-supplied buffer `move* moves` with its `uint8_t& length` is the
  record `move_list`; the counter is reduced modulo 256 at every increment.
* The generators only ever touch the buffer through `moves[length ++] = m`
  in `add_move`. They are written once, threading the buffer state `s`
  through every statement as the source does, with that single write as the
  parameter `push`; the program itself is the instance `push := push_move`.
-/

namespace Mockfish

/-! ## chess.h -/

/-- The enum `kind : uint8_t`. It is kept as a number: `get_kind` masks three
bits and can yield 1, which names no enumerator. -/
abbrev kind := Nat

abbrev INVALID_KIND : kind := 0
abbrev PAWN : kind := 2
abbrev KNIGHT : kind := 3
abbrev BISHOP : kind := 4
abbrev ROOK : kind := 5
abbrev QUEEN : kind := 6
abbrev KING : kind := 7

/-- The enum `color : uint8_t` with its three enumerators. -/
inductive color where
  | WHITE
  | BLACK
  | INVALID_COLOR
  deriving DecidableEq, Repr

open color

/-- Numeric value of a `color` enumerator. -/
def color.val : color → Nat
  | WHITE => 0
  | BLACK => 8
  | INVALID_COLOR => 15

/-- The enum `piece : uint8_t`, always stored in four bits. -/
abbrev piece := Fin 16

abbrev EMPTY : piece := 0
abbrev WHITE_PAWN : piece := 2
abbrev WHITE_KNIGHT : piece := 3
abbrev WHITE_BISHOP : piece := 4
abbrev WHITE_ROOK : piece := 5
abbrev WHITE_QUEEN : piece := 6
abbrev WHITE_KING : piece := 7
abbrev BLACK_PAWN : piece := 10
abbrev BLACK_KNIGHT : piece := 11
abbrev BLACK_BISHOP : piece := 12
abbrev BLACK_ROOK : piece := 13
abbrev BLACK_QUEEN : piece := 14
abbrev BLACK_KING : piece := 15

/-- Conversion of an integer to the 4-bit `piece` field. -/
def piece_of (n : Nat) : piece := ⟨n % 16, Nat.mod_lt n (by decide)⟩

/-- Conversion of an integer to a 3-bit field (`uint8_t x : 3`). -/
def fin8 (i : Int) : Fin 8 := ⟨(i % 8).toNat, by omega⟩

/-- The struct `board { uint32_t rows[8]; }`. -/
structure board where
  rows : Fin 8 → Nat

abbrev targets_set := Nat
abbrev pieces_set := Nat

/-- The struct `move` with its bit-fields. -/
structure move where
  src_x : Fin 8
  src_y : Fin 8
  dst_x : Fin 8
  dst_y : Fin 8
  p : piece
  deriving DecidableEq, Repr

/-- The struct `game`. -/
structure game where
  b : board
  pieces : pieces_set
  white_pieces : pieces_set
  black_pieces : pieces_set
  white_king : pieces_set
  black_king : pieces_set
  white_targets : targets_set
  black_targets : targets_set
  white_in_check : Bool
  black_in_check : Bool
  white_left_castle : Bool
  white_right_castle : Bool
  black_left_castle : Bool
  black_right_castle : Bool

/-- The eight values `0 .. 7` of the loops `for (int8_t x = 0; x < 8; x ++)`. -/
def coords : List (Fin 8) := [0, 1, 2, 3, 4, 5, 6, 7]

/-! ## chess.cpp: board accessors -/

/-- Board `set_piece`: `b.rows[y] &= ~(15 << (4 * x)); b.rows[y] |= p << (4 * x);`. -/
def set_piece (b : board) (x y : Fin 8) (p : piece) : board :=
  { rows := fun r =>
      if r = y then
        (b.rows y &&& (4294967295 ^^^ (15 <<< (4 * x.val)))) ||| (p.val <<< (4 * x.val))
      else b.rows r }

/-- Board `get_piece`: `piece(b.rows[y] >> (4 * x) & 15)`. -/
def get_piece (b : board) (x y : Fin 8) : piece :=
  piece_of ((b.rows y >>> (4 * x.val)) &&& 15)

/-- Function `make_piece`: `piece(c | k)`. -/
def make_piece (c : color) (k : kind) : piece := piece_of (c.val ||| k)

/-- Function `get_kind(piece p)`: `kind(p & 7)`. -/
def get_kind (p : piece) : kind := p.val &&& 7

/-- Function `get_color(piece p)`: `color(p & 8)`, which is 0 or 8. -/
def get_color (p : piece) : color := if p.val &&& 8 = 8 then BLACK else WHITE

/-- Function `get_kind(const board&, x, y)`: `kind(b.rows[y] >> (4 * x) & 7)`. -/
def board.get_kind (b : board) (x y : Fin 8) : kind := (b.rows y >>> (4 * x.val)) &&& 7

/-- Function `get_color(const board&, x, y)`: `color(b.rows[y] >> (4 * x) & 8)`. -/
def board.get_color (b : board) (x y : Fin 8) : color :=
  if (b.rows y >>> (4 * x.val)) &&& 8 = 8 then BLACK else WHITE

/-- The constant `INVALID_MOVE = { 7u, 7u, 7u, 7u, EMPTY }`. -/
def INVALID_MOVE : move := ⟨7, 7, 7, 7, EMPTY⟩

/-- Function `move_of`: the sentinel for an off-board destination, otherwise
the five fields, each narrowed to its bit-field. -/
def move_of (src_x src_y dst_x dst_y : Int) (p : piece) : move :=
  if dst_x < 0 ∨ dst_x ≥ 8 ∨ dst_y < 0 ∨ dst_y ≥ 8 then INVALID_MOVE
  else ⟨fin8 src_x, fin8 src_y, fin8 dst_x, fin8 dst_y, p⟩

/-- Function `is_castle`: the bit-fields are promoted to `int`, so
`m.src_x - 1` can be `-1` and `m.src_x + 1` can be `8`. -/
def is_castle (m : move) : Bool :=
  get_kind m.p = KING ∧ (m.dst_x.val : Int) ≠ (m.src_x.val : Int) - 1
    ∧ (m.dst_x.val : Int) ≠ (m.src_x.val : Int) + 1

/-- Function `is_promotion`. -/
def is_promotion (m : move) : Bool :=
  get_kind m.p = PAWN ∧ m.dst_y.val = (if get_color m.p = WHITE then 7 else 0)

/-! ## chess.cpp: coordinates -/

/-- The struct `pos` with its bit-fields `x : 3, y : 3, extra : 2`. -/
structure pos where
  x : Fin 8
  y : Fin 8
  extra : Fin 4
  deriving DecidableEq, Repr

/-- The constant `INVALID_POS = { 7u, 7u, 3u }`. -/
def INVALID_POS : pos := ⟨7, 7, 3⟩

/-- Function `pos_of`. -/
def pos_of (x y : Int) : pos :=
  if x < 0 ∨ x ≥ 8 ∨ y < 0 ∨ y ≥ 8 then INVALID_POS
  else ⟨fin8 x, fin8 y, 0⟩

/-- The operator `operator==(pos a, pos b)`: `a.x == b.x && a.y == b.y`. -/
def pos_eq (a b : pos) : Bool := a.x = b.x ∧ a.y = b.y

/-- The operator `operator!=(pos a, pos b)`: `!(a == b)`. -/
def pos_ne (a b : pos) : Bool := !pos_eq a b

/-- Function `pos_from_string` on the codes of the first two characters of
its argument (ASCII, so that no `char` arithmetic wraps). -/
def pos_from_string (c0 c1 : Int) : pos :=
  if c0 = 0 ∨ c1 = 0 then INVALID_POS
  else
    let c := if c0 ≥ 97 then c0 - 32 else c0
    let x := c - 65
    let y := c1 - 49
    if x < 0 ∨ y < 0 ∨ x ≥ 8 ∨ y ≥ 8 then INVALID_POS
    else pos_of x y

/-! ## chess.cpp: 64-bit sets -/

/-- Function `is_targeted`. -/
def is_targeted (v : targets_set) (x y : Int) : Bool :=
  if x < 0 ∨ x ≥ 8 ∨ y < 0 ∨ y ≥ 8 then false
  else (v >>> (y * 8 + x).toNat) &&& 1 != 0

/-- Function `set_targeted`. -/
def set_targeted (v : targets_set) (x y : Int) : targets_set :=
  if x < 0 ∨ x ≥ 8 ∨ y < 0 ∨ y ≥ 8 then v
  else v ||| (1 <<< (y * 8 + x).toNat)

/-- Function `is_piece`. -/
def is_piece (v : pieces_set) (x y : Int) : Bool :=
  if x < 0 ∨ x ≥ 8 ∨ y < 0 ∨ y ≥ 8 then false
  else (v >>> (y * 8 + x).toNat) &&& 1 != 0

/-- Set-level `set_piece(pieces_set&, x, y)`. -/
def pieces_set.set_piece (v : pieces_set) (x y : Int) : pieces_set :=
  if x < 0 ∨ x ≥ 8 ∨ y < 0 ∨ y ≥ 8 then v
  else v ||| (1 <<< (y * 8 + x).toNat)

/-- Function `remove_piece`: `v &= ~(1ul << (y * 8 + x))` on 64 bits. -/
def remove_piece (v : pieces_set) (x y : Int) : pieces_set :=
  if x < 0 ∨ x ≥ 8 ∨ y < 0 ∨ y ≥ 8 then v
  else v &&& (18446744073709551615 ^^^ (1 <<< (y * 8 + x).toNat))

/-! ## chess.cpp: attacked squares -/

/-- The condition of a ray loop stepping by `(dx, dy)`: `vx >= 0` when the
loop decrements `vx`, `vx < 8` when it increments it, nothing when `vx` is
fixed; likewise for `vy`. -/
def ray_cond (dx dy vx vy : Int) : Bool :=
  (dx != -1 || decide (0 ≤ vx)) && (dx != 1 || decide (vx < 8))
    && (dy != -1 || decide (0 ≤ vy)) && (dy != 1 || decide (vy < 8))

/-- One ray loop of `threaten`:
`for (...; cond; step) { set_targeted(v, vx, vy); if (is_piece(ps, vx, vy)) break; }`.
The first argument bounds the number of iterations. -/
def ray_targets (ps : pieces_set) (dx dy : Int) : Nat → Int → Int → targets_set → targets_set
  | 0, _, _, v => v
  | n + 1, vx, vy, v =>
    if ray_cond dx dy vx vy then
      if is_piece ps vx vy then set_targeted v vx vy
      else ray_targets ps dx dy n (vx + dx) (vy + dy) (set_targeted v vx vy)
    else v

/-- The four diagonal loops, in the order of the source. -/
def diag_targets (ps : pieces_set) (v : targets_set) (x y : Int) : targets_set :=
  let v := ray_targets ps (-1) (-1) 8 (x - 1) (y - 1) v
  let v := ray_targets ps 1 (-1) 8 (x + 1) (y - 1) v
  let v := ray_targets ps 1 1 8 (x + 1) (y + 1) v
  ray_targets ps (-1) 1 8 (x - 1) (y + 1) v

/-- The four orthogonal loops, in the order of the source. -/
def line_targets (ps : pieces_set) (v : targets_set) (x y : Int) : targets_set :=
  let v := ray_targets ps (-1) 0 8 (x - 1) y v
  let v := ray_targets ps 1 0 8 (x + 1) y v
  let v := ray_targets ps 0 (-1) 8 x (y - 1) v
  ray_targets ps 0 1 8 x (y + 1) v

/-- Function `threaten`. -/
def threaten (ps : pieces_set) (v : targets_set) (p : piece) (x y : Int) : targets_set :=
  if get_kind p = PAWN then
    if get_color p = BLACK then
      set_targeted (set_targeted v (x - 1) (y - 1)) (x + 1) (y - 1)
    else
      set_targeted (set_targeted v (x - 1) (y + 1)) (x + 1) (y + 1)
  else if get_kind p = KNIGHT then
    let v := set_targeted v (x - 1) (y - 2)
    let v := set_targeted v (x + 1) (y - 2)
    let v := set_targeted v (x - 1) (y + 2)
    let v := set_targeted v (x + 1) (y + 2)
    let v := set_targeted v (x - 2) (y - 1)
    let v := set_targeted v (x - 2) (y + 1)
    let v := set_targeted v (x + 2) (y - 1)
    set_targeted v (x + 2) (y + 1)
  else if get_kind p = BISHOP then diag_targets ps v x y
  else if get_kind p = ROOK then line_targets ps v x y
  else if get_kind p = QUEEN then line_targets ps (diag_targets ps v x y) x y
  else if get_kind p = KING then
    let v := set_targeted v (x - 1) (y - 1)
    let v := set_targeted v x (y - 1)
    let v := set_targeted v (x + 1) (y - 1)
    let v := set_targeted v (x - 1) y
    let v := set_targeted v (x + 1) y
    let v := set_targeted v (x - 1) (y + 1)
    let v := set_targeted v x (y + 1)
    set_targeted v (x + 1) (y + 1)
  else v

/-- Function `find_targeted`. -/
def find_targeted (b : board) (ps : pieces_set) (c : color) : targets_set :=
  coords.foldl (fun v x => coords.foldl (fun v y =>
    if get_color (get_piece b x y) = c then threaten ps v (get_piece b x y) x.val y.val
    else v) v) 0

/-- Function `find_pieces`. -/
def find_pieces (b : board) (c : color) : pieces_set :=
  coords.foldl (fun v x => coords.foldl (fun v y =>
    if b.get_color x y = c ∧ get_piece b x y ≠ 0 then pieces_set.set_piece v x.val y.val
    else v) v) 0

/-- Function `find_king`. -/
def find_king (b : board) (c : color) : pieces_set :=
  coords.foldl (fun v x => coords.foldl (fun v y =>
    if get_color (get_piece b x y) = c ∧ get_kind (get_piece b x y) = KING then
      pieces_set.set_piece v x.val y.val
    else v) v) 0

/-! ## chess.cpp: derived state and move application -/

/-- Function `update_game_state`. -/
def update_game_state (g : game) : game :=
  let white_pieces := find_pieces g.b WHITE
  let black_pieces := find_pieces g.b BLACK
  let white_king := find_king g.b WHITE
  let black_king := find_king g.b BLACK
  let pieces := white_pieces ||| black_pieces
  let white_targets := find_targeted g.b pieces WHITE
  let black_targets := find_targeted g.b pieces BLACK
  { g with
    white_pieces := white_pieces
    black_pieces := black_pieces
    white_king := white_king
    black_king := black_king
    pieces := pieces
    white_targets := white_targets
    black_targets := black_targets
    white_in_check := white_king &&& black_targets != 0
    black_in_check := black_king &&& white_targets != 0 }

/-- The statement `get_color(p) == BLACK ? g.black_left_castle : g.white_left_castle = false;`.
In C++ the third operand of `?:` is an assignment-expression, so this reads
`cond ? g.black_left_castle : (g.white_left_castle = false)`: for a black
piece the flag is only read. -/
def clear_left_castle (g : game) (p : piece) : game :=
  if get_color p = BLACK then g else { g with white_left_castle := false }

/-- The statement `get_color(p) == BLACK ? g.black_right_castle : g.white_right_castle = false;`,
parsed like `clear_left_castle`. -/
def clear_right_castle (g : game) (p : piece) : game :=
  if get_color p = BLACK then g else { g with white_right_castle := false }

/-- The statements of `move_piece` that precede `if (is_castle(m))`: the two
board writes, then the rook block and the king block that clear castling
rights. -/
def move_piece_local (g : game) (m : move) : game :=
  let p := m.p
  let g := { g with b := set_piece (set_piece g.b m.src_x m.src_y EMPTY) m.dst_x m.dst_y p }
  let g :=
    if get_kind p = ROOK then
      let g := if m.src_x = 0 then clear_left_castle g p else g
      if m.src_x = 7 then clear_right_castle g p else g
    else g
  if get_kind p = KING then clear_right_castle (clear_left_castle g p) p
  else g

/-- Function `move_piece`, with the depth of the nested calls bounded by the
first argument; `none` when the bound is reached. -/
def move_piece_fuel : Nat → game → move → Option game
  | 0, _, _ => none
  | n + 1, g, m =>
    let g := move_piece_local g m
    let r : Option game :=
      if is_castle m then
        let r : Option game :=
          if m.dst_x < m.src_x then
            move_piece_fuel n g ⟨0, m.dst_y, 3, m.dst_y, get_piece g.b 0 m.dst_y⟩
          else some g
        match r with
        | none => none
        | some g =>
          if m.dst_x > m.src_x then
            move_piece_fuel n g ⟨7, m.dst_y, 5, m.dst_y, get_piece g.b 7 m.dst_y⟩
          else some g
      else some g
    match r with
    | none => none
    | some g => some (update_game_state g)

/-- Function `move_piece`. Four levels are enough for every input
(`move_piece_fuel_isSome`), and more levels change nothing. -/
def move_piece (g : game) (m : move) : game :=
  match move_piece_fuel 4 g m with
  | some g1 => g1
  | none => g

/-! ## chess.cpp: move lists -/

/-- The caller's buffer `move* moves` together with `uint8_t& length`. -/
structure move_list where
  moves : Nat → move
  length : Nat

/-- The empty list a caller passes: `move moves[MAX_MOVES]; uint8_t length = 0;`. -/
def move_list.empty : move_list := ⟨fun _ => INVALID_MOVE, 0⟩

/-- The moves a caller reads back: `moves[0 .. length - 1]`. -/
def move_list.toList (s : move_list) : List move := (List.range s.length).map s.moves

/-- The write `moves[length ++] = m` with its 8-bit counter. -/
def push_move (s : move_list) (m : move) : move_list :=
  ⟨fun i => if i = s.length then m else s.moves i, (s.length + 1) % 256⟩

/-- Function `add_move`: `if (m != INVALID_MOVE) moves[length ++] = m;`. -/
def add_move {σ : Type} (push : σ → move → σ) (s : σ) (m : move) : σ :=
  if m ≠ INVALID_MOVE then push s m else s

/-- Function `try_promotion`. -/
def try_promotion {σ : Type} (push : σ → move → σ) (s : σ) (m : move) : σ :=
  let limit : Nat := if get_color m.p = WHITE then 7 else 0
  if m.dst_y.val = limit then
    (List.range' KNIGHT (KING - KNIGHT)).foldl
      (fun s k => add_move push s { m with p := make_piece (get_color m.p) k }) s
  else add_move push s m

/-- One ray loop of `add_moves`:
`for (...; cond; step) { if (!is_piece(allies, vx, vy)) add_move(...); if (is_piece(g.pieces, vx, vy)) break; }`.
The first argument bounds the number of iterations. -/
def ray_moves {σ : Type} (push : σ → move → σ) (allies pieces : pieces_set) (x y : Int)
    (p : piece) (dx dy : Int) : Nat → Int → Int → σ → σ
  | 0, _, _, s => s
  | n + 1, vx, vy, s =>
    if ray_cond dx dy vx vy then
      let s1 := if !is_piece allies vx vy then add_move push s (move_of x y vx vy p) else s
      if is_piece pieces vx vy then s1
      else ray_moves push allies pieces x y p dx dy n (vx + dx) (vy + dy) s1
    else s

/-- The four diagonal loops of `add_moves`, in the order of the source. -/
def diag_moves {σ : Type} (push : σ → move → σ) (allies pieces : pieces_set) (x y : Int)
    (p : piece) (s : σ) : σ :=
  let s := ray_moves push allies pieces x y p (-1) (-1) 8 (x - 1) (y - 1) s
  let s := ray_moves push allies pieces x y p 1 (-1) 8 (x + 1) (y - 1) s
  let s := ray_moves push allies pieces x y p 1 1 8 (x + 1) (y + 1) s
  ray_moves push allies pieces x y p (-1) 1 8 (x - 1) (y + 1) s

/-- The four orthogonal loops of `add_moves`, in the order of the source. -/
def line_moves {σ : Type} (push : σ → move → σ) (allies pieces : pieces_set) (x y : Int)
    (p : piece) (s : σ) : σ :=
  let s := ray_moves push allies pieces x y p (-1) 0 8 (x - 1) y s
  let s := ray_moves push allies pieces x y p 1 0 8 (x + 1) y s
  let s := ray_moves push allies pieces x y p 0 (-1) 8 x (y - 1) s
  ray_moves push allies pieces x y p 0 1 8 x (y + 1) s

/-- Conversion of a `uint8_t` to `int8_t`, as happens when the castling loops
pass their counter to `is_piece`. -/
def to_int8 (i : Nat) : Int := if i % 256 < 128 then (i % 256 : Nat) else (i % 256 : Nat) - 256

/-- The queenside loop
`for (uint8_t i = x - 1; i > 0; i --) if (is_piece(g.pieces, i, y)) open = false;`
with the counter as the recursion argument. -/
def left_open (ps : pieces_set) (y : Int) : Nat → Bool → Bool
  | 0, open_ => open_
  | i + 1, open_ => left_open ps y i (if is_piece ps (to_int8 (i + 1)) y then false else open_)

/-- The kingside loop
`for (uint8_t i = x + 1; i < 7; i ++) if (is_piece(g.pieces, i, y)) open = false;`;
the first argument is the number of iterations left, `7 - i`. -/
def right_open (ps : pieces_set) (y : Int) : Nat → Nat → Bool → Bool
  | 0, _, open_ => open_
  | n + 1, i, open_ =>
    right_open ps y n (i + 1) (if is_piece ps (to_int8 i) y then false else open_)

/-- Function `add_moves(const game&, color, int8_t x, int8_t y, move*, uint8_t&)`,
the generator of the candidates of one square. -/
def add_moves_at {σ : Type} (push : σ → move → σ) (g : game) (c : color) (x y : Int)
    (s : σ) : σ :=
  let enemies := if c = WHITE then g.black_pieces else g.white_pieces
  let allies := if c = WHITE then g.white_pieces else g.black_pieces
  let p := get_piece g.b (fin8 x) (fin8 y)
  if get_kind p = PAWN then
    if c = WHITE then
      let s :=
        if !is_piece g.pieces x (y + 1) then
          let s := try_promotion push s (move_of x y x (y + 1) p)
          if y = 1 ∧ !is_piece g.pieces x (y + 2) then add_move push s (move_of x y x (y + 2) p)
          else s
        else s
      let s :=
        if is_piece enemies (x - 1) (y + 1) then
          try_promotion push s (move_of x y (x - 1) (y + 1) p)
        else s
      if is_piece enemies (x + 1) (y + 1) then
        try_promotion push s (move_of x y (x + 1) (y + 1) p)
      else s
    else
      let s :=
        if !is_piece g.pieces x (y - 1) then
          let s := try_promotion push s (move_of x y x (y - 1) p)
          if y = 6 ∧ !is_piece g.pieces x (y - 2) then add_move push s (move_of x y x (y - 2) p)
          else s
        else s
      let s :=
        if is_piece enemies (x - 1) (y - 1) then
          try_promotion push s (move_of x y (x - 1) (y - 1) p)
        else s
      if is_piece enemies (x + 1) (y - 1) then
        try_promotion push s (move_of x y (x + 1) (y - 1) p)
      else s
  else if get_kind p = KNIGHT then
    let s := if !is_piece allies (x - 1) (y - 2) then add_move push s (move_of x y (x - 1) (y - 2) p) else s
    let s := if !is_piece allies (x + 1) (y - 2) then add_move push s (move_of x y (x + 1) (y - 2) p) else s
    let s := if !is_piece allies (x - 1) (y + 2) then add_move push s (move_of x y (x - 1) (y + 2) p) else s
    let s := if !is_piece allies (x + 1) (y + 2) then add_move push s (move_of x y (x + 1) (y + 2) p) else s
    let s := if !is_piece allies (x - 2) (y - 1) then add_move push s (move_of x y (x - 2) (y - 1) p) else s
    let s := if !is_piece allies (x - 2) (y + 1) then add_move push s (move_of x y (x - 2) (y + 1) p) else s
    let s := if !is_piece allies (x + 2) (y - 1) then add_move push s (move_of x y (x + 2) (y - 1) p) else s
    if !is_piece allies (x + 2) (y + 1) then add_move push s (move_of x y (x + 2) (y + 1) p) else s
  else if get_kind p = BISHOP then diag_moves push allies g.pieces x y p s
  else if get_kind p = ROOK then line_moves push allies g.pieces x y p s
  else if get_kind p = QUEEN then
    line_moves push allies g.pieces x y p (diag_moves push allies g.pieces x y p s)
  else if get_kind p = KING then
    let s := if !is_piece allies (x - 1) (y - 1) then add_move push s (move_of x y (x - 1) (y - 1) p) else s
    let s := if !is_piece allies x (y - 1) then add_move push s (move_of x y x (y - 1) p) else s
    let s := if !is_piece allies (x + 1) (y - 1) then add_move push s (move_of x y (x + 1) (y - 1) p) else s
    let s := if !is_piece allies (x - 1) y then add_move push s (move_of x y (x - 1) y p) else s
    let s := if !is_piece allies (x + 1) y then add_move push s (move_of x y (x + 1) y p) else s
    let s := if !is_piece allies (x - 1) (y + 1) then add_move push s (move_of x y (x - 1) (y + 1) p) else s
    let s := if !is_piece allies x (y + 1) then add_move push s (move_of x y x (y + 1) p) else s
    let s := if !is_piece allies (x + 1) (y + 1) then add_move push s (move_of x y (x + 1) (y + 1) p) else s
    let left_castle := if c = WHITE then g.white_left_castle else g.black_left_castle
    let right_castle := if c = WHITE then g.white_right_castle else g.black_right_castle
    let in_check := if c = WHITE then g.white_in_check else g.black_in_check
    let s :=
      if left_castle ∧ !in_check then
        if left_open g.pieces y ((x - 1) % 256).toNat true then
          add_move push s (move_of x y (x - 2) y p)
        else s
      else s
    if right_castle ∧ !in_check then
      if right_open g.pieces y (7 - ((x + 1) % 256).toNat) ((x + 1) % 256).toNat true then
        add_move push s (move_of x y (x + 2) y p)
      else s
    else s
  else s

/-- The first loop of the colour-level `add_moves`: every square of colour
`c`, file by file, hands its candidates to the per-square generator. -/
def collect_moves {σ : Type} (push : σ → move → σ) (g : game) (c : color) (s : σ) : σ :=
  coords.foldl (fun s x => coords.foldl (fun s y =>
    if g.b.get_color x y = c then add_moves_at push g c x.val y.val s else s) s) s

/-- The test of the second loop on the state `copy` after `move_piece(copy, m)`:
`c == WHITE && !copy.white_in_check`, else `c == BLACK && !copy.black_in_check`. -/
def king_safe (g : game) (c : color) (m : move) : Bool :=
  (c = WHITE ∧ !(move_piece g m).white_in_check) ∨ (c = BLACK ∧ !(move_piece g m).black_in_check)

/-- The second loop of the colour-level `add_moves`, compacting the buffer in
place: the first argument counts the iterations left, `i` is the read index
and `w` the offset of `writer`. -/
def filter_moves (g : game) (c : color) : Nat → Nat → (Nat → move) → Nat → move_list
  | 0, _, moves, w => ⟨moves, w⟩
  | n + 1, i, moves, w =>
    if king_safe g c (moves i) then
      filter_moves g c n (i + 1) (fun j => if j = w then moves i else moves j) (w + 1)
    else filter_moves g c n (i + 1) moves w

/-- Function `add_moves(const game&, color, move*, uint8_t&)`. -/
def add_moves (g : game) (c : color) (s : move_list) : move_list :=
  let s := collect_moves push_move g c s
  filter_moves g c s.length 0 s.moves 0

/-- Function `empty_game`. -/
def empty_game : game :=
  { b := ⟨fun _ => 0⟩
    pieces := 0, white_pieces := 0, black_pieces := 0, white_king := 0, black_king := 0
    white_targets := 0, black_targets := 0
    white_in_check := false, black_in_check := false
    white_left_castle := false, white_right_castle := false
    black_left_castle := false, black_right_castle := false }

/-- Function `setup_game`. -/
def setup_game : game :=
  let g := empty_game
  let g := { g with black_left_castle := true, black_right_castle := true }
  let g := { g with white_left_castle := true, white_right_castle := true }
  let b := g.b
  let b := set_piece b 0 0 WHITE_ROOK
  let b := set_piece b 1 0 WHITE_KNIGHT
  let b := set_piece b 2 0 WHITE_BISHOP
  let b := set_piece b 3 0 WHITE_QUEEN
  let b := set_piece b 4 0 WHITE_KING
  let b := set_piece b 5 0 WHITE_BISHOP
  let b := set_piece b 6 0 WHITE_KNIGHT
  let b := set_piece b 7 0 WHITE_ROOK
  let b := coords.foldl (fun b i => set_piece b i 1 WHITE_PAWN) b
  let b := coords.foldl (fun b i => set_piece b i 6 BLACK_PAWN) b
  let b := set_piece b 0 7 BLACK_ROOK
  let b := set_piece b 1 7 BLACK_KNIGHT
  let b := set_piece b 2 7 BLACK_BISHOP
  let b := set_piece b 3 7 BLACK_QUEEN
  let b := set_piece b 4 7 BLACK_KING
  let b := set_piece b 5 7 BLACK_BISHOP
  let b := set_piece b 6 7 BLACK_KNIGHT
  let b := set_piece b 7 7 BLACK_ROOK
  update_game_state { g with b := b }

/-- Function `empty_game` as it acts on the state it is handed: every field
of `g` is assigned, the rows of the board one by one. -/
def empty_game_on (g : game) : game :=
  let g := { g with pieces := 0, white_pieces := 0, black_pieces := 0, white_king := 0,
                    black_king := 0 }
  let g := { g with white_in_check := false, black_in_check := false }
  let g := { g with white_targets := 0, black_targets := 0 }
  let g := { g with black_left_castle := false, black_right_castle := false }
  let g := { g with white_left_castle := false, white_right_castle := false }
  { g with b := coords.foldl (fun b i => ⟨fun j => if j = i then 0 else b.rows j⟩) g.b }

/-- Function `setup_game` as it acts on the state it is handed. -/
def setup_game_on (g : game) : game :=
  let g := empty_game_on g
  let g := { g with black_left_castle := true, black_right_castle := true }
  let g := { g with white_left_castle := true, white_right_castle := true }
  let b := g.b
  let b := set_piece b 0 0 WHITE_ROOK
  let b := set_piece b 1 0 WHITE_KNIGHT
  let b := set_piece b 2 0 WHITE_BISHOP
  let b := set_piece b 3 0 WHITE_QUEEN
  let b := set_piece b 4 0 WHITE_KING
  let b := set_piece b 5 0 WHITE_BISHOP
  let b := set_piece b 6 0 WHITE_KNIGHT
  let b := set_piece b 7 0 WHITE_ROOK
  let b := coords.foldl (fun b i => set_piece b i 1 WHITE_PAWN) b
  let b := coords.foldl (fun b i => set_piece b i 6 BLACK_PAWN) b
  let b := set_piece b 0 7 BLACK_ROOK
  let b := set_piece b 1 7 BLACK_KNIGHT
  let b := set_piece b 2 7 BLACK_BISHOP
  let b := set_piece b 3 7 BLACK_QUEEN
  let b := set_piece b 4 7 BLACK_KING
  let b := set_piece b 5 7 BLACK_BISHOP
  let b := set_piece b 6 7 BLACK_KNIGHT
  let b := set_piece b 7 7 BLACK_ROOK
  update_game_state { g with b := b }

/-- The command `place <color> <piece> at <pos>` of `cmd_loop`:
`set_piece(g.b, p.x, p.y, make_piece(c, k)); update_game_state(g);`. -/
def place (g : game) (x y : Fin 8) (p : piece) : game :=
  update_game_state { g with b := set_piece g.b x y p }

/-! ## ai.hpp -/

/-- One iteration of the loop of `min_opponent_moves`: the state is the array
`options` with its counter `num_options`, and `min`. -/
def min_opponent_step (g : game) (c : color) (st : move_list × Nat) (candidate : move) :
    move_list × Nat :=
  let copy := move_piece g candidate
  let num_oppt_moves := (add_moves copy c move_list.empty).length
  if num_oppt_moves < st.2 then (push_move ⟨st.1.moves, 0⟩ candidate, num_oppt_moves)
  else if num_oppt_moves = st.2 then (push_move st.1 candidate, st.2)
  else st

/-- The loop of `min_opponent_moves` over `moves[0 .. length)`, started with
`num_options = 0` and `min = 255`. -/
def min_opponent_options (g : game) (c : color) (moves : Nat → move) (length : Nat) :
    move_list × Nat :=
  (List.range length).foldl (fun st i => min_opponent_step g c st (moves i))
    (move_list.empty, 255)

/-- Function `min_opponent_moves`; `r` is the value of `rand()`. No result
when `num_options` is zero (the source divides by it). -/
def min_opponent_moves (g : game) (c : color) (moves : Nat → move) (length : Nat) (r : Nat) :
    Option move :=
  let st := min_opponent_options g c moves length
  if st.1.length = 0 then none else some (st.1.moves (r % st.1.length))

/-! ## List views of the generators

The sequence of moves each generator hands to the write `moves[length ++] = m`,
as a plain list. `add_moves_at_eq` and its companions prove that running a
generator on a buffer is folding the write over these lists. -/

/-- What `add_move` appends for `m`: nothing for the sentinel, else `m`. -/
def cand (m : move) : List move := if m ≠ INVALID_MOVE then [m] else []

/-- What `try_promotion` appends for `m`. -/
def promo_cands (m : move) : List move :=
  if m.dst_y.val = (if get_color m.p = WHITE then 7 else 0) then
    cand { m with p := make_piece (get_color m.p) KNIGHT }
      ++ cand { m with p := make_piece (get_color m.p) BISHOP }
      ++ cand { m with p := make_piece (get_color m.p) ROOK }
      ++ cand { m with p := make_piece (get_color m.p) QUEEN }
  else cand m

/-- What one ray loop of `add_moves` appends. -/
def ray_cands (allies pieces : pieces_set) (x y : Int) (p : piece) (dx dy : Int) :
    Nat → Int → Int → List move
  | 0, _, _ => []
  | n + 1, vx, vy =>
    if ray_cond dx dy vx vy then
      (if !is_piece allies vx vy then cand (move_of x y vx vy p) else [])
        ++ (if is_piece pieces vx vy then []
            else ray_cands allies pieces x y p dx dy n (vx + dx) (vy + dy))
    else []

/-- What the four diagonal loops append. -/
def diag_cands (allies pieces : pieces_set) (x y : Int) (p : piece) : List move :=
  ray_cands allies pieces x y p (-1) (-1) 8 (x - 1) (y - 1)
    ++ ray_cands allies pieces x y p 1 (-1) 8 (x + 1) (y - 1)
    ++ ray_cands allies pieces x y p 1 1 8 (x + 1) (y + 1)
    ++ ray_cands allies pieces x y p (-1) 1 8 (x - 1) (y + 1)

/-- What the four orthogonal loops append. -/
def line_cands (allies pieces : pieces_set) (x y : Int) (p : piece) : List move :=
  ray_cands allies pieces x y p (-1) 0 8 (x - 1) y
    ++ ray_cands allies pieces x y p 1 0 8 (x + 1) y
    ++ ray_cands allies pieces x y p 0 (-1) 8 x (y - 1)
    ++ ray_cands allies pieces x y p 0 1 8 x (y + 1)

/-- What the `PAWN` case appends for a pawn that steps by `dy` (`1` in the
branch `c == WHITE`, `-1` in the other) and has its starting line at `home`. -/
def pawn_cands (pieces enemies : pieces_set) (x y : Int) (p : piece) (dy home : Int) :
    List move :=
  (if !is_piece pieces x (y + dy) then
      promo_cands (move_of x y x (y + dy) p)
        ++ (if y = home ∧ !is_piece pieces x (y + 2 * dy) then
              cand (move_of x y x (y + 2 * dy) p)
            else [])
    else [])
  ++ (if is_piece enemies (x - 1) (y + dy) then promo_cands (move_of x y (x - 1) (y + dy) p)
      else [])
  ++ (if is_piece enemies (x + 1) (y + dy) then promo_cands (move_of x y (x + 1) (y + dy) p)
      else [])

/-- What the `KNIGHT` case appends. -/
def knight_cands (allies : pieces_set) (x y : Int) (p : piece) : List move :=
  (if !is_piece allies (x - 1) (y - 2) then cand (move_of x y (x - 1) (y - 2) p) else [])
  ++ (if !is_piece allies (x + 1) (y - 2) then cand (move_of x y (x + 1) (y - 2) p) else [])
  ++ (if !is_piece allies (x - 1) (y + 2) then cand (move_of x y (x - 1) (y + 2) p) else [])
  ++ (if !is_piece allies (x + 1) (y + 2) then cand (move_of x y (x + 1) (y + 2) p) else [])
  ++ (if !is_piece allies (x - 2) (y - 1) then cand (move_of x y (x - 2) (y - 1) p) else [])
  ++ (if !is_piece allies (x - 2) (y + 1) then cand (move_of x y (x - 2) (y + 1) p) else [])
  ++ (if !is_piece allies (x + 2) (y - 1) then cand (move_of x y (x + 2) (y - 1) p) else [])
  ++ (if !is_piece allies (x + 2) (y + 1) then cand (move_of x y (x + 2) (y + 1) p) else [])

/-- What the eight one-square lines of the `KING` case append. -/
def king_step_cands (allies : pieces_set) (x y : Int) (p : piece) : List move :=
  (if !is_piece allies (x - 1) (y - 1) then cand (move_of x y (x - 1) (y - 1) p) else [])
  ++ (if !is_piece allies x (y - 1) then cand (move_of x y x (y - 1) p) else [])
  ++ (if !is_piece allies (x + 1) (y - 1) then cand (move_of x y (x + 1) (y - 1) p) else [])
  ++ (if !is_piece allies (x - 1) y then cand (move_of x y (x - 1) y p) else [])
  ++ (if !is_piece allies (x + 1) y then cand (move_of x y (x + 1) y p) else [])
  ++ (if !is_piece allies (x - 1) (y + 1) then cand (move_of x y (x - 1) (y + 1) p) else [])
  ++ (if !is_piece allies x (y + 1) then cand (move_of x y x (y + 1) p) else [])
  ++ (if !is_piece allies (x + 1) (y + 1) then cand (move_of x y (x + 1) (y + 1) p) else [])

/-- What the queenside half of the castling block appends. -/
def castle_left_cands (g : game) (c : color) (x y : Int) (p : piece) : List move :=
  if (if c = WHITE then g.white_left_castle else g.black_left_castle) = true
      ∧ (!(if c = WHITE then g.white_in_check else g.black_in_check)) = true then
    if left_open g.pieces y ((x - 1) % 256).toNat true then cand (move_of x y (x - 2) y p)
    else []
  else []

/-- What the kingside half of the castling block appends. -/
def castle_right_cands (g : game) (c : color) (x y : Int) (p : piece) : List move :=
  if (if c = WHITE then g.white_right_castle else g.black_right_castle) = true
      ∧ (!(if c = WHITE then g.white_in_check else g.black_in_check)) = true then
    if right_open g.pieces y (7 - ((x + 1) % 256).toNat) ((x + 1) % 256).toNat true then
      cand (move_of x y (x + 2) y p)
    else []
  else []

/-- What the per-square generator appends for the square `(x, y)`. -/
def candidates (g : game) (c : color) (x y : Int) : List move :=
  let enemies := if c = WHITE then g.black_pieces else g.white_pieces
  let allies := if c = WHITE then g.white_pieces else g.black_pieces
  let p := get_piece g.b (fin8 x) (fin8 y)
  if get_kind p = PAWN then
    if c = WHITE then pawn_cands g.pieces enemies x y p 1 1
    else pawn_cands g.pieces enemies x y p (-1) 6
  else if get_kind p = KNIGHT then knight_cands allies x y p
  else if get_kind p = BISHOP then diag_cands allies g.pieces x y p
  else if get_kind p = ROOK then line_cands allies g.pieces x y p
  else if get_kind p = QUEEN then diag_cands allies g.pieces x y p ++ line_cands allies g.pieces x y p
  else if get_kind p = KING then
    king_step_cands allies x y p ++ castle_left_cands g c x y p ++ castle_right_cands g c x y p
  else []

/-- The list a caller reads after the per-square generator ran on an empty list. -/
def emitted (g : game) (c : color) (x y : Fin 8) : List move :=
  (add_moves_at push_move g c x.val y.val move_list.empty).toList

/-- The per-square lists of the squares of colour `c`, concatenated in the
order of the first loop of `add_moves`: files outermost, ranks within a file. -/
def square_candidates (g : game) (c : color) : List move :=
  coords.flatMap (fun x => coords.flatMap (fun y =>
    if g.b.get_color x y = c then emitted g c x y else []))

/-- The list a caller reads after the colour-level `add_moves` ran on an empty list. -/
def legal_moves (g : game) (c : color) : List move :=
  (add_moves g c move_list.empty).toList

/-! ## Vocabulary of the statements -/

/-- The expression `c == WHITE ? g.white_in_check : g.black_in_check`. -/
def in_check (g : game) (c : color) : Bool :=
  if c = WHITE then g.white_in_check else g.black_in_check

/-- The expression `player == WHITE ? BLACK : WHITE`. -/
def opponent (c : color) : color := if c = WHITE then BLACK else WHITE

/-- The rank step of a pawn: `y + 1` in the branch `c == WHITE`, `y - 1` in the other. -/
def forward (c : color) : Int := if c = WHITE then 1 else -1

/-- The starting line of a pawn: `y == 1` for White, `y == 6` for Black. -/
def pawn_home (c : color) : Int := if c = WHITE then 1 else 6

/-- The farthest rank of a colour, the `limit` of `try_promotion`. -/
def last_rank (c : color) : Nat := if c = WHITE then 7 else 0

/-- The home rank of a colour's king and rooks in `setup_game`. -/
def home_rank (c : color) : Fin 8 := if c = WHITE then 0 else 7

/-- The occupant of a square given by integer coordinates; `EMPTY` off the board. -/
def piece_at (b : board) (x y : Int) : piece :=
  if x < 0 ∨ x ≥ 8 ∨ y < 0 ∨ y ≥ 8 then EMPTY else get_piece b (fin8 x) (fin8 y)

/-- The eight knight offsets `(±1, ±2)`, `(±2, ±1)`. -/
def knight_offsets : List (Int × Int) :=
  [(-1, -2), (1, -2), (-1, 2), (1, 2), (-2, -1), (-2, 1), (2, -1), (2, 1)]

/-- The offsets of the eight adjacent squares. -/
def king_offsets : List (Int × Int) :=
  [(-1, -1), (0, -1), (1, -1), (-1, 0), (1, 0), (-1, 1), (0, 1), (1, 1)]

/-- The four diagonal directions. -/
def diag_dirs : List (Int × Int) := [(-1, -1), (1, -1), (1, 1), (-1, 1)]

/-- The four orthogonal directions. -/
def line_dirs : List (Int × Int) := [(-1, 0), (1, 0), (0, -1), (0, 1)]

/-- The ray directions of a kind: diagonals for a bishop, orthogonals for a
rook, all eight for a queen, none for the other kinds. -/
def slider_dirs (k : kind) : List (Int × Int) :=
  if k = BISHOP then diag_dirs
  else if k = ROOK then line_dirs
  else if k = QUEEN then diag_dirs ++ line_dirs
  else []

/-- No square strictly between `(sx, sy)` and the `k`-th square of its ray in
direction `(dx, dy)` is set in `ps`. -/
def ray_clear (ps : pieces_set) (sx sy dx dy : Int) (k : Nat) : Prop :=
  ∀ j : Nat, 1 ≤ j → j < k → is_piece ps (sx + j * dx) (sy + j * dy) = false

/-- The attack pattern of the piece `p` standing on `(sx, sy)`, with `ps` as
the occupancy that blocks rays: the statement of which squares `(tx, ty)`
the piece attacks. -/
def attacks (ps : pieces_set) (p : piece) (sx sy tx ty : Int) : Prop :=
  (get_kind p = PAWN ∧ ty = sy + forward (get_color p) ∧ (tx = sx - 1 ∨ tx = sx + 1)) ∨
  (get_kind p = KNIGHT ∧ (tx - sx, ty - sy) ∈ knight_offsets) ∨
  (get_kind p = KING ∧ (tx - sx, ty - sy) ∈ king_offsets) ∨
  (∃ d ∈ slider_dirs (get_kind p), ∃ k : Nat, 1 ≤ k ∧ tx = sx + k * d.1 ∧ ty = sy + k * d.2 ∧
    ray_clear ps sx sy d.1 d.2 k)

/-- The rank-mirrored image of a move: ranks `y` become `7 - y` and the
carried piece changes colour. -/
def mirror (m : move) : move :=
  ⟨m.src_x, 7 - m.src_y, m.dst_x, 7 - m.dst_y, piece_of (m.p.val ^^^ 8)⟩

/-- The six values of a white piece. -/
def white_values : List piece :=
  [WHITE_PAWN, WHITE_KNIGHT, WHITE_BISHOP, WHITE_ROOK, WHITE_QUEEN, WHITE_KING]

/-- The six values of a black piece. -/
def black_values : List piece :=
  [BLACK_PAWN, BLACK_KNIGHT, BLACK_BISHOP, BLACK_ROOK, BLACK_QUEEN, BLACK_KING]

/-- Every square of the board holds the empty value or one of the twelve
piece values. -/
def valid_board (b : board) : Prop :=
  ∀ x y : Fin 8, get_piece b x y = EMPTY ∨ get_piece b x y ∈ white_values ∨
    get_piece b x y ∈ black_values

/-- The kinds of the back rank, files 0 to 7. -/
def back_rank : Fin 8 → kind
  | 0 => ROOK | 1 => KNIGHT | 2 => BISHOP | 3 => QUEEN
  | 4 => KING | 5 => BISHOP | 6 => KNIGHT | 7 => ROOK

/-- The standard starting position, square by square. -/
def standard_piece (x y : Fin 8) : piece :=
  if y = 0 then make_piece WHITE (back_rank x)
  else if y = 1 then WHITE_PAWN
  else if y = 6 then BLACK_PAWN
  else if y = 7 then make_piece BLACK (back_rank x)
  else EMPTY

/-- The number of moves the colour-level `add_moves` reports for the colour
`d` in the position after `m` is applied to `g`. -/
def reply_count (g : game) (m : move) (d : color) : Nat :=
  (legal_moves (move_piece g m) d).length

/-- A game played from `g` with `c` to move: each move is taken from the
legal list of the colour to move and applied with `move_piece`; no result if
a move is not in that list. -/
def play : game → color → List move → Option game
  | g, _, [] => some g
  | g, c, m :: ms =>
    if m ∈ legal_moves g c then play (move_piece g m) (opponent c) ms else none

/-! ## Example positions -/

/-- White king on e1 and white rook on h1 on an otherwise empty board, white's
kingside right set, the other three rights as given, derived fields fresh. -/
def castle_scenario (wl bl br : Bool) : game :=
  update_game_state
    { empty_game with
      b := set_piece (set_piece empty_game.b 4 0 WHITE_KING) 7 0 WHITE_ROOK
      white_right_castle := true
      white_left_castle := wl
      black_left_castle := bl
      black_right_castle := br }

/-- The position after 1. e4 e5 2. Nf3, reached from `setup_game` through `move_piece`. -/
def open_game : game :=
  move_piece (move_piece (move_piece setup_game ⟨4, 1, 4, 3, WHITE_PAWN⟩)
    ⟨4, 6, 4, 4, BLACK_PAWN⟩) ⟨6, 0, 5, 2, WHITE_KNIGHT⟩

/-- White king e1, white rooks a1 and h1, black rook g8, black king a8; both
white castling rights set, derived fields fresh. -/
def guarded_castle : game :=
  update_game_state
    { empty_game with
      b := set_piece (set_piece (set_piece (set_piece (set_piece empty_game.b
            4 0 WHITE_KING) 0 0 WHITE_ROOK) 7 0 WHITE_ROOK) 6 7 BLACK_ROOK) 0 7 BLACK_KING
      white_left_castle := true
      white_right_castle := true }

/-- A black pawn placed on a1, its own farthest rank, on an empty board. -/
def pawn_on_last_rank : game := place empty_game 0 0 BLACK_PAWN

/-- A white pawn placed on a8, its own farthest rank, on an empty board. -/
def white_pawn_on_last_rank : game := place empty_game 0 7 WHITE_PAWN

/-- White king e1 and black rook e8 on an otherwise empty board. -/
def rook_check : game := place (place empty_game 4 0 WHITE_KING) 4 7 BLACK_ROOK

/-- White rook a1 with a black knight on e1 and nothing else on the first rank. -/
def rook_and_enemy : game := place (place empty_game 0 0 WHITE_ROOK) 4 0 BLACK_KNIGHT

/-- White rook a1 with a white knight on e1 and nothing else on the first rank. -/
def rook_and_ally : game := place (place empty_game 0 0 WHITE_ROOK) 4 0 WHITE_KNIGHT

/-- White king a1 and pawn h3, black king e8 and pawn g5. -/
def pawn_duel : game :=
  place (place (place (place empty_game 0 0 WHITE_KING) 7 2 WHITE_PAWN) 4 7 BLACK_KING)
    6 4 BLACK_PAWN

/-- White king e1 and white rook h1, the black king on a1; White's queenside
right set, derived fields fresh. -/
def king_in_corner : game :=
  update_game_state
    { empty_game with
      b := set_piece (set_piece (set_piece empty_game.b 4 0 WHITE_KING) 7 0 WHITE_ROOK)
            0 0 BLACK_KING
      white_left_castle := true }

/-- White king c1 and white rook a1 on an otherwise empty board, White's
queenside right set, derived fields fresh. -/
def king_beside_corner : game :=
  update_game_state
    { empty_game with
      b := set_piece (set_piece empty_game.b 2 0 WHITE_KING) 0 0 WHITE_ROOK
      white_left_castle := true }

/-- White king e1, white rooks a1 and h1 and a white pawn on a7; both white
rights set, derived fields fresh. -/
def rook_promotion : game :=
  update_game_state
    { empty_game with
      b := set_piece (set_piece (set_piece (set_piece empty_game.b 4 0 WHITE_KING)
            0 0 WHITE_ROOK) 7 0 WHITE_ROOK) 0 6 WHITE_PAWN
      white_left_castle := true
      white_right_castle := true }

/-- A white pawn on a8 and a white rook on h8 on an otherwise empty board. -/
def own_piece_on_h8 : game := place (place empty_game 0 7 WHITE_PAWN) 7 7 WHITE_ROOK

/-- A white king on e1 between black kings on a1 and h1. -/
def two_corner_kings : game :=
  place (place (place empty_game 4 0 WHITE_KING) 0 0 BLACK_KING) 7 0 BLACK_KING

/-- White king e1 and rooks a1, h1 with both rights set, inside a ring of 26
white queens (ranks 1 and 7, files 0 and 7 above the home rank). -/
def queen_ring : game :=
  update_game_state
    { empty_game with
      b := ([(0, 1), (0, 2), (0, 3), (0, 4), (0, 5), (0, 6), (0, 7), (1, 1), (1, 7), (2, 1),
             (2, 7), (3, 1), (3, 7), (4, 1), (4, 7), (5, 1), (5, 7), (6, 1), (6, 7), (7, 1),
             (7, 2), (7, 3), (7, 4), (7, 5), (7, 6), (7, 7)] : List (Fin 8 × Fin 8)).foldl
          (fun b s => set_piece b s.1 s.2 WHITE_QUEEN)
          (set_piece (set_piece (set_piece empty_game.b 4 0 WHITE_KING) 0 0 WHITE_ROOK)
            7 0 WHITE_ROOK)
      white_left_castle := true
      white_right_castle := true }

/-! # Theorems -/

/-! ## Board accessors -/

theorem testBit_fifteen (i : Nat) : Nat.testBit 15 i = decide (i < 4) := by
  have : (15 : Nat) = 2 ^ 4 - 1 := by norm_num
  rw [this, Nat.testBit_two_pow_sub_one]

theorem testBit_mask32 (i : Nat) : Nat.testBit 4294967295 i = decide (i < 32) := by
  have : (4294967295 : Nat) = 2 ^ 32 - 1 := by norm_num
  rw [this, Nat.testBit_two_pow_sub_one]

theorem nibble_lt (n : Nat) : n &&& 15 < 16 := by
  have := @Nat.and_le_right n 15
  omega

theorem piece_of_val (p : piece) : piece_of p.val = p := by
  apply Fin.ext
  simp [piece_of, Nat.mod_eq_of_lt p.isLt]

theorem row_nibble (r : Nat) (x x' : Fin 8) (p : piece) :
    (((r &&& (4294967295 ^^^ (15 <<< (4 * x.val)))) ||| (p.val <<< (4 * x.val))) >>> (4 * x'.val)) &&& 15
      = if x' = x then p.val else (r >>> (4 * x'.val)) &&& 15 := by
  have hp : p.val = p.val &&& 15 := by
    apply Nat.eq_of_testBit_eq
    intro i
    simp only [Nat.testBit_and, testBit_fifteen]
    by_cases hi : i < 4
    · simp [hi]
    · have : p.val < 2 ^ i := lt_of_lt_of_le p.isLt (by
        have : 2 ^ 4 ≤ 2 ^ i := Nat.pow_le_pow_right (by norm_num) (by omega)
        simpa using this)
      simp [Nat.testBit_lt_two_pow this]
  apply Nat.eq_of_testBit_eq
  intro i
  by_cases hx : x' = x
  · subst hx
    rw [if_pos rfl, hp]
    simp only [Nat.testBit_and, Nat.testBit_or, Nat.testBit_xor, Nat.testBit_shiftRight,
      Nat.testBit_shiftLeft, testBit_fifteen, testBit_mask32]
    by_cases hi : i < 4
    · have h1 : 4 * x'.val + i < 32 := by omega
      have h2 : 4 * x'.val + i - 4 * x'.val = i := by omega
      simp [hi, h1, h2]
    · simp [hi]
  · rw [if_neg hx]
    simp only [Nat.testBit_and, Nat.testBit_or, Nat.testBit_xor, Nat.testBit_shiftRight,
      Nat.testBit_shiftLeft, testBit_fifteen, testBit_mask32]
    have hne : x'.val ≠ x.val := fun h => hx (Fin.ext h)
    by_cases hi : i < 4
    · have h1 : 4 * x'.val + i < 32 := by omega
      by_cases hge : 4 * x.val ≤ 4 * x'.val + i
      · have h3 : ¬ (4 * x'.val + i - 4 * x.val < 4) := by omega
        have h4 : p.val.testBit (4 * x'.val + i - 4 * x.val) = false := by
          apply Nat.testBit_lt_two_pow
          have : 2 ^ 4 ≤ 2 ^ (4 * x'.val + i - 4 * x.val) := Nat.pow_le_pow_right (by norm_num) (by omega)
          have := p.isLt
          omega
        simp [hi, h1, hge, h3, h4]
      · simp [hi, h1, hge]
    · simp [hi]

theorem get_piece_set_piece (b : board) (x y x' y' : Fin 8) (p : piece) :
    get_piece (set_piece b x y p) x' y' = if x' = x ∧ y' = y then p else get_piece b x' y' := by
  unfold get_piece set_piece
  by_cases hy : y' = y
  · subst hy
    simp only [if_true, and_true]
    rw [row_nibble]
    by_cases hx : x' = x
    · simp [hx, piece_of_val]
    · simp [hx]
  · simp [hy]

theorem update_game_state_idem (g : game) :
    update_game_state (update_game_state g) = update_game_state g := rfl

theorem update_game_state_b (g : game) : (update_game_state g).b = g.b := rfl

theorem move_piece_local_b (g : game) (m : move) :
    (move_piece_local g m).b = set_piece (set_piece g.b m.src_x m.src_y EMPTY) m.dst_x m.dst_y m.p := by
  unfold move_piece_local clear_left_castle clear_right_castle
  simp only []
  split_ifs <;> rfl

theorem move_piece_fuel_plain (n : Nat) (g : game) (m : move)
    (h : is_castle m = false ∨ m.dst_x = m.src_x) :
    move_piece_fuel (n + 1) g m = some (update_game_state (move_piece_local g m)) := by
  unfold move_piece_fuel
  rcases h with h | h
  · simp [h]
  · by_cases hc : is_castle m = true
    · simp [hc, h]
    · simp [hc]

theorem move_piece_fuel_left (n : Nat) (g : game) (m : move)
    (hc : is_castle m = true) (h : m.dst_x < m.src_x) :
    move_piece_fuel (n + 1) g m
      = (move_piece_fuel n (move_piece_local g m)
          ⟨0, m.dst_y, 3, m.dst_y, get_piece (move_piece_local g m).b 0 m.dst_y⟩).map
          update_game_state := by
  have h2 : ¬ (m.dst_x > m.src_x) := by
    intro h3; exact absurd h (not_lt_of_gt h3)
  rw [move_piece_fuel]
  simp only [hc, h, if_true]
  cases move_piece_fuel n (move_piece_local g m)
      ⟨0, m.dst_y, 3, m.dst_y, get_piece (move_piece_local g m).b 0 m.dst_y⟩ with
  | none => rfl
  | some g1 => simp [h2]

theorem move_piece_fuel_right (n : Nat) (g : game) (m : move)
    (hc : is_castle m = true) (h : m.dst_x > m.src_x) :
    move_piece_fuel (n + 1) g m
      = (move_piece_fuel n (move_piece_local g m)
          ⟨7, m.dst_y, 5, m.dst_y, get_piece (move_piece_local g m).b 7 m.dst_y⟩).map
          update_game_state := by
  have h2 : ¬ (m.dst_x < m.src_x) := by
    intro h3; exact absurd h (not_lt_of_gt h3)
  rw [move_piece_fuel]
  simp only [hc, h, h2, if_true, if_false]
  cases move_piece_fuel n (move_piece_local g m)
      ⟨7, m.dst_y, 5, m.dst_y, get_piece (move_piece_local g m).b 7 m.dst_y⟩ with
  | none => rfl
  | some g1 => rfl

theorem is_castle_empty (sx sy dx dy : Fin 8) : is_castle ⟨sx, sy, dx, dy, EMPTY⟩ = false := by
  simp [is_castle, get_kind]

/-- Every call of `move_piece` returns: the nesting never exceeds four levels. -/
theorem move_piece_fuel_isSome (n : Nat) (g : game) (m : move) :
    ∃ g1, move_piece_fuel (n + 4) g m = some g1 := by
  by_cases hc : is_castle m = true
  swap
  · exact ⟨_, move_piece_fuel_plain _ g m (Or.inl (by simpa using hc))⟩
  rcases lt_trichotomy m.dst_x m.src_x with h | h | h
  · -- queenside: the rook move from file 0
    rw [show n + 4 = (n + 3) + 1 from rfl, move_piece_fuel_left _ g m hc h]
    generalize move_piece_local g m = g1
    generalize hp1 : get_piece g1.b 0 m.dst_y = p1
    by_cases hc1 : is_castle ⟨0, m.dst_y, 3, m.dst_y, p1⟩ = true
    swap
    · rw [show n + 3 = (n + 2) + 1 from rfl,
        move_piece_fuel_plain _ g1 _ (Or.inl (by simpa using hc1))]
      exact ⟨_, rfl⟩
    rw [show n + 3 = (n + 2) + 1 from rfl,
      move_piece_fuel_right _ g1 _ hc1 (show (3 : Fin 8) > 0 by decide)]
    simp only []
    generalize hg2 : move_piece_local g1 ⟨0, m.dst_y, 3, m.dst_y, p1⟩ = g2
    generalize hp2 : get_piece g2.b 7 m.dst_y = p2
    by_cases hc2 : is_castle ⟨7, m.dst_y, 5, m.dst_y, p2⟩ = true
    swap
    · rw [show n + 2 = (n + 1) + 1 from rfl,
        move_piece_fuel_plain _ g2 _ (Or.inl (by simpa using hc2))]
      exact ⟨_, rfl⟩
    rw [show n + 2 = (n + 1) + 1 from rfl,
      move_piece_fuel_left _ g2 _ hc2 (show (5 : Fin 8) < 7 by decide)]
    simp only []
    have hempty : get_piece (move_piece_local g2 ⟨7, m.dst_y, 5, m.dst_y, p2⟩).b 0 m.dst_y
        = EMPTY := by
      rw [move_piece_local_b, ← hg2, move_piece_local_b]
      simp [get_piece_set_piece]
    rw [hempty, move_piece_fuel_plain n _ _ (Or.inl (is_castle_empty _ _ _ _))]
    exact ⟨_, rfl⟩
  · exact ⟨_, move_piece_fuel_plain _ g m (Or.inr h)⟩
  · -- kingside: the rook move from file 7
    rw [show n + 4 = (n + 3) + 1 from rfl, move_piece_fuel_right _ g m hc h]
    generalize move_piece_local g m = g1
    generalize hp1 : get_piece g1.b 7 m.dst_y = p1
    by_cases hc1 : is_castle ⟨7, m.dst_y, 5, m.dst_y, p1⟩ = true
    swap
    · rw [show n + 3 = (n + 2) + 1 from rfl,
        move_piece_fuel_plain _ g1 _ (Or.inl (by simpa using hc1))]
      exact ⟨_, rfl⟩
    rw [show n + 3 = (n + 2) + 1 from rfl,
      move_piece_fuel_left _ g1 _ hc1 (show (5 : Fin 8) < 7 by decide)]
    simp only []
    generalize hg2 : move_piece_local g1 ⟨7, m.dst_y, 5, m.dst_y, p1⟩ = g2
    generalize hp2 : get_piece g2.b 0 m.dst_y = p2
    by_cases hc2 : is_castle ⟨0, m.dst_y, 3, m.dst_y, p2⟩ = true
    swap
    · rw [show n + 2 = (n + 1) + 1 from rfl,
        move_piece_fuel_plain _ g2 _ (Or.inl (by simpa using hc2))]
      exact ⟨_, rfl⟩
    rw [show n + 2 = (n + 1) + 1 from rfl,
      move_piece_fuel_right _ g2 _ hc2 (show (3 : Fin 8) > 0 by decide)]
    simp only []
    have hempty : get_piece (move_piece_local g2 ⟨0, m.dst_y, 3, m.dst_y, p2⟩).b 7 m.dst_y
        = EMPTY := by
      rw [move_piece_local_b, ← hg2, move_piece_local_b]
      simp [get_piece_set_piece]
    rw [hempty, move_piece_fuel_plain n _ _ (Or.inl (is_castle_empty _ _ _ _))]
    exact ⟨_, rfl⟩

/-- More fuel never changes a result of `move_piece_fuel`. -/
theorem move_piece_fuel_mono (n : Nat) : ∀ (g : game) (m : move) (r : game),
    move_piece_fuel n g m = some r → move_piece_fuel (n + 1) g m = some r := by
  induction n with
  | zero => intro g m r h; simp [move_piece_fuel] at h
  | succ n ih =>
    intro g m r h
    by_cases hc : is_castle m = true
    swap
    · rw [move_piece_fuel_plain _ g m (Or.inl (by simpa using hc))] at h ⊢
      exact h
    rcases lt_trichotomy m.dst_x m.src_x with hlt | heq | hgt
    · rw [move_piece_fuel_left _ g m hc hlt] at h ⊢
      cases hn : move_piece_fuel n (move_piece_local g m)
          ⟨0, m.dst_y, 3, m.dst_y, get_piece (move_piece_local g m).b 0 m.dst_y⟩ with
      | none => rw [hn] at h; simp at h
      | some r1 => rw [hn] at h; rw [ih _ _ _ hn]; exact h
    · rw [move_piece_fuel_plain _ g m (Or.inr heq)] at h ⊢
      exact h
    · rw [move_piece_fuel_right _ g m hc hgt] at h ⊢
      cases hn : move_piece_fuel n (move_piece_local g m)
          ⟨7, m.dst_y, 5, m.dst_y, get_piece (move_piece_local g m).b 7 m.dst_y⟩ with
      | none => rw [hn] at h; simp at h
      | some r1 => rw [hn] at h; rw [ih _ _ _ hn]; exact h

theorem move_piece_fuel_eq (n : Nat) (g : game) (m : move) :
    move_piece_fuel (n + 4) g m = some (move_piece g m) := by
  have h4 : move_piece_fuel 4 g m = some (move_piece g m) := by
    obtain ⟨g1, h⟩ := move_piece_fuel_isSome 0 g m
    simp only [Nat.zero_add] at h
    simp [move_piece, h]
  induction n with
  | zero => simpa using h4
  | succ n ih =>
    have := move_piece_fuel_mono _ g m _ ih
    simpa [Nat.add_right_comm] using this

theorem move_piece_plain (g : game) (m : move) (h : is_castle m = false ∨ m.dst_x = m.src_x) :
    move_piece g m = update_game_state (move_piece_local g m) := by
  have h1 := move_piece_fuel_eq 0 g m
  rw [show 0 + 4 = 3 + 1 from rfl, move_piece_fuel_plain 3 g m h] at h1
  exact (Option.some.inj h1).symm

theorem move_piece_left (g : game) (m : move) (hc : is_castle m = true)
    (h : m.dst_x < m.src_x) :
    move_piece g m = update_game_state (move_piece (move_piece_local g m)
      ⟨0, m.dst_y, 3, m.dst_y, get_piece (move_piece_local g m).b 0 m.dst_y⟩) := by
  have h1 := move_piece_fuel_eq 1 g m
  rw [show 1 + 4 = 4 + 1 from rfl, move_piece_fuel_left 4 g m hc h,
    move_piece_fuel_eq 0] at h1
  exact (Option.some.inj h1).symm

theorem move_piece_right (g : game) (m : move) (hc : is_castle m = true)
    (h : m.dst_x > m.src_x) :
    move_piece g m = update_game_state (move_piece (move_piece_local g m)
      ⟨7, m.dst_y, 5, m.dst_y, get_piece (move_piece_local g m).b 7 m.dst_y⟩) := by
  have h1 := move_piece_fuel_eq 1 g m
  rw [show 1 + 4 = 4 + 1 from rfl, move_piece_fuel_right 4 g m hc h,
    move_piece_fuel_eq 0] at h1
  exact (Option.some.inj h1).symm

/-- Whatever the move, `move_piece` ends with `update_game_state`. -/
theorem move_piece_eq_update (g : game) (m : move) :
    ∃ h : game, move_piece g m = update_game_state h := by
  by_cases hc : is_castle m = true
  swap
  · exact ⟨_, move_piece_plain g m (Or.inl (by simpa using hc))⟩
  rcases lt_trichotomy m.dst_x m.src_x with hlt | heq | hgt
  · exact ⟨_, move_piece_left g m hc hlt⟩
  · exact ⟨_, move_piece_plain g m (Or.inr heq)⟩
  · exact ⟨_, move_piece_right g m hc hgt⟩


theorem is_castle_of_not_king (m : move) (h : get_kind m.p ≠ KING) : is_castle m = false := by
  simp [is_castle, h]

theorem move_piece_board_plain (g : game) (m : move)
    (h : is_castle m = false ∨ m.dst_x = m.src_x) :
    (move_piece g m).b = set_piece (set_piece g.b m.src_x m.src_y EMPTY) m.dst_x m.dst_y m.p := by
  rw [move_piece_plain g m h, update_game_state_b, move_piece_local_b]

/-! ## Castling rights across a move -/

/-- The castling rights after the straight-line part of `move_piece`: Black's
are untouched, White's are cleared by a white king or a white rook leaving
its corner file. -/
theorem move_piece_local_rights (g : game) (m : move) :
    (move_piece_local g m).black_left_castle = g.black_left_castle ∧
    (move_piece_local g m).black_right_castle = g.black_right_castle ∧
    (move_piece_local g m).white_left_castle
      = (if get_color m.p ≠ BLACK ∧ (get_kind m.p = KING ∨ (get_kind m.p = ROOK ∧ m.src_x = 0))
          then false else g.white_left_castle) ∧
    (move_piece_local g m).white_right_castle
      = (if get_color m.p ≠ BLACK ∧ (get_kind m.p = KING ∨ (get_kind m.p = ROOK ∧ m.src_x = 7))
          then false else g.white_right_castle) := by
  unfold move_piece_local clear_left_castle clear_right_castle
  by_cases hb : get_color m.p = BLACK
  · simp only [hb, if_true]
    split_ifs <;> simp_all
  · by_cases hr : get_kind m.p = ROOK
    · have hk : ¬ (get_kind m.p = KING) := by rw [hr]; decide
      by_cases h0 : m.src_x = 0
      · have h7 : ¬ (m.src_x = 7) := by rw [h0]; decide
        simp [hb, hr, hk, h0, h7]
      · by_cases h7 : m.src_x = 7
        · simp [hb, hr, hk, h0, h7]
        · simp [hb, hr, hk, h0, h7]
    · by_cases hk : get_kind m.p = KING
      · simp [hb, hr, hk]
      · simp [hb, hr, hk]

/-- Nested calls only ever clear White's rights and never touch Black's. -/
theorem move_piece_fuel_rights (n : Nat) : ∀ (g : game) (m : move) (r : game),
    move_piece_fuel n g m = some r →
      r.black_left_castle = g.black_left_castle ∧
      r.black_right_castle = g.black_right_castle ∧
      (r.white_left_castle = true →
        g.white_left_castle = true ∧
          ¬ (get_color m.p ≠ BLACK ∧ (get_kind m.p = KING ∨ (get_kind m.p = ROOK ∧ m.src_x = 0)))) ∧
      (r.white_right_castle = true →
        g.white_right_castle = true ∧
          ¬ (get_color m.p ≠ BLACK ∧ (get_kind m.p = KING ∨ (get_kind m.p = ROOK ∧ m.src_x = 7)))) := by
  induction n with
  | zero => intro g m r h; simp [move_piece_fuel] at h
  | succ n ih =>
    intro g m r h
    obtain ⟨l1, l2, l3, l4⟩ := move_piece_local_rights g m
    have base : ∀ r1 : game,
        r1.black_left_castle = (move_piece_local g m).black_left_castle →
        r1.black_right_castle = (move_piece_local g m).black_right_castle →
        (r1.white_left_castle = true → (move_piece_local g m).white_left_castle = true) →
        (r1.white_right_castle = true → (move_piece_local g m).white_right_castle = true) →
        r = update_game_state r1 →
        r.black_left_castle = g.black_left_castle ∧
        r.black_right_castle = g.black_right_castle ∧
        (r.white_left_castle = true →
          g.white_left_castle = true ∧
            ¬ (get_color m.p ≠ BLACK ∧
              (get_kind m.p = KING ∨ (get_kind m.p = ROOK ∧ m.src_x = 0)))) ∧
        (r.white_right_castle = true →
          g.white_right_castle = true ∧
            ¬ (get_color m.p ≠ BLACK ∧
              (get_kind m.p = KING ∨ (get_kind m.p = ROOK ∧ m.src_x = 7)))) := by
      intro r1 b1 b2 w1 w2 hr
      subst hr
      refine ⟨b1.trans l1, b2.trans l2, ?_, ?_⟩
      · intro hw
        have := w1 hw
        rw [l3] at this
        split at this
        · exact absurd this (by decide)
        · next hn => exact ⟨this, hn⟩
      · intro hw
        have := w2 hw
        rw [l4] at this
        split at this
        · exact absurd this (by decide)
        · next hn => exact ⟨this, hn⟩
    by_cases hc : is_castle m = true
    swap
    · rw [move_piece_fuel_plain _ g m (Or.inl (by simpa using hc))] at h
      exact base _ rfl rfl id id (Option.some.inj h).symm
    rcases lt_trichotomy m.dst_x m.src_x with hlt | heq | hgt
    · rw [move_piece_fuel_left _ g m hc hlt] at h
      cases hn : move_piece_fuel n (move_piece_local g m)
          ⟨0, m.dst_y, 3, m.dst_y, get_piece (move_piece_local g m).b 0 m.dst_y⟩ with
      | none => rw [hn] at h; simp at h
      | some r1 =>
        rw [hn] at h
        obtain ⟨i1, i2, i3, i4⟩ := ih _ _ _ hn
        exact base r1 i1 i2 (fun hw => (i3 hw).1) (fun hw => (i4 hw).1)
          (Option.some.inj h).symm
    · rw [move_piece_fuel_plain _ g m (Or.inr heq)] at h
      exact base _ rfl rfl id id (Option.some.inj h).symm
    · rw [move_piece_fuel_right _ g m hc hgt] at h
      cases hn : move_piece_fuel n (move_piece_local g m)
          ⟨7, m.dst_y, 5, m.dst_y, get_piece (move_piece_local g m).b 7 m.dst_y⟩ with
      | none => rw [hn] at h; simp at h
      | some r1 =>
        rw [hn] at h
        obtain ⟨i1, i2, i3, i4⟩ := ih _ _ _ hn
        exact base r1 i1 i2 (fun hw => (i3 hw).1) (fun hw => (i4 hw).1)
          (Option.some.inj h).symm

/-- Castling rights across `move_piece`: a white king move clears both of
White's rights and a white rook leaving file 0 (file 7) clears the queenside
(kingside) one, but no move ever changes a right of Black. -/
theorem move_piece_rights (g : game) (m : move) :
    (get_color m.p = WHITE → get_kind m.p = KING →
      (move_piece g m).white_left_castle = false ∧
        (move_piece g m).white_right_castle = false) ∧
    (get_color m.p = WHITE → get_kind m.p = ROOK → m.src_x = 0 →
      (move_piece g m).white_left_castle = false) ∧
    (get_color m.p = WHITE → get_kind m.p = ROOK → m.src_x = 7 →
      (move_piece g m).white_right_castle = false) ∧
    (move_piece g m).black_left_castle = g.black_left_castle ∧
    (move_piece g m).black_right_castle = g.black_right_castle := by
  obtain ⟨h1, h2, h3, h4⟩ := move_piece_fuel_rights 4 g m _ (move_piece_fuel_eq 0 g m)
  refine ⟨?_, ?_, ?_, h1, h2⟩
  · intro hc hk
    have hnb : get_color m.p ≠ BLACK := by rw [hc]; decide
    constructor
    · rw [← Bool.not_eq_true]
      intro hw
      exact (h3 hw).2 ⟨hnb, Or.inl hk⟩
    · rw [← Bool.not_eq_true]
      intro hw
      exact (h4 hw).2 ⟨hnb, Or.inl hk⟩
  · intro hc hk h0
    have hnb : get_color m.p ≠ BLACK := by rw [hc]; decide
    rw [← Bool.not_eq_true]
    intro hw
    exact (h3 hw).2 ⟨hnb, Or.inr ⟨hk, h0⟩⟩
  · intro hc hk h7
    have hnb : get_color m.p ≠ BLACK := by rw [hc]; decide
    rw [← Bool.not_eq_true]
    intro hw
    exact (h4 hw).2 ⟨hnb, Or.inr ⟨hk, h7⟩⟩

/-! ## Move lists -/

theorem toList_push_move (s : move_list) (m : move) (h : s.length < 255) :
    (push_move s m).toList = s.toList ++ [m] := by
  unfold push_move move_list.toList
  simp only []
  rw [Nat.mod_eq_of_lt (by omega), List.range_succ, List.map_append]
  congr 1
  · apply List.map_congr_left
    intro i hi
    have : i < s.length := List.mem_range.mp hi
    simp [Nat.ne_of_lt this]
  · simp

theorem length_push_move (s : move_list) (m : move) (h : s.length < 255) :
    (push_move s m).length = s.length + 1 := by
  unfold push_move
  simp only []
  exact Nat.mod_eq_of_lt (by omega)

theorem foldl_push_move (l : List move) : ∀ s : move_list, s.length + l.length ≤ 255 →
    (l.foldl push_move s).toList = s.toList ++ l ∧
      (l.foldl push_move s).length = s.length + l.length := by
  induction l with
  | nil => intro s _; simp
  | cons a l ih =>
    intro s h
    simp only [List.length_cons] at h
    have h1 : s.length < 255 := by omega
    have h2 := ih (push_move s a) (by rw [length_push_move s a h1]; omega)
    simp only [List.foldl_cons]
    refine ⟨?_, ?_⟩
    · rw [h2.1, toList_push_move s a h1]; simp
    · rw [h2.2, length_push_move s a h1]; simp; omega

theorem toList_empty : move_list.empty.toList = [] := by
  simp [move_list.empty, move_list.toList]

theorem toList_foldl_empty (l : List move) (h : l.length ≤ 255) :
    (l.foldl push_move move_list.empty).toList = l := by
  have := (foldl_push_move l move_list.empty (by simpa [move_list.empty] using h)).1
  simpa [toList_empty] using this

theorem filter_moves_toList (g : game) (c : color) (n : Nat) :
    ∀ (i : Nat) (moves : Nat → move) (w : Nat), w ≤ i →
      (filter_moves g c n i moves w).toList
        = (List.range w).map moves ++ ((List.range' i n).map moves).filter (king_safe g c) := by
  induction n with
  | zero => intro i moves w _; simp [filter_moves, move_list.toList]
  | succ n ih =>
    intro i moves w hw
    rw [filter_moves]
    by_cases hk : king_safe g c (moves i) = true
    · rw [if_pos hk, ih (i + 1) _ (w + 1) (by omega)]
      have h1 : (List.range (w + 1)).map (fun j => if j = w then moves i else moves j)
          = (List.range w).map moves ++ [moves i] := by
        rw [List.range_succ, List.map_append]
        congr 1
        · apply List.map_congr_left
          intro j hj
          have : j < w := List.mem_range.mp hj
          simp [Nat.ne_of_lt this]
        · simp
      have h2 : (List.range' (i + 1) n).map (fun j => if j = w then moves i else moves j)
          = (List.range' (i + 1) n).map moves := by
        apply List.map_congr_left
        intro j hj
        have : i + 1 ≤ j := (List.mem_range'_1.mp hj).1
        have : j ≠ w := by omega
        simp [this]
      rw [h1, h2, List.range'_succ, List.map_cons, List.filter_cons_of_pos hk]
      simp
    · rw [if_neg hk, ih (i + 1) moves w (by omega)]
      rw [List.range'_succ, List.map_cons, List.filter_cons_of_neg hk]

theorem add_moves_toList (g : game) (c : color) (s : move_list) :
    (add_moves g c s).toList
      = (collect_moves push_move g c s).toList.filter (king_safe g c) := by
  unfold add_moves
  simp only []
  rw [filter_moves_toList g c _ 0 _ 0 (le_refl 0)]
  simp [move_list.toList, List.range_eq_range']


/-! ## Bounds of the ray loops -/

/-- A ray loop that has left the board after `n` further steps does the same
with any larger bound on its iterations. -/
theorem ray_moves_fuel {σ : Type} (push : σ → move → σ) (allies pieces : pieces_set)
    (x y : Int) (p : piece) (dx dy : Int) (k n : Nat) : ∀ (vx vy : Int) (s : σ),
    ray_cond dx dy (vx + n * dx) (vy + n * dy) = false →
    ray_moves push allies pieces x y p dx dy (n + 1 + k) vx vy s
      = ray_moves push allies pieces x y p dx dy (n + 1) vx vy s := by
  induction n with
  | zero =>
    intro vx vy s h
    simp only [Nat.cast_zero, zero_mul, add_zero] at h
    rw [show 0 + 1 + k = k + 1 by omega, ray_moves, ray_moves, h]
    rfl
  | succ n ih =>
    intro vx vy s h
    rw [show n + 1 + 1 + k = (n + 1 + k) + 1 by omega, ray_moves, ray_moves]
    have h2 : ray_cond dx dy (vx + dx + n * dx) (vy + dy + n * dy) = false := by
      have e1 : vx + dx + n * dx = vx + ((n + 1 : Nat) : Int) * dx := by push_cast; ring
      have e2 : vy + dy + n * dy = vy + ((n + 1 : Nat) : Int) * dy := by push_cast; ring
      rw [e1, e2]; exact h
    simp only [ih (vx + dx) (vy + dy) _ h2]

/-- The same for the ray loops of `threaten`. -/
theorem ray_targets_fuel (ps : pieces_set) (dx dy : Int) (k n : Nat) :
    ∀ (vx vy : Int) (v : targets_set),
    ray_cond dx dy (vx + n * dx) (vy + n * dy) = false →
    ray_targets ps dx dy (n + 1 + k) vx vy v = ray_targets ps dx dy (n + 1) vx vy v := by
  induction n with
  | zero =>
    intro vx vy v h
    simp only [Nat.cast_zero, zero_mul, add_zero] at h
    rw [show 0 + 1 + k = k + 1 by omega, ray_targets, ray_targets, h]
    rfl
  | succ n ih =>
    intro vx vy v h
    rw [show n + 1 + 1 + k = (n + 1 + k) + 1 by omega, ray_targets, ray_targets]
    have h2 : ray_cond dx dy (vx + dx + n * dx) (vy + dy + n * dy) = false := by
      have e1 : vx + dx + n * dx = vx + ((n + 1 : Nat) : Int) * dx := by push_cast; ring
      have e2 : vy + dy + n * dy = vy + ((n + 1 : Nat) : Int) * dy := by push_cast; ring
      rw [e1, e2]; exact h
    rw [ih (vx + dx) (vy + dy) _ h2]

/-- Eight steps from a square of the board leave the board in each of the
eight directions. -/
theorem ray_cond_after_eight (x y : Fin 8) (dx dy : Int)
    (hdx : dx = -1 ∨ dx = 0 ∨ dx = 1) (hdy : dy = -1 ∨ dy = 0 ∨ dy = 1)
    (hne : dx ≠ 0 ∨ dy ≠ 0) :
    ray_cond dx dy ((x.val : Int) + dx + (7 : Nat) * dx) ((y.val : Int) + dy + (7 : Nat) * dy)
      = false := by
  have hx := x.isLt
  have hy := y.isLt
  unfold ray_cond
  rcases hdx with h | h | h <;> rcases hdy with h' | h' | h' <;> subst h <;> subst h' <;>
    simp at hne ⊢ <;> omega

/-- The bound 8 of the ray loops is never reached from a square of the board:
any larger bound gives the same moves. -/
theorem ray_moves_fuel_board {σ : Type} (push : σ → move → σ) (allies pieces : pieces_set)
    (x y : Fin 8) (p : piece) (dx dy : Int)
    (hdx : dx = -1 ∨ dx = 0 ∨ dx = 1) (hdy : dy = -1 ∨ dy = 0 ∨ dy = 1)
    (hne : dx ≠ 0 ∨ dy ≠ 0) (k : Nat) (s : σ) :
    ray_moves push allies pieces x.val y.val p dx dy (8 + k) ((x.val : Int) + dx)
        ((y.val : Int) + dy) s
      = ray_moves push allies pieces x.val y.val p dx dy 8 ((x.val : Int) + dx)
          ((y.val : Int) + dy) s :=
  ray_moves_fuel push allies pieces x.val y.val p dx dy k 7 _ _ s
    (ray_cond_after_eight x y dx dy hdx hdy hne)

/-- The bound 8 of the ray loops of `threaten` is never reached from a square
of the board. -/
theorem ray_targets_fuel_board (ps : pieces_set) (x y : Fin 8) (dx dy : Int)
    (hdx : dx = -1 ∨ dx = 0 ∨ dx = 1) (hdy : dy = -1 ∨ dy = 0 ∨ dy = 1)
    (hne : dx ≠ 0 ∨ dy ≠ 0) (k : Nat) (v : targets_set) :
    ray_targets ps dx dy (8 + k) ((x.val : Int) + dx) ((y.val : Int) + dy) v
      = ray_targets ps dx dy 8 ((x.val : Int) + dx) ((y.val : Int) + dy) v :=
  ray_targets_fuel ps dx dy k 7 _ _ v (ray_cond_after_eight x y dx dy hdx hdy hne)

/-! ## Generators as lists -/

section

variable {σ : Type}

theorem add_move_eq (push : σ → move → σ) (s : σ) (m : move) :
    add_move push s m = (cand m).foldl push s := by
  unfold cand add_move
  split <;> rfl

theorem fold_ite_left (c : Prop) [Decidable c] (l : List move) (push : σ → move → σ) (s : σ) :
    (if c then l.foldl push s else s) = (if c then l else []).foldl push s := by
  split <;> rfl

theorem fold_ite_left2 (c : Prop) [Decidable c] (l k : List move) (push : σ → move → σ)
    (s : σ) :
    (if c then k.foldl push (l.foldl push s) else s)
      = (if c then l ++ k else []).foldl push s := by
  split
  · rw [List.foldl_append]
  · rfl

theorem try_promotion_eq (push : σ → move → σ) (s : σ) (m : move) :
    try_promotion push s m = (promo_cands m).foldl push s := by
  unfold promo_cands try_promotion
  simp only [List.range', List.foldl_cons, List.foldl_nil, add_move_eq]
  by_cases h : m.dst_y.val = (if get_color m.p = WHITE then 7 else 0)
  · rw [if_pos h, if_pos h]
    simp only [List.foldl_append]
  · rw [if_neg h, if_neg h]

theorem ray_moves_eq (push : σ → move → σ) (allies pieces : pieces_set) (x y : Int)
    (p : piece) (dx dy : Int) (n : Nat) : ∀ (vx vy : Int) (s : σ),
    ray_moves push allies pieces x y p dx dy n vx vy s
      = (ray_cands allies pieces x y p dx dy n vx vy).foldl push s := by
  induction n with
  | zero => intro vx vy s; rfl
  | succ n ih =>
    intro vx vy s
    rw [ray_moves, ray_cands]
    simp only [ih, add_move_eq]
    by_cases hc : ray_cond dx dy vx vy = true
    · by_cases ha : (!is_piece allies vx vy) = true
      · by_cases hp : is_piece pieces vx vy = true
        · simp [hc, ha, hp]
        · simp [hc, ha, hp, List.foldl_append]
      · by_cases hp : is_piece pieces vx vy = true
        · simp [hc, ha, hp]
        · simp [hc, ha, hp]
    · simp [hc]

theorem diag_moves_eq (push : σ → move → σ) (allies pieces : pieces_set) (x y : Int)
    (p : piece) (s : σ) :
    diag_moves push allies pieces x y p s = (diag_cands allies pieces x y p).foldl push s := by
  unfold diag_cands diag_moves
  simp only [ray_moves_eq, List.foldl_append]

theorem line_moves_eq (push : σ → move → σ) (allies pieces : pieces_set) (x y : Int)
    (p : piece) (s : σ) :
    line_moves push allies pieces x y p s = (line_cands allies pieces x y p).foldl push s := by
  unfold line_cands line_moves
  simp only [ray_moves_eq, List.foldl_append]

/-- Running the per-square generator is folding the write over `candidates`. -/
theorem add_moves_at_eq (push : σ → move → σ) (g : game) (c : color) (x y : Int) (s : σ) :
    add_moves_at push g c x y s = (candidates g c x y).foldl push s := by
  by_cases h2 : get_kind (get_piece g.b (fin8 x) (fin8 y)) = PAWN
  · by_cases hw : c = WHITE
    · unfold add_moves_at candidates pawn_cands
      simp only [h2, hw, if_true]
      simp only [add_move_eq, try_promotion_eq, fold_ite_left, fold_ite_left2, mul_one]
      simp only [← List.foldl_append]
    · unfold add_moves_at candidates pawn_cands
      simp only [h2, hw, if_true, if_false]
      simp only [add_move_eq, try_promotion_eq, fold_ite_left, fold_ite_left2]
      simp only [← List.foldl_append]
      rfl
  by_cases h3 : get_kind (get_piece g.b (fin8 x) (fin8 y)) = KNIGHT
  · unfold add_moves_at candidates knight_cands
    simp only [h3, show ¬ (KNIGHT = PAWN) by decide, if_true, if_false]
    simp only [add_move_eq, fold_ite_left]
    simp only [← List.foldl_append]
  by_cases h4 : get_kind (get_piece g.b (fin8 x) (fin8 y)) = BISHOP
  · unfold add_moves_at candidates
    simp only [h4, show ¬ (BISHOP = PAWN) by decide, show ¬ (BISHOP = KNIGHT) by decide,
      if_true, if_false, diag_moves_eq]
  by_cases h5 : get_kind (get_piece g.b (fin8 x) (fin8 y)) = ROOK
  · unfold add_moves_at candidates
    simp only [h5, show ¬ (ROOK = PAWN) by decide, show ¬ (ROOK = KNIGHT) by decide,
      show ¬ (ROOK = BISHOP) by decide, if_true, if_false, line_moves_eq]
  by_cases h6 : get_kind (get_piece g.b (fin8 x) (fin8 y)) = QUEEN
  · unfold add_moves_at candidates
    simp only [h6, show ¬ (QUEEN = PAWN) by decide, show ¬ (QUEEN = KNIGHT) by decide,
      show ¬ (QUEEN = BISHOP) by decide, show ¬ (QUEEN = ROOK) by decide,
      if_true, if_false, diag_moves_eq, line_moves_eq, List.foldl_append]
  by_cases h7 : get_kind (get_piece g.b (fin8 x) (fin8 y)) = KING
  · unfold add_moves_at candidates king_step_cands castle_left_cands castle_right_cands
    simp only [h7, show ¬ (KING = PAWN) by decide, show ¬ (KING = KNIGHT) by decide,
      show ¬ (KING = BISHOP) by decide, show ¬ (KING = ROOK) by decide,
      show ¬ (KING = QUEEN) by decide, if_false, if_true]
    simp only [add_move_eq, fold_ite_left]
    simp only [← List.foldl_append]
  · unfold add_moves_at candidates
    simp only [h2, h3, h4, h5, h6, h7, if_false, List.foldl_nil]

/-! ### Sizes of the candidate lists -/

theorem len_app {l k : List move} {a b : Nat} (h1 : l.length ≤ a) (h2 : k.length ≤ b) :
    (l ++ k).length ≤ a + b := by
  rw [List.length_append]; omega

theorem len_ite {c : Prop} [Decidable c] {l : List move} {a : Nat} (h : l.length ≤ a) :
    (if c then l else []).length ≤ a := by
  split
  · exact h
  · simp

theorem len_ite_right {c : Prop} [Decidable c] {l : List move} {a : Nat} (h : l.length ≤ a) :
    (if c then [] else l).length ≤ a := by
  split
  · simp
  · exact h

theorem len_cand (m : move) : (cand m).length ≤ 1 := by
  unfold cand
  split <;> simp

theorem len_promo (m : move) : (promo_cands m).length ≤ 4 := by
  unfold promo_cands
  by_cases h : m.dst_y.val = (if get_color m.p = WHITE then 7 else 0)
  · rw [if_pos h]
    exact len_app (len_app (len_app (len_cand _) (len_cand _)) (len_cand _)) (len_cand _)
  · rw [if_neg h]
    exact le_trans (len_cand m) (by decide)

theorem len_ray (allies pieces : pieces_set) (x y : Int) (p : piece) (dx dy : Int) (n : Nat) :
    ∀ vx vy : Int, (ray_cands allies pieces x y p dx dy n vx vy).length ≤ n := by
  induction n with
  | zero => intro vx vy; simp [ray_cands]
  | succ n ih =>
    intro vx vy
    rw [ray_cands]
    split
    · have := len_app (len_ite (c := (!is_piece allies vx vy) = true)
        (len_cand (move_of x y vx vy p)))
        (len_ite_right (c := is_piece pieces vx vy = true) (ih (vx + dx) (vy + dy)))
      omega
    · simp

theorem len_diag (allies pieces : pieces_set) (x y : Int) (p : piece) :
    (diag_cands allies pieces x y p).length ≤ 32 :=
  len_app (len_app (len_app (len_ray _ _ _ _ _ _ _ _ _ _) (len_ray _ _ _ _ _ _ _ _ _ _))
    (len_ray _ _ _ _ _ _ _ _ _ _)) (len_ray _ _ _ _ _ _ _ _ _ _)

theorem len_line (allies pieces : pieces_set) (x y : Int) (p : piece) :
    (line_cands allies pieces x y p).length ≤ 32 :=
  len_app (len_app (len_app (len_ray _ _ _ _ _ _ _ _ _ _) (len_ray _ _ _ _ _ _ _ _ _ _))
    (len_ray _ _ _ _ _ _ _ _ _ _)) (len_ray _ _ _ _ _ _ _ _ _ _)

theorem len_pawn (pieces enemies : pieces_set) (x y : Int) (p : piece) (dy home : Int) :
    (pawn_cands pieces enemies x y p dy home).length ≤ 13 :=
  len_app (len_app (len_ite (len_app (len_promo _) (len_ite (len_cand _))))
    (len_ite (len_promo _))) (len_ite (len_promo _))

theorem len_knight (allies : pieces_set) (x y : Int) (p : piece) :
    (knight_cands allies x y p).length ≤ 8 :=
  len_app (len_app (len_app (len_app (len_app (len_app (len_app
    (len_ite (len_cand _)) (len_ite (len_cand _))) (len_ite (len_cand _)))
    (len_ite (len_cand _))) (len_ite (len_cand _))) (len_ite (len_cand _)))
    (len_ite (len_cand _))) (len_ite (len_cand _))

theorem len_king_step (allies : pieces_set) (x y : Int) (p : piece) :
    (king_step_cands allies x y p).length ≤ 8 :=
  len_app (len_app (len_app (len_app (len_app (len_app (len_app
    (len_ite (len_cand _)) (len_ite (len_cand _))) (len_ite (len_cand _)))
    (len_ite (len_cand _))) (len_ite (len_cand _))) (len_ite (len_cand _)))
    (len_ite (len_cand _))) (len_ite (len_cand _))

theorem len_castle_left (g : game) (c : color) (x y : Int) (p : piece) :
    (castle_left_cands g c x y p).length ≤ 1 :=
  len_ite (len_ite (len_cand _))

theorem len_castle_right (g : game) (c : color) (x y : Int) (p : piece) :
    (castle_right_cands g c x y p).length ≤ 1 :=
  len_ite (len_ite (len_cand _))

/-- No square yields more than 64 candidates. -/
theorem len_candidates (g : game) (c : color) (x y : Int) :
    (candidates g c x y).length ≤ 64 := by
  unfold candidates
  simp only []
  split
  · split
    · exact le_trans (len_pawn _ _ _ _ _ _ _) (by decide)
    · exact le_trans (len_pawn _ _ _ _ _ _ _) (by decide)
  · split
    · exact le_trans (len_knight _ _ _ _) (by decide)
    · split
      · exact le_trans (len_diag _ _ _ _ _) (by decide)
      · split
        · exact le_trans (len_line _ _ _ _ _) (by decide)
        · split
          · exact len_app (len_diag _ _ _ _ _) (len_line _ _ _ _ _)
          · split
            · exact le_trans (len_app (len_app (len_king_step _ _ _ _)
                (len_castle_left _ _ _ _ _)) (len_castle_right _ _ _ _ _)) (by decide)
            · simp

/-- From an empty list, the caller reads back exactly `candidates`. -/
theorem emitted_eq (g : game) (c : color) (x y : Fin 8) :
    emitted g c x y = candidates g c x.val y.val := by
  unfold emitted
  rw [add_moves_at_eq]
  exact toList_foldl_empty _ (le_trans (len_candidates g c _ _) (by decide))

theorem foldl_flatMap {α : Type} (f : α → List move) (push : σ → move → σ) (l : List α) :
    ∀ s : σ, l.foldl (fun s a => (f a).foldl push s) s = (l.flatMap f).foldl push s := by
  induction l with
  | nil => intro s; rfl
  | cons a l ih => intro s; simp [List.flatMap_cons, List.foldl_append, ih]

/-- The first loop of `add_moves` folds the write over `square_candidates`. -/
theorem collect_moves_eq (push : σ → move → σ) (g : game) (c : color) (s : σ) :
    collect_moves push g c s = (square_candidates g c).foldl push s := by
  unfold collect_moves square_candidates
  simp only [add_moves_at_eq, fold_ite_left, foldl_flatMap, emitted_eq]

theorem legal_moves_eq_filter (g : game) (c : color)
    (h : (square_candidates g c).length ≤ 255) :
    legal_moves g c = (square_candidates g c).filter (king_safe g c) := by
  unfold legal_moves
  rw [add_moves_toList, collect_moves_eq, toList_foldl_empty _ h]

theorem king_safe_of_mem (g : game) (c : color) (m : move) (h : m ∈ legal_moves g c) :
    king_safe g c m = true := by
  unfold legal_moves at h
  rw [add_moves_toList] at h
  exact (List.mem_filter.mp h).2

end

/-! ## Occupancy masks -/

theorem is_piece_eq_testBit (v : pieces_set) (x y : Fin 8) :
    is_piece v x.val y.val = v.testBit (y.val * 8 + x.val) := by
  unfold is_piece
  have hx := x.isLt
  have hy := y.isLt
  have h : ¬ ((x.val : Int) < 0 ∨ (x.val : Int) ≥ 8 ∨ (y.val : Int) < 0 ∨ (y.val : Int) ≥ 8) := by
    omega
  rw [if_neg h]
  have hi : ((y.val : Int) * 8 + (x.val : Int)).toNat = y.val * 8 + x.val := by omega
  rw [hi, Nat.testBit, Nat.and_comm]

theorem is_piece_off_board (v : pieces_set) (x y : Int)
    (h : x < 0 ∨ x ≥ 8 ∨ y < 0 ∨ y ≥ 8) : is_piece v x y = false := by
  unfold is_piece
  rw [if_pos h]

theorem testBit_set_piece (v : pieces_set) (x y : Fin 8) (i : Nat) :
    (pieces_set.set_piece v x.val y.val).testBit i
      = (v.testBit i || decide (i = y.val * 8 + x.val)) := by
  unfold pieces_set.set_piece
  have hx := x.isLt
  have hy := y.isLt
  have h : ¬ ((x.val : Int) < 0 ∨ (x.val : Int) ≥ 8 ∨ (y.val : Int) < 0 ∨ (y.val : Int) ≥ 8) := by
    omega
  rw [if_neg h]
  have hi : ((y.val : Int) * 8 + (x.val : Int)).toNat = y.val * 8 + x.val := by omega
  rw [hi, Nat.testBit_or, Nat.one_shiftLeft, Nat.testBit_two_pow]
  congr 1
  by_cases hh : i = y.val * 8 + x.val
  · simp [hh]
  · have : ¬ (y.val * 8 + x.val = i) := fun h1 => hh h1.symm
    simp [hh, this]

theorem testBit_fold_rank (P : Fin 8 → Prop) [DecidablePred P] (x : Fin 8) (l : List (Fin 8)) :
    ∀ (v : pieces_set) (i : Nat),
    (l.foldl (fun v y => if P y then pieces_set.set_piece v x.val y.val else v) v).testBit i
      = (v.testBit i || l.any (fun y => decide (P y) && decide (i = y.val * 8 + x.val))) := by
  induction l with
  | nil => intro v i; simp
  | cons a l ih =>
    intro v i
    rw [List.foldl_cons, ih, List.any_cons]
    by_cases h : P a
    · simp [h, testBit_set_piece, Bool.or_assoc]
    · simp [h]

theorem testBit_fold_file (P : Fin 8 → Fin 8 → Prop) [∀ x y, Decidable (P x y)]
    (k l : List (Fin 8)) : ∀ (v : pieces_set) (i : Nat),
    (l.foldl (fun v x =>
        k.foldl (fun v y => if P x y then pieces_set.set_piece v x.val y.val else v) v) v).testBit i
      = (v.testBit i
          || l.any (fun x => k.any (fun y => decide (P x y) && decide (i = y.val * 8 + x.val)))) := by
  induction l with
  | nil => intro v i; simp
  | cons a l ih =>
    intro v i
    rw [List.foldl_cons, ih, List.any_cons, testBit_fold_rank (P a) a k, Bool.or_assoc]

theorem mem_coords (x : Fin 8) : x ∈ coords := by
  revert x; decide

/-- A mask built by the double loop over the board has the bit of a square
set exactly when the loop's test holds there. -/
theorem is_piece_fold (P : Fin 8 → Fin 8 → Prop) [∀ x y, Decidable (P x y)] (x y : Fin 8) :
    is_piece (coords.foldl (fun v x =>
        coords.foldl (fun v y => if P x y then pieces_set.set_piece v x.val y.val else v) v) 0)
      x.val y.val = decide (P x y) := by
  rw [is_piece_eq_testBit, testBit_fold_file]
  simp only [Nat.zero_testBit, Bool.false_or]
  by_cases h : P x y
  · simp only [h, decide_True]
    rw [List.any_eq_true]
    refine ⟨x, mem_coords x, ?_⟩
    rw [List.any_eq_true]
    exact ⟨y, mem_coords y, by simp [h]⟩
  · simp only [h, decide_False]
    rw [Bool.eq_false_iff]
    intro hany
    rw [List.any_eq_true] at hany
    obtain ⟨x1, _, h1⟩ := hany
    rw [List.any_eq_true] at h1
    obtain ⟨y1, _, h2⟩ := h1
    simp only [Bool.and_eq_true, decide_eq_true_eq] at h2
    have hx := x.isLt
    have hy := y.isLt
    have hx1 := x1.isLt
    have hy1 := y1.isLt
    have e1 : x1 = x := Fin.ext (by omega)
    have e2 : y1 = y := Fin.ext (by omega)
    rw [e1, e2] at h2
    exact h h2.1

theorem is_piece_find_pieces (b : board) (c : color) (x y : Fin 8) :
    is_piece (find_pieces b c) x.val y.val
      = decide (b.get_color x y = c ∧ get_piece b x y ≠ 0) := by
  unfold find_pieces
  exact is_piece_fold (fun x y => b.get_color x y = c ∧ get_piece b x y ≠ 0) x y

theorem board_get_color_eq (b : board) (x y : Fin 8) :
    b.get_color x y = get_color (get_piece b x y) := by
  unfold board.get_color get_color get_piece piece_of
  simp only []
  have h : (b.rows y >>> (4 * x.val) &&& 15) % 16 &&& 8 = b.rows y >>> (4 * x.val) &&& 8 := by
    rw [Nat.mod_eq_of_lt (nibble_lt _), Nat.and_assoc, show (15 : Nat) &&& 8 = 8 by decide]
  rw [h]

theorem is_piece_or (a b : pieces_set) (x y : Int) :
    is_piece (a ||| b) x y = (is_piece a x y || is_piece b x y) := by
  unfold is_piece
  split
  · rfl
  · have := Nat.testBit_or a b (y * 8 + x).toNat
    simp only [Nat.testBit, Nat.and_comm 1] at this
    exact this

theorem get_color_cases (p : piece) : get_color p = WHITE ∨ get_color p = BLACK := by
  unfold get_color
  split
  · exact Or.inr rfl
  · exact Or.inl rfl

/-- In a state with fresh derived fields the three occupancy masks describe the board. -/
theorem fresh_pieces (g : game) (h : update_game_state g = g) (x y : Fin 8) :
    is_piece g.pieces x.val y.val = decide (get_piece g.b x y ≠ 0) ∧
    is_piece g.white_pieces x.val y.val
      = decide (get_color (get_piece g.b x y) = WHITE ∧ get_piece g.b x y ≠ 0) ∧
    is_piece g.black_pieces x.val y.val
      = decide (get_color (get_piece g.b x y) = BLACK ∧ get_piece g.b x y ≠ 0) := by
  have hw : g.white_pieces = find_pieces g.b WHITE := (congrArg game.white_pieces h).symm
  have hb : g.black_pieces = find_pieces g.b BLACK := (congrArg game.black_pieces h).symm
  have hp : g.pieces = find_pieces g.b WHITE ||| find_pieces g.b BLACK :=
    (congrArg game.pieces h).symm
  rw [hw, hb, hp, is_piece_or, is_piece_find_pieces, is_piece_find_pieces, board_get_color_eq]
  refine ⟨?_, rfl, rfl⟩
  rcases get_color_cases (get_piece g.b x y) with hc | hc
  · by_cases h0 : get_piece g.b x y = 0 <;> simp [hc, h0]
  · by_cases h0 : get_piece g.b x y = 0 <;> simp [hc, h0]

/-! ## Candidates of a king -/

theorem fin8_val (x : Fin 8) : fin8 (x.val : Int) = x := by
  apply Fin.ext
  have := x.isLt
  simp only [fin8]
  omega

theorem fin8_cast (i : Int) (h0 : 0 ≤ i) (h8 : i < 8) : ((fin8 i).val : Int) = i := by
  simp only [fin8]
  omega

theorem mem_cand (m mv : move) : m ∈ cand mv ↔ m = mv ∧ mv ≠ INVALID_MOVE := by
  unfold cand
  split
  · simp [*]
  · simp [*]

/-- What `add_move(moves, length, move_of(...))` can append. -/
theorem mem_cand_move_of (m : move) (sx sy dx dy : Int) (p : piece) :
    m ∈ cand (move_of sx sy dx dy p) ↔
      (0 ≤ dx ∧ dx < 8 ∧ 0 ≤ dy ∧ dy < 8) ∧ m = ⟨fin8 sx, fin8 sy, fin8 dx, fin8 dy, p⟩
        ∧ m ≠ INVALID_MOVE := by
  rw [mem_cand]
  unfold move_of
  by_cases h : dx < 0 ∨ dx ≥ 8 ∨ dy < 0 ∨ dy ≥ 8
  · rw [if_pos h]
    constructor
    · intro h1; exact absurd rfl h1.2
    · intro h1; omega
  · rw [if_neg h]
    constructor
    · rintro ⟨h1, h2⟩
      exact ⟨by omega, h1, by rw [h1]; exact h2⟩
    · rintro ⟨_, h1, h2⟩
      exact ⟨h1, by rw [← h1]; exact h2⟩

theorem ne_invalid_of_piece (m : move) (h : m.p ≠ EMPTY) : m ≠ INVALID_MOVE := by
  intro h1
  rw [h1] at h
  exact h rfl

theorem piece_ne_empty_of_kind (p : piece) (h : get_kind p ≠ 0) : p ≠ EMPTY := by
  intro h1
  rw [h1] at h
  exact h rfl

theorem to_int8_small (i : Nat) (h : i < 128) : to_int8 i = (i : Int) := by
  unfold to_int8
  have : i % 256 = i := Nat.mod_eq_of_lt (by omega)
  rw [this, if_pos h]

theorem left_open_iff (ps : pieces_set) (y : Int) (n : Nat) : ∀ o : Bool,
    left_open ps y n o = true ↔
      (o = true ∧ ∀ i : Nat, 0 < i → i ≤ n → is_piece ps (to_int8 i) y = false) := by
  induction n with
  | zero =>
    intro o
    simp only [left_open]
    constructor
    · intro h; exact ⟨h, fun i h1 h2 => by omega⟩
    · intro h; exact h.1
  | succ n ih =>
    intro o
    rw [left_open, ih]
    constructor
    · rintro ⟨h1, h2⟩
      by_cases hp : is_piece ps (to_int8 (n + 1)) y = true
      · simp [hp] at h1
      · simp only [hp, if_false] at h1
        refine ⟨h1, ?_⟩
        intro i hi hle
        by_cases he : i = n + 1
        · rw [he]; simpa using hp
        · exact h2 i hi (by omega)
    · rintro ⟨h1, h2⟩
      have hp := h2 (n + 1) (by omega) (le_refl _)
      refine ⟨by simp [hp, h1], fun i hi hle => h2 i hi (by omega)⟩

theorem right_open_iff (ps : pieces_set) (y : Int) (n : Nat) : ∀ (i : Nat) (o : Bool),
    right_open ps y n i o = true ↔
      (o = true ∧ ∀ j : Nat, i ≤ j → j < i + n → is_piece ps (to_int8 j) y = false) := by
  induction n with
  | zero =>
    intro i o
    simp only [right_open]
    constructor
    · intro h; exact ⟨h, fun j h1 h2 => by omega⟩
    · intro h; exact h.1
  | succ n ih =>
    intro i o
    rw [right_open, ih]
    constructor
    · rintro ⟨h1, h2⟩
      by_cases hp : is_piece ps (to_int8 i) y = true
      · simp [hp] at h1
      · simp only [hp, if_false] at h1
        refine ⟨h1, ?_⟩
        intro j hj hlt
        by_cases he : j = i
        · rw [he]; simpa using hp
        · exact h2 j (by omega) (by omega)
    · rintro ⟨h1, h2⟩
      have hp := h2 i (le_refl _) (by omega)
      refine ⟨by simp [hp, h1], fun j hj hlt => h2 j (by omega) (by omega)⟩

/-- The one-square king candidates stay within one file and one rank of the king. -/
theorem mem_king_step (allies : pieces_set) (x y : Int) (p : piece) (m : move)
    (h : m ∈ king_step_cands allies x y p) :
    x - 1 ≤ (m.dst_x.val : Int) ∧ (m.dst_x.val : Int) ≤ x + 1 ∧
    y - 1 ≤ (m.dst_y.val : Int) ∧ (m.dst_y.val : Int) ≤ y + 1 ∧
    m.src_x = fin8 x ∧ m.src_y = fin8 y ∧ m.p = p := by
  unfold king_step_cands at h
  simp only [List.mem_append] at h
  have key : ∀ (c : Prop) [Decidable c] (dx dy : Int),
      x - 1 ≤ dx → dx ≤ x + 1 → y - 1 ≤ dy → dy ≤ y + 1 →
      m ∈ (if c then cand (move_of x y dx dy p) else []) →
      x - 1 ≤ (m.dst_x.val : Int) ∧ (m.dst_x.val : Int) ≤ x + 1 ∧
      y - 1 ≤ (m.dst_y.val : Int) ∧ (m.dst_y.val : Int) ≤ y + 1 ∧
      m.src_x = fin8 x ∧ m.src_y = fin8 y ∧ m.p = p := by
    intro c _ dx dy h1 h2 h3 h4 hm
    by_cases hc : c
    · rw [if_pos hc, mem_cand_move_of] at hm
      obtain ⟨hb, he, _⟩ := hm
      subst he
      have e1 := fin8_cast dx hb.1 hb.2.1
      have e2 := fin8_cast dy hb.2.2.1 hb.2.2.2
      refine ⟨?_, ?_, ?_, ?_, rfl, rfl, rfl⟩ <;> dsimp only <;> omega
    · rw [if_neg hc] at hm
      simp at hm
  rcases h with ((((((h | h) | h) | h) | h) | h) | h) | h
  · exact key _ _ _ (by omega) (by omega) (by omega) (by omega) h
  · exact key _ _ _ (by omega) (by omega) (by omega) (by omega) h
  · exact key _ _ _ (by omega) (by omega) (by omega) (by omega) h
  · exact key _ _ _ (by omega) (by omega) (by omega) (by omega) h
  · exact key _ _ _ (by omega) (by omega) (by omega) (by omega) h
  · exact key _ _ _ (by omega) (by omega) (by omega) (by omega) h
  · exact key _ _ _ (by omega) (by omega) (by omega) (by omega) h
  · exact key _ _ _ (by omega) (by omega) (by omega) (by omega) h

theorem candidates_king (g : game) (c : color) (x y : Fin 8)
    (hk : get_kind (get_piece g.b x y) = KING) :
    candidates g c x.val y.val
      = king_step_cands (if c = WHITE then g.white_pieces else g.black_pieces) x.val y.val
          (get_piece g.b x y)
        ++ castle_left_cands g c x.val y.val (get_piece g.b x y)
        ++ castle_right_cands g c x.val y.val (get_piece g.b x y) := by
  unfold candidates
  simp only [fin8_val, hk, show ¬ (KING = PAWN) by decide, show ¬ (KING = KNIGHT) by decide,
    show ¬ (KING = BISHOP) by decide, show ¬ (KING = ROOK) by decide,
    show ¬ (KING = QUEEN) by decide, if_false, if_true]

theorem mem_castle_left (g : game) (c : color) (x y : Int) (p : piece) (m : move) :
    m ∈ castle_left_cands g c x y p ↔
      ((if c = WHITE then g.white_left_castle else g.black_left_castle) = true ∧
        in_check g c = false) ∧
      left_open g.pieces y ((x - 1) % 256).toNat true = true ∧
      m ∈ cand (move_of x y (x - 2) y p) := by
  unfold castle_left_cands in_check
  by_cases h1 : (if c = WHITE then g.white_left_castle else g.black_left_castle) = true
      ∧ (!(if c = WHITE then g.white_in_check else g.black_in_check)) = true
  · rw [if_pos h1]
    by_cases h2 : left_open g.pieces y ((x - 1) % 256).toNat true = true
    · rw [if_pos h2]
      simp only [Bool.not_eq_true'] at h1
      simp [h1, h2]
    · rw [if_neg h2]
      simp [h2]
  · rw [if_neg h1]
    simp only [Bool.not_eq_true'] at h1
    simp only [List.not_mem_nil, false_iff]
    intro h
    exact h1 h.1

theorem mem_castle_right (g : game) (c : color) (x y : Int) (p : piece) (m : move) :
    m ∈ castle_right_cands g c x y p ↔
      ((if c = WHITE then g.white_right_castle else g.black_right_castle) = true ∧
        in_check g c = false) ∧
      right_open g.pieces y (7 - ((x + 1) % 256).toNat) ((x + 1) % 256).toNat true = true ∧
      m ∈ cand (move_of x y (x + 2) y p) := by
  unfold castle_right_cands in_check
  by_cases h1 : (if c = WHITE then g.white_right_castle else g.black_right_castle) = true
      ∧ (!(if c = WHITE then g.white_in_check else g.black_in_check)) = true
  · rw [if_pos h1]
    by_cases h2 : right_open g.pieces y (7 - ((x + 1) % 256).toNat) ((x + 1) % 256).toNat true
        = true
    · rw [if_pos h2]
      simp only [Bool.not_eq_true'] at h1
      simp [h1, h2]
    · rw [if_neg h2]
      simp [h2]
  · rw [if_neg h1]
    simp only [Bool.not_eq_true'] at h1
    simp only [List.not_mem_nil, false_iff]
    intro h
    exact h1 h.1

/-- In a fresh state the combined mask is clear on a square exactly when the
square is empty. -/
theorem fresh_unoccupied (g : game) (h : update_game_state g = g) (x y : Fin 8) :
    is_piece g.pieces x.val y.val = false ↔ get_piece g.b x y = EMPTY := by
  rw [(fresh_pieces g h x y).1]
  simp

/-- The queenside loop finds the path open exactly when the squares strictly
between file 0 and the king are empty. -/
theorem left_open_fresh (g : game) (h : update_game_state g = g) (x y : Fin 8)
    (hx : 1 ≤ x.val) :
    left_open g.pieces y.val (((x.val : Int) - 1) % 256).toNat true = true ↔
      ∀ i : Fin 8, 0 < i.val → i.val < x.val → get_piece g.b i y = EMPTY := by
  have hxl := x.isLt
  have e : (((x.val : Int) - 1) % 256).toNat = x.val - 1 := by omega
  rw [e, left_open_iff]
  constructor
  · rintro ⟨_, h2⟩ i hi hlt
    have := h2 i.val hi (by omega)
    rw [to_int8_small _ (by omega)] at this
    exact (fresh_unoccupied g h i y).mp this
  · intro h2
    refine ⟨rfl, ?_⟩
    intro i hi hle
    rw [to_int8_small _ (by omega)]
    have := (fresh_unoccupied g h ⟨i, by omega⟩ y).mpr (h2 ⟨i, by omega⟩ hi (by simp; omega))
    exact this

/-- The kingside loop finds the path open exactly when the squares strictly
between the king and file 7 are empty. -/
theorem right_open_fresh (g : game) (h : update_game_state g = g) (x y : Fin 8) :
    right_open g.pieces y.val (7 - (((x.val : Int) + 1) % 256).toNat)
        (((x.val : Int) + 1) % 256).toNat true = true ↔
      ∀ i : Fin 8, x.val < i.val → i.val < 7 → get_piece g.b i y = EMPTY := by
  have hxl := x.isLt
  have e : (((x.val : Int) + 1) % 256).toNat = x.val + 1 := by omega
  rw [e, right_open_iff]
  constructor
  · rintro ⟨_, h2⟩ i hi hlt
    have := h2 i.val (by omega) (by omega)
    rw [to_int8_small _ (by omega)] at this
    exact (fresh_unoccupied g h i y).mp this
  · intro h2
    refine ⟨rfl, ?_⟩
    intro i hi hle
    rw [to_int8_small _ (by omega)]
    have := (fresh_unoccupied g h ⟨i, by omega⟩ y).mpr
      (h2 ⟨i, by omega⟩ (by simp; omega) (by simp; omega))
    exact this

/-- The castling candidates of a king on `(x, y)` in a fresh state. -/
theorem castle_candidates_iff (g : game) (c : color) (x y : Fin 8)
    (hf : update_game_state g = g)
    (hk : get_kind (get_piece g.b x y) = KING) :
    ((∃ m ∈ emitted g c x y, (m.dst_x.val : Int) = (x.val : Int) - 2 ∧ m.dst_y = y) ↔
      ((if c = WHITE then g.white_left_castle else g.black_left_castle) = true ∧
        in_check g c = false ∧
        (∀ i : Fin 8, 0 < i.val → i.val < x.val → get_piece g.b i y = EMPTY) ∧
        2 ≤ x.val)) ∧
    ((∃ m ∈ emitted g c x y, (m.dst_x.val : Int) = (x.val : Int) + 2 ∧ m.dst_y = y) ↔
      ((if c = WHITE then g.white_right_castle else g.black_right_castle) = true ∧
        in_check g c = false ∧
        (∀ i : Fin 8, x.val < i.val → i.val < 7 → get_piece g.b i y = EMPTY) ∧
        x.val + 2 ≤ 7)) ∧
    (∀ m ∈ emitted g c x y,
      ((m.dst_x.val : Int) = (x.val : Int) - 2 ∨ (m.dst_x.val : Int) = (x.val : Int) + 2) →
      m = ⟨x, y, m.dst_x, y, get_piece g.b x y⟩) := by
  have hxl := x.isLt
  have hyl := y.isLt
  have hp : get_piece g.b x y ≠ EMPTY := piece_ne_empty_of_kind _ (by rw [hk]; decide)
  have hmem : ∀ m, m ∈ emitted g c x y ↔
      (m ∈ king_step_cands (if c = WHITE then g.white_pieces else g.black_pieces) x.val y.val
          (get_piece g.b x y)
        ∨ m ∈ castle_left_cands g c x.val y.val (get_piece g.b x y))
        ∨ m ∈ castle_right_cands g c x.val y.val (get_piece g.b x y) := by
    intro m
    rw [emitted_eq, candidates_king g c x y hk, List.mem_append, List.mem_append]
  -- the shape of the two castling candidates
  have hleft : ∀ m, m ∈ cand (move_of x.val y.val ((x.val : Int) - 2) y.val (get_piece g.b x y))
      ↔ 2 ≤ x.val ∧ m = ⟨x, y, fin8 ((x.val : Int) - 2), y, get_piece g.b x y⟩ := by
    intro m
    rw [mem_cand_move_of, fin8_val, fin8_val]
    constructor
    · rintro ⟨hb, he, _⟩
      exact ⟨by omega, he⟩
    · rintro ⟨hb, he⟩
      exact ⟨by omega, he, ne_invalid_of_piece m (by rw [he]; exact hp)⟩
  have hright : ∀ m, m ∈ cand (move_of x.val y.val ((x.val : Int) + 2) y.val (get_piece g.b x y))
      ↔ x.val + 2 ≤ 7 ∧ m = ⟨x, y, fin8 ((x.val : Int) + 2), y, get_piece g.b x y⟩ := by
    intro m
    rw [mem_cand_move_of, fin8_val, fin8_val]
    constructor
    · rintro ⟨hb, he, _⟩
      exact ⟨by omega, he⟩
    · rintro ⟨hb, he⟩
      exact ⟨by omega, he, ne_invalid_of_piece m (by rw [he]; exact hp)⟩
  refine ⟨⟨?_, ?_⟩, ⟨?_, ?_⟩, ?_⟩
  · rintro ⟨m, hm, hd, hy⟩
    rcases (hmem m).mp hm with (h | h) | h
    · have := mem_king_step _ _ _ _ _ h
      omega
    · rw [mem_castle_left, hleft] at h
      obtain ⟨⟨h1, h2⟩, h3, h4, _⟩ := h
      exact ⟨h1, h2, (left_open_fresh g hf x y (by omega)).mp h3, h4⟩
    · rw [mem_castle_right, hright] at h
      obtain ⟨_, _, h4, he⟩ := h
      rw [he] at hd
      have := fin8_cast ((x.val : Int) + 2) (by omega) (by omega)
      dsimp only at hd
      omega
  · rintro ⟨h1, h2, h3, h4⟩
    refine ⟨⟨x, y, fin8 ((x.val : Int) - 2), y, get_piece g.b x y⟩, ?_, ?_, rfl⟩
    · rw [hmem]
      left; right
      rw [mem_castle_left, hleft]
      exact ⟨⟨h1, h2⟩, (left_open_fresh g hf x y (by omega)).mpr h3, h4, rfl⟩
    · exact fin8_cast _ (by omega) (by omega)
  · rintro ⟨m, hm, hd, hy⟩
    rcases (hmem m).mp hm with (h | h) | h
    · have := mem_king_step _ _ _ _ _ h
      omega
    · rw [mem_castle_left, hleft] at h
      obtain ⟨_, _, h4, he⟩ := h
      rw [he] at hd
      have := fin8_cast ((x.val : Int) - 2) (by omega) (by omega)
      dsimp only at hd
      omega
    · rw [mem_castle_right, hright] at h
      obtain ⟨⟨h1, h2⟩, h3, h4, _⟩ := h
      exact ⟨h1, h2, (right_open_fresh g hf x y).mp h3, h4⟩
  · rintro ⟨h1, h2, h3, h4⟩
    refine ⟨⟨x, y, fin8 ((x.val : Int) + 2), y, get_piece g.b x y⟩, ?_, ?_, rfl⟩
    · rw [hmem]
      right
      rw [mem_castle_right, hright]
      exact ⟨⟨h1, h2⟩, (right_open_fresh g hf x y).mpr h3, h4, rfl⟩
    · exact fin8_cast _ (by omega) (by omega)
  · intro m hm hd
    rcases (hmem m).mp hm with (h | h) | h
    · have := mem_king_step _ _ _ _ _ h
      omega
    · rw [mem_castle_left, hleft] at h
      obtain ⟨_, _, _, he⟩ := h
      rw [he]
    · rw [mem_castle_right, hright] at h
      obtain ⟨_, _, _, he⟩ := h
      rw [he]

theorem mem_square_candidates (g : game) (c : color) (x y : Fin 8) (m : move)
    (hm : m ∈ emitted g c x y) (hc : g.b.get_color x y = c) : m ∈ square_candidates g c := by
  unfold square_candidates
  rw [List.mem_flatMap]
  refine ⟨x, mem_coords x, ?_⟩
  rw [List.mem_flatMap]
  exact ⟨y, mem_coords y, by rw [if_pos hc]; exact hm⟩

theorem mem_legal_moves_iff (g : game) (c : color) (m : move)
    (h : (square_candidates g c).length ≤ 255) (hm : m ∈ square_candidates g c)
    (hc : c = WHITE ∨ c = BLACK) :
    m ∈ legal_moves g c ↔ in_check (move_piece g m) c = false := by
  rw [legal_moves_eq_filter g c h, List.mem_filter]
  rcases hc with hc | hc <;> subst hc <;> simp [hm, king_safe, in_check]

theorem get_color_make_piece (c : color) (k : kind) (hc : c = WHITE ∨ c = BLACK) (hk : k < 8) :
    get_color (make_piece c k) = c := by
  rcases hc with hc | hc <;> subst hc <;> interval_cases k <;> decide

theorem get_kind_make_piece (c : color) (k : kind) (hc : c = WHITE ∨ c = BLACK) (hk : k < 8) :
    get_kind (make_piece c k) = k := by
  rcases hc with hc | hc <;> subst hc <;> interval_cases k <;> decide

/-- The castling candidates of a king on its home square with both rights,
both paths empty and no check. -/
theorem castle_home (g : game) (c : color) (hc : c = WHITE ∨ c = BLACK)
    (hf : update_game_state g = g)
    (hking : get_piece g.b 4 (home_rank c) = make_piece c KING)
    (hl : (if c = WHITE then g.white_left_castle else g.black_left_castle) = true)
    (hr : (if c = WHITE then g.white_right_castle else g.black_right_castle) = true)
    (hempty : ∀ i : Fin 8, i ≠ 0 → i ≠ 4 → i ≠ 7 → get_piece g.b i (home_rank c) = EMPTY)
    (hchk : in_check g c = false) :
    (⟨4, home_rank c, 6, home_rank c, make_piece c KING⟩ : move) ∈ emitted g c 4 (home_rank c) ∧
    (⟨4, home_rank c, 2, home_rank c, make_piece c KING⟩ : move) ∈ emitted g c 4 (home_rank c) ∧
    ((square_candidates g c).length ≤ 255 →
      ((⟨4, home_rank c, 6, home_rank c, make_piece c KING⟩ : move) ∈ legal_moves g c ↔
        in_check (move_piece g ⟨4, home_rank c, 6, home_rank c, make_piece c KING⟩) c
          = false) ∧
      ((⟨4, home_rank c, 2, home_rank c, make_piece c KING⟩ : move) ∈ legal_moves g c ↔
        in_check (move_piece g ⟨4, home_rank c, 2, home_rank c, make_piece c KING⟩) c
          = false)) := by
  have hk : get_kind (get_piece g.b 4 (home_rank c)) = KING := by
    rw [hking]; exact get_kind_make_piece c KING hc (by decide)
  have hcol : g.b.get_color 4 (home_rank c) = c := by
    rw [board_get_color_eq, hking]; exact get_color_make_piece c KING hc (by decide)
  obtain ⟨h1, h2, h3⟩ := castle_candidates_iff g c 4 (home_rank c) hf hk
  have hright : (⟨4, home_rank c, 6, home_rank c, make_piece c KING⟩ : move)
      ∈ emitted g c 4 (home_rank c) := by
    obtain ⟨m, hm, hd, hy⟩ := h2.mpr ⟨hr, hchk, fun i h4 h7 =>
      hempty i (by intro e; subst e; exact absurd h4 (by decide))
        (by intro e; subst e; exact absurd h4 (by decide))
        (by intro e; subst e; exact absurd h7 (by decide)), by decide⟩
    have e := h3 m hm (Or.inr hd)
    have e6 : m.dst_x = 6 := Fin.ext (by
      have : ((4 : Fin 8).val : Int) = 4 := rfl
      have h6 : ((6 : Fin 8).val : Nat) = 6 := rfl
      omega)
    rw [e6, hking] at e
    rw [← e]; exact hm
  have hleft : (⟨4, home_rank c, 2, home_rank c, make_piece c KING⟩ : move)
      ∈ emitted g c 4 (home_rank c) := by
    obtain ⟨m, hm, hd, hy⟩ := h1.mpr ⟨hl, hchk, fun i h0 h4 =>
      hempty i (by intro e; subst e; exact absurd h0 (by decide))
        (by intro e; subst e; exact absurd h4 (by decide))
        (by intro e; subst e; exact absurd h4 (by decide)), by decide⟩
    have e := h3 m hm (Or.inl hd)
    have e2 : m.dst_x = 2 := Fin.ext (by
      have : ((4 : Fin 8).val : Int) = 4 := rfl
      have h2 : ((2 : Fin 8).val : Nat) = 2 := rfl
      omega)
    rw [e2, hking] at e
    rw [← e]; exact hm
  refine ⟨hright, hleft, fun hlen => ⟨?_, ?_⟩⟩
  · exact mem_legal_moves_iff g c _ hlen (mem_square_candidates g c _ _ _ hright hcol) hc
  · exact mem_legal_moves_iff g c _ hlen (mem_square_candidates g c _ _ _ hleft hcol) hc

/-! ## Candidates of a pawn -/

theorem move_of_fin (sx sy dx dy : Fin 8) (p : piece) :
    move_of sx.val sy.val dx.val dy.val p = ⟨sx, sy, dx, dy, p⟩ := by
  unfold move_of
  have h1 := dx.isLt
  have h2 := dy.isLt
  rw [if_neg (by omega)]
  simp only [fin8_val]

theorem move_of_off_board (sx sy dx dy : Int) (p : piece)
    (h : dx < 0 ∨ dx ≥ 8 ∨ dy < 0 ∨ dy ≥ 8) : move_of sx sy dx dy p = INVALID_MOVE := by
  unfold move_of
  rw [if_pos h]

theorem cand_valid (mv : move) (h : mv.p ≠ EMPTY) : cand mv = [mv] := by
  unfold cand
  rw [if_pos (ne_invalid_of_piece mv h)]

theorem make_piece_ne_empty (p : piece) (k : kind) (h1 : 0 < k) (h2 : k < 8) :
    make_piece (get_color p) k ≠ EMPTY := by
  rcases get_color_cases p with h | h <;> rw [h] <;> interval_cases k <;> decide

/-- What `try_promotion` appends for a move that carries a piece. -/
theorem promo_cands_valid (mv : move) (h : mv.p ≠ EMPTY) :
    promo_cands mv =
      if mv.dst_y.val = last_rank (get_color mv.p) then
        [{ mv with p := make_piece (get_color mv.p) KNIGHT },
         { mv with p := make_piece (get_color mv.p) BISHOP },
         { mv with p := make_piece (get_color mv.p) ROOK },
         { mv with p := make_piece (get_color mv.p) QUEEN }]
      else [mv] := by
  unfold promo_cands last_rank
  rw [cand_valid mv h,
    cand_valid { mv with p := make_piece (get_color mv.p) KNIGHT }
      (make_piece_ne_empty _ _ (by decide) (by decide)),
    cand_valid { mv with p := make_piece (get_color mv.p) BISHOP }
      (make_piece_ne_empty _ _ (by decide) (by decide)),
    cand_valid { mv with p := make_piece (get_color mv.p) ROOK }
      (make_piece_ne_empty _ _ (by decide) (by decide)),
    cand_valid { mv with p := make_piece (get_color mv.p) QUEEN }
      (make_piece_ne_empty _ _ (by decide) (by decide))]
  rfl

theorem mem_promo_cands (m mv : move) (h : mv.p ≠ EMPTY) (hm : m ∈ promo_cands mv) :
    m.src_x = mv.src_x ∧ m.src_y = mv.src_y ∧ m.dst_x = mv.dst_x ∧ m.dst_y = mv.dst_y ∧
    ((mv.dst_y.val ≠ last_rank (get_color mv.p) ∧ m.p = mv.p) ∨
     (mv.dst_y.val = last_rank (get_color mv.p) ∧
        (m.p = make_piece (get_color mv.p) KNIGHT ∨ m.p = make_piece (get_color mv.p) BISHOP ∨
         m.p = make_piece (get_color mv.p) ROOK ∨ m.p = make_piece (get_color mv.p) QUEEN))) := by
  rw [promo_cands_valid mv h] at hm
  by_cases hl : mv.dst_y.val = last_rank (get_color mv.p)
  · rw [if_pos hl] at hm
    simp only [List.mem_cons, List.mem_singleton, List.not_mem_nil, or_false] at hm
    rcases hm with e | e | e | e <;> rw [e] <;> simp [hl]
  · rw [if_neg hl] at hm
    simp only [List.mem_singleton] at hm
    rw [hm]
    simp [hl]

theorem exists_promo_cands (mv : move) (h : mv.p ≠ EMPTY) : ∃ m, m ∈ promo_cands mv := by
  rw [promo_cands_valid mv h]
  split
  · exact ⟨_, List.mem_cons_self _ _⟩
  · exact ⟨_, List.mem_cons_self _ _⟩

theorem is_piece_cast (v : pieces_set) (a b : Int) (fx fy : Fin 8)
    (h1 : (fx.val : Int) = a) (h2 : (fy.val : Int) = b) :
    is_piece v a b = is_piece v fx.val fy.val := by
  rw [h1, h2]

/-- In a fresh state the mask `enemies` marks the squares that hold a piece of
the other colour. -/
theorem fresh_enemy (g : game) (h : update_game_state g = g) (c : color) (x y : Fin 8) :
    is_piece (if c = WHITE then g.black_pieces else g.white_pieces) x.val y.val = true ↔
      get_piece g.b x y ≠ EMPTY ∧ get_color (get_piece g.b x y) = opponent c := by
  obtain ⟨_, hw, hb⟩ := fresh_pieces g h x y
  unfold opponent
  by_cases hc : c = WHITE
  · rw [if_pos hc, if_pos hc, hb]
    simp [and_comm]
  · rw [if_neg hc, if_neg hc, hw]
    simp [and_comm]

theorem candidates_pawn (g : game) (c : color) (x y : Fin 8)
    (hk : get_kind (get_piece g.b x y) = PAWN) :
    candidates g c x.val y.val
      = pawn_cands g.pieces (if c = WHITE then g.black_pieces else g.white_pieces) x.val y.val
          (get_piece g.b x y) (forward c) (pawn_home c) := by
  unfold candidates forward pawn_home
  simp only [fin8_val, hk, if_true]
  split <;> rfl

theorem fin_eq_of_cast (a b : Fin 8) (h : (a.val : Int) = (b.val : Int)) : a = b :=
  Fin.ext (by omega)

/-- One capture line of the `PAWN` case. -/
theorem mem_pawn_capture (g : game) (hf : update_game_state g = g) (c : color)
    (x y fy : Fin 8) (p : piece) (a : Int) (dy : Int) (hfy : (fy.val : Int) = y.val + dy)
    (m : move) :
    m ∈ (if is_piece (if c = WHITE then g.black_pieces else g.white_pieces) a (y.val + dy) = true
          then promo_cands (move_of x.val y.val a (y.val + dy) p) else []) ↔
      ∃ tx : Fin 8, (tx.val : Int) = a ∧
        (get_piece g.b tx fy ≠ EMPTY ∧ get_color (get_piece g.b tx fy) = opponent c) ∧
        m ∈ promo_cands ⟨x, y, tx, fy, p⟩ := by
  rw [← hfy]
  by_cases hb : 0 ≤ a ∧ a < 8
  · obtain ⟨ta, hta⟩ : ∃ ta : Fin 8, (ta.val : Int) = a := ⟨fin8 a, fin8_cast a hb.1 hb.2⟩
    subst hta
    rw [move_of_fin]
    by_cases he : get_piece g.b ta fy ≠ EMPTY ∧ get_color (get_piece g.b ta fy) = opponent c
    · rw [if_pos ((fresh_enemy g hf c ta fy).mpr he)]
      constructor
      · intro h; exact ⟨ta, rfl, he, h⟩
      · rintro ⟨tx, htx, _, hm⟩
        rw [fin_eq_of_cast tx ta htx] at hm
        exact hm
    · rw [if_neg (fun h => he ((fresh_enemy g hf c ta fy).mp h))]
      simp only [List.not_mem_nil, false_iff]
      rintro ⟨tx, htx, he2, _⟩
      rw [fin_eq_of_cast tx ta htx] at he2
      exact he he2
  · have hoff : is_piece (if c = WHITE then g.black_pieces else g.white_pieces) a fy.val
        = false := is_piece_off_board _ _ _ (by omega)
    rw [hoff]
    simp only [Bool.false_eq_true, if_false, List.not_mem_nil, false_iff]
    rintro ⟨tx, htx, _⟩
    have := tx.isLt
    omega

/-- The forward lines of the `PAWN` case. -/
theorem mem_pawn_forward (g : game) (hf : update_game_state g = g)
    (x y fy : Fin 8) (p : piece) (dy home : Int) (hfy : (fy.val : Int) = y.val + dy)
    (hhome : (y.val : Int) = home → 0 ≤ (y.val : Int) + 2 * dy ∧ (y.val : Int) + 2 * dy < 8)
    (hp : p ≠ EMPTY) (m : move) :
    m ∈ (if (!is_piece g.pieces x.val (y.val + dy)) = true then
          promo_cands (move_of x.val y.val x.val (y.val + dy) p)
            ++ (if (y.val : Int) = home ∧ (!is_piece g.pieces x.val (y.val + 2 * dy)) = true then
                  cand (move_of x.val y.val x.val (y.val + 2 * dy) p)
                else [])
        else []) ↔
      (get_piece g.b x fy = EMPTY ∧ m ∈ promo_cands ⟨x, y, x, fy, p⟩) ∨
      (get_piece g.b x fy = EMPTY ∧ (y.val : Int) = home ∧
        ∃ fy2 : Fin 8, (fy2.val : Int) = y.val + 2 * dy ∧ get_piece g.b x fy2 = EMPTY ∧
          m = ⟨x, y, x, fy2, p⟩) := by
  rw [← hfy, move_of_fin]
  by_cases h1 : get_piece g.b x fy = EMPTY
  swap
  · have e1 : is_piece g.pieces x.val fy.val = true := by
      have := (fresh_unoccupied g hf x fy).not.mpr h1
      simpa using this
    rw [e1]
    simp [h1]
  have e1 : is_piece g.pieces x.val fy.val = false := (fresh_unoccupied g hf x fy).mpr h1
  rw [e1]
  simp only [Bool.not_false, if_true, List.mem_append, h1, true_and]
  apply or_congr Iff.rfl
  by_cases hh : (y.val : Int) = home
  swap
  · rw [if_neg (fun h => hh h.1)]
    simp only [List.not_mem_nil, false_iff]
    rintro ⟨h, _⟩
    exact hh h
  obtain ⟨hb1, hb2⟩ := hhome hh
  obtain ⟨t2, ht2⟩ : ∃ t2 : Fin 8, (t2.val : Int) = (y.val : Int) + 2 * dy :=
    ⟨fin8 _, fin8_cast _ hb1 hb2⟩
  rw [← ht2, move_of_fin]
  by_cases h2 : get_piece g.b x t2 = EMPTY
  · have e3 := (fresh_unoccupied g hf x t2).mpr h2
    rw [if_pos ⟨hh, by rw [e3]; rfl⟩, cand_valid _ hp, List.mem_singleton]
    constructor
    · intro e; exact ⟨hh, t2, rfl, h2, e⟩
    · rintro ⟨_, fy2, hfy2, _, e⟩
      rw [e, fin_eq_of_cast fy2 t2 hfy2]
  · have e3 : is_piece g.pieces x.val t2.val = true := by
      have := (fresh_unoccupied g hf x t2).not.mpr h2
      simpa using this
    rw [if_neg (fun h => by rw [e3] at h; exact absurd h.2 (by decide))]
    simp only [List.not_mem_nil, false_iff]
    rintro ⟨_, fy2, hfy2, h3, _⟩
    rw [fin_eq_of_cast fy2 t2 hfy2] at h3
    exact h2 h3

/-- The candidates of a pawn whose forward square `(x, fy)` is on the board. -/
theorem mem_emitted_pawn (g : game) (hf : update_game_state g = g) (c : color)
    (x y fy : Fin 8) (hk : get_kind (get_piece g.b x y) = PAWN)
    (hfy : (fy.val : Int) = y.val + forward c) (m : move) :
    m ∈ emitted g c x y ↔
      (get_piece g.b x fy = EMPTY ∧ m ∈ promo_cands ⟨x, y, x, fy, get_piece g.b x y⟩) ∨
      (get_piece g.b x fy = EMPTY ∧ (y.val : Int) = pawn_home c ∧
        ∃ fy2 : Fin 8, (fy2.val : Int) = y.val + 2 * forward c ∧
          get_piece g.b x fy2 = EMPTY ∧ m = ⟨x, y, x, fy2, get_piece g.b x y⟩) ∨
      (∃ tx : Fin 8, ((tx.val : Int) = x.val - 1 ∨ (tx.val : Int) = x.val + 1) ∧
        (get_piece g.b tx fy ≠ EMPTY ∧ get_color (get_piece g.b tx fy) = opponent c) ∧
        m ∈ promo_cands ⟨x, y, tx, fy, get_piece g.b x y⟩) := by
  have hp : get_piece g.b x y ≠ EMPTY := piece_ne_empty_of_kind _ (by rw [hk]; decide)
  have hhome : (y.val : Int) = pawn_home c →
      0 ≤ (y.val : Int) + 2 * forward c ∧ (y.val : Int) + 2 * forward c < 8 := by
    unfold pawn_home forward
    split <;> intro h <;> omega
  rw [emitted_eq, candidates_pawn g c x y hk]
  unfold pawn_cands
  rw [List.mem_append, List.mem_append,
    mem_pawn_forward g hf x y fy _ _ _ hfy hhome hp m,
    mem_pawn_capture g hf c x y fy _ _ _ hfy m, mem_pawn_capture g hf c x y fy _ _ _ hfy m]
  constructor
  · rintro ((h | h) | h)
    · rcases h with h | h
      · exact Or.inl h
      · exact Or.inr (Or.inl h)
    · obtain ⟨tx, h1, h2, h3⟩ := h
      exact Or.inr (Or.inr ⟨tx, Or.inl h1, h2, h3⟩)
    · obtain ⟨tx, h1, h2, h3⟩ := h
      exact Or.inr (Or.inr ⟨tx, Or.inr h1, h2, h3⟩)
  · rintro (h | h | h)
    · exact Or.inl (Or.inl (Or.inl h))
    · exact Or.inl (Or.inl (Or.inr h))
    · obtain ⟨tx, h1 | h1, h2, h3⟩ := h
      · exact Or.inl (Or.inr ⟨tx, h1, h2, h3⟩)
      · exact Or.inr ⟨tx, h1, h2, h3⟩

theorem forward_cases (c : color) : forward c = 1 ∨ forward c = -1 := by
  unfold forward
  split
  · exact Or.inl rfl
  · exact Or.inr rfl

theorem promo_fields (m : move) (sx sy dx dy : Fin 8) (p : piece) (hp : p ≠ EMPTY)
    (hm : m ∈ promo_cands ⟨sx, sy, dx, dy, p⟩) :
    m.src_x = sx ∧ m.src_y = sy ∧ m.dst_x = dx ∧ m.dst_y = dy := by
  have := mem_promo_cands m _ hp hm
  exact ⟨this.1, this.2.1, this.2.2.1, this.2.2.2.1⟩

/-- The destinations of the candidates of a pawn whose forward square
`(x, fy)` is on the board. -/
theorem pawn_destinations (g : game) (c : color) (x y fy : Fin 8)
    (hf : update_game_state g = g)
    (hk : get_kind (get_piece g.b x y) = PAWN)
    (hfy : (fy.val : Int) = y.val + forward c) :
    ((∃ m ∈ emitted g c x y, m.dst_x = x ∧ m.dst_y = fy) ↔ get_piece g.b x fy = EMPTY) ∧
    (∀ fy2 : Fin 8, (fy2.val : Int) = y.val + 2 * forward c →
      ((∃ m ∈ emitted g c x y, m.dst_x = x ∧ m.dst_y = fy2) ↔
        ((y.val : Int) = pawn_home c ∧ get_piece g.b x fy = EMPTY ∧
          get_piece g.b x fy2 = EMPTY))) ∧
    (∀ tx : Fin 8, ((tx.val : Int) = x.val - 1 ∨ (tx.val : Int) = x.val + 1) →
      ((∃ m ∈ emitted g c x y, m.dst_x = tx ∧ m.dst_y = fy) ↔
        (get_piece g.b tx fy ≠ EMPTY ∧ get_color (get_piece g.b tx fy) = opponent c))) ∧
    (∀ m ∈ emitted g c x y,
      (m.dst_y = fy ∧ ((m.dst_x.val : Int) = x.val ∨ (m.dst_x.val : Int) = x.val - 1 ∨
          (m.dst_x.val : Int) = x.val + 1)) ∨
      (m.dst_x = x ∧ (m.dst_y.val : Int) = y.val + 2 * forward c)) := by
  have hp : get_piece g.b x y ≠ EMPTY := piece_ne_empty_of_kind _ (by rw [hk]; decide)
  have hmem := mem_emitted_pawn g hf c x y fy hk hfy
  have hfw := forward_cases c
  refine ⟨⟨?_, ?_⟩, ?_, ?_, ?_⟩
  · rintro ⟨m, hm, hx, hy⟩
    rcases (hmem m).mp hm with h | h | h
    · exact h.1
    · exact h.1
    · obtain ⟨tx, htx, _, h3⟩ := h
      have e := (promo_fields m _ _ _ _ _ hp h3).2.2.1
      have : tx = x := e.symm.trans hx
      subst this
      omega
  · intro h
    obtain ⟨m, hm⟩ := exists_promo_cands ⟨x, y, x, fy, get_piece g.b x y⟩ hp
    have := promo_fields m _ _ _ _ _ hp hm
    exact ⟨m, (hmem m).mpr (Or.inl ⟨h, hm⟩), this.2.2.1, this.2.2.2⟩
  · intro fy2 hfy2
    constructor
    · rintro ⟨m, hm, hx, hy⟩
      rcases (hmem m).mp hm with h | h | h
      · have e := (promo_fields m _ _ _ _ _ hp h.2).2.2.2
        have : fy2 = fy := hy.symm.trans e
        subst this
        omega
      · obtain ⟨h1, h2, t2, ht2, h3, e⟩ := h
        have : t2 = fy2 := by rw [e] at hy; exact hy
        subst this
        exact ⟨h2, h1, h3⟩
      · obtain ⟨tx, htx, _, h3⟩ := h
        have e := (promo_fields m _ _ _ _ _ hp h3).2.2.1
        have : tx = x := e.symm.trans hx
        subst this
        omega
    · rintro ⟨h1, h2, h3⟩
      exact ⟨⟨x, y, x, fy2, get_piece g.b x y⟩,
        (hmem _).mpr (Or.inr (Or.inl ⟨h2, h1, fy2, hfy2, h3, rfl⟩)), rfl, rfl⟩
  · intro tx htx
    constructor
    · rintro ⟨m, hm, hx, hy⟩
      rcases (hmem m).mp hm with h | h | h
      · have e := (promo_fields m _ _ _ _ _ hp h.2).2.2.1
        have : tx = x := hx.symm.trans e
        subst this
        omega
      · obtain ⟨_, _, t2, _, _, e⟩ := h
        have : tx = x := by rw [e] at hx; exact hx.symm
        subst this
        omega
      · obtain ⟨tx2, _, h2, h3⟩ := h
        have e := (promo_fields m _ _ _ _ _ hp h3).2.2.1
        have : tx2 = tx := e.symm.trans hx
        subst this
        exact h2
    · intro h
      obtain ⟨m, hm⟩ := exists_promo_cands ⟨x, y, tx, fy, get_piece g.b x y⟩ hp
      have := promo_fields m _ _ _ _ _ hp hm
      exact ⟨m, (hmem m).mpr (Or.inr (Or.inr ⟨tx, htx, h, hm⟩)), this.2.2.1, this.2.2.2⟩
  · intro m hm
    rcases (hmem m).mp hm with h | h | h
    · have := promo_fields m _ _ _ _ _ hp h.2
      left
      exact ⟨this.2.2.2, Or.inl (by rw [this.2.2.1])⟩
    · obtain ⟨_, _, t2, ht2, _, e⟩ := h
      right
      rw [e]
      exact ⟨rfl, ht2⟩
    · obtain ⟨tx, htx, _, h3⟩ := h
      have := promo_fields m _ _ _ _ _ hp h3
      left
      refine ⟨this.2.2.2, Or.inr ?_⟩
      rw [this.2.2.1]
      exact htx

/-! ## Promotion -/

/-- The promotion candidates of one destination all go to that destination. -/
theorem filter_promo_cands (sx sy dx dy tx ty : Fin 8) (p : piece) (hp : p ≠ EMPTY) :
    (promo_cands ⟨sx, sy, dx, dy, p⟩).filter (fun m => decide (m.dst_x = tx ∧ m.dst_y = ty))
      = if dx = tx ∧ dy = ty then promo_cands ⟨sx, sy, dx, dy, p⟩ else [] := by
  by_cases h : dx = tx ∧ dy = ty
  · rw [if_pos h, List.filter_eq_self]
    intro m hm
    have := promo_fields m _ _ _ _ _ hp hm
    simp [this.2.2.1, this.2.2.2, h.1, h.2]
  · rw [if_neg h, List.filter_eq_nil_iff]
    intro m hm
    have := promo_fields m _ _ _ _ _ hp hm
    simp only [decide_eq_true_eq]
    rw [this.2.2.1, this.2.2.2]
    exact h

/-- List form of one capture line of the `PAWN` case. -/
theorem pawn_capture_list (g : game) (hf : update_game_state g = g) (c : color)
    (x y fy : Fin 8) (p : piece) (a : Int) (dy : Int) (hfy : (fy.val : Int) = y.val + dy) :
    (if is_piece (if c = WHITE then g.black_pieces else g.white_pieces) a (y.val + dy) = true
      then promo_cands (move_of x.val y.val a (y.val + dy) p) else [])
      = if 0 ≤ a ∧ a < 8 then
          (if get_piece g.b (fin8 a) fy ≠ EMPTY ∧
              get_color (get_piece g.b (fin8 a) fy) = opponent c
            then promo_cands ⟨x, y, fin8 a, fy, p⟩ else [])
        else [] := by
  rw [← hfy]
  by_cases hb : 0 ≤ a ∧ a < 8
  · rw [if_pos hb]
    have ha := fin8_cast a hb.1 hb.2
    have e : move_of x.val y.val a fy.val p = ⟨x, y, fin8 a, fy, p⟩ := by
      rw [← move_of_fin, ha]
    have e2 : is_piece (if c = WHITE then g.black_pieces else g.white_pieces) a fy.val
        = is_piece (if c = WHITE then g.black_pieces else g.white_pieces) (fin8 a).val fy.val := by
      rw [ha]
    rw [e, e2]
    by_cases he : get_piece g.b (fin8 a) fy ≠ EMPTY ∧
        get_color (get_piece g.b (fin8 a) fy) = opponent c
    · rw [if_pos ((fresh_enemy g hf c _ fy).mpr he), if_pos he]
    · rw [if_neg (fun h => he ((fresh_enemy g hf c _ fy).mp h)), if_neg he]
  · rw [if_neg hb, is_piece_off_board _ _ _ (by omega)]
    rfl

/-- List form of the candidates of a pawn that stands one rank short of the
farthest rank of `c`. -/
theorem emitted_pawn_before_last (g : game) (hf : update_game_state g = g) (c : color)
    (x y fy : Fin 8) (hk : get_kind (get_piece g.b x y) = PAWN)
    (hfy : (fy.val : Int) = y.val + forward c) (hlast : fy.val = last_rank c) :
    emitted g c x y
      = (if get_piece g.b x fy = EMPTY then promo_cands ⟨x, y, x, fy, get_piece g.b x y⟩
          else [])
        ++ (if 0 ≤ (x.val : Int) - 1 ∧ (x.val : Int) - 1 < 8 then
              (if get_piece g.b (fin8 ((x.val : Int) - 1)) fy ≠ EMPTY ∧
                  get_color (get_piece g.b (fin8 ((x.val : Int) - 1)) fy) = opponent c
                then promo_cands ⟨x, y, fin8 ((x.val : Int) - 1), fy, get_piece g.b x y⟩
                else [])
            else [])
        ++ (if 0 ≤ (x.val : Int) + 1 ∧ (x.val : Int) + 1 < 8 then
              (if get_piece g.b (fin8 ((x.val : Int) + 1)) fy ≠ EMPTY ∧
                  get_color (get_piece g.b (fin8 ((x.val : Int) + 1)) fy) = opponent c
                then promo_cands ⟨x, y, fin8 ((x.val : Int) + 1), fy, get_piece g.b x y⟩
                else [])
            else []) := by
  have hnothome : ¬ ((y.val : Int) = pawn_home c) := by
    unfold pawn_home
    unfold forward at hfy
    unfold last_rank at hlast
    split at hlast <;> simp_all <;> omega
  rw [emitted_eq, candidates_pawn g c x y hk]
  unfold pawn_cands
  rw [pawn_capture_list g hf c x y fy _ _ _ hfy, pawn_capture_list g hf c x y fy _ _ _ hfy]
  congr 2
  rw [← hfy, move_of_fin]
  by_cases h1 : get_piece g.b x fy = EMPTY
  · rw [if_pos h1, (fresh_unoccupied g hf x fy).mpr h1]
    simp only [Bool.not_false, if_true]
    rw [if_neg (fun h => hnothome h.1), List.append_nil]
  · have e1 : is_piece g.pieces x.val fy.val = true := by
      have := (fresh_unoccupied g hf x fy).not.mpr h1
      simpa using this
    rw [if_neg h1, e1]
    rfl

/-- For a pawn one rank short of the farthest rank of its colour `c`, every
destination on the farthest rank that the pawn rule allows receives exactly
four candidates, carrying the knight, bishop, rook and queen of `c` in that
order. -/
theorem promotion_candidates (g : game) (c : color) (x y fy : Fin 8)
    (hf : update_game_state g = g)
    (hk : get_kind (get_piece g.b x y) = PAWN) (hc : get_color (get_piece g.b x y) = c)
    (hfy : (fy.val : Int) = y.val + forward c) (hlast : fy.val = last_rank c) (tx : Fin 8)
    (hallowed : (tx = x ∧ get_piece g.b x fy = EMPTY) ∨
      (((tx.val : Int) = x.val - 1 ∨ (tx.val : Int) = x.val + 1) ∧
        get_piece g.b tx fy ≠ EMPTY ∧ get_color (get_piece g.b tx fy) = opponent c)) :
    (emitted g c x y).filter (fun m => decide (m.dst_x = tx ∧ m.dst_y = fy))
      = [⟨x, y, tx, fy, make_piece c KNIGHT⟩, ⟨x, y, tx, fy, make_piece c BISHOP⟩,
         ⟨x, y, tx, fy, make_piece c ROOK⟩, ⟨x, y, tx, fy, make_piece c QUEEN⟩] := by
  have hp : get_piece g.b x y ≠ EMPTY := piece_ne_empty_of_kind _ (by rw [hk]; decide)
  have hxl := x.isLt
  have htl := tx.isLt
  have hpromo : promo_cands ⟨x, y, tx, fy, get_piece g.b x y⟩
      = [⟨x, y, tx, fy, make_piece c KNIGHT⟩, ⟨x, y, tx, fy, make_piece c BISHOP⟩,
         ⟨x, y, tx, fy, make_piece c ROOK⟩, ⟨x, y, tx, fy, make_piece c QUEEN⟩] := by
    rw [promo_cands_valid _ hp]
    simp only [hc]
    rw [if_pos hlast]
  rw [emitted_pawn_before_last g hf c x y fy hk hfy hlast, List.filter_append,
    List.filter_append]
  have f1 : ∀ (q : Prop) [Decidable q] (t : Fin 8),
      (if q then promo_cands ⟨x, y, t, fy, get_piece g.b x y⟩ else []).filter
          (fun m => decide (m.dst_x = tx ∧ m.dst_y = fy))
        = if q ∧ t = tx then promo_cands ⟨x, y, tx, fy, get_piece g.b x y⟩ else [] := by
    intro q _ t
    by_cases hq : q
    · rw [if_pos hq, filter_promo_cands _ _ _ _ _ _ _ hp]
      by_cases ht : t = tx
      · subst ht; simp [hq]
      · simp [hq, ht]
    · simp [hq]
  have f2 : ∀ (r q : Prop) [Decidable r] [Decidable q] (t : Fin 8),
      (if r then (if q then promo_cands ⟨x, y, t, fy, get_piece g.b x y⟩ else []) else []).filter
          (fun m => decide (m.dst_x = tx ∧ m.dst_y = fy))
        = if (r ∧ q) ∧ t = tx then promo_cands ⟨x, y, tx, fy, get_piece g.b x y⟩ else [] := by
    intro r q _ _ t
    by_cases hr : r
    · rw [if_pos hr, f1]
      simp [hr]
    · simp [hr]
  rw [f1, f2, f2]
  rcases hallowed with ⟨h1, h2⟩ | ⟨h1 | h1, h2⟩
  · subst h1
    have ha : ¬ (fin8 ((tx.val : Int) - 1) = tx) := by
      intro e
      by_cases hb : 0 ≤ (tx.val : Int) - 1
      · have := fin8_cast _ hb (by omega)
        rw [e] at this; omega
      · have : (tx.val : Int) = 0 := by omega
        rw [this] at e
        have e2 := congrArg Fin.val e
        simp [fin8] at e2
        omega
    have hb : ¬ (fin8 ((tx.val : Int) + 1) = tx) := by
      intro e
      by_cases hb : (tx.val : Int) + 1 < 8
      · have := fin8_cast _ (by omega) hb
        rw [e] at this; omega
      · have : (tx.val : Int) = 7 := by omega
        rw [this] at e
        have e2 := congrArg Fin.val e
        simp [fin8] at e2
        omega
    rw [if_pos ⟨h2, rfl⟩, if_neg (fun h => ha h.2), if_neg (fun h => hb h.2), hpromo]
    rfl
  · have e : fin8 ((x.val : Int) - 1) = tx := by
      rw [← h1, fin8_val]
    have hne : ¬ (x = tx) := by intro e2; rw [e2] at h1; omega
    have hne2 : ¬ (fin8 ((x.val : Int) + 1) = tx) := by
      intro e2
      by_cases hb : (x.val : Int) + 1 < 8
      · have := fin8_cast _ (by omega) hb
        rw [e2] at this; omega
      · have : (x.val : Int) = 7 := by omega
        rw [this] at e2
        have e3 := congrArg Fin.val e2
        simp [fin8] at e3
        omega
    rw [if_neg (fun h => hne h.2), if_pos ⟨⟨by omega, by rw [e]; exact h2⟩, e⟩,
      if_neg (fun h => hne2 h.2), hpromo]
    rfl
  · have e : fin8 ((x.val : Int) + 1) = tx := by
      rw [← h1, fin8_val]
    have hne : ¬ (x = tx) := by intro e2; rw [e2] at h1; omega
    have hne2 : ¬ (fin8 ((x.val : Int) - 1) = tx) := by
      intro e2
      by_cases hb : 0 ≤ (x.val : Int) - 1
      · have := fin8_cast _ hb (by omega)
        rw [e2] at this; omega
      · have : (x.val : Int) = 0 := by omega
        rw [this] at e2
        have e3 := congrArg Fin.val e2
        simp [fin8] at e3
        omega
    rw [if_neg (fun h => hne h.2), if_neg (fun h => hne2 h.2),
      if_pos ⟨⟨by omega, by rw [e]; exact h2⟩, e⟩, hpromo]
    rfl

/-- A candidate of a pawn whose forward square is on the board carries the
pawn itself unless its destination is on the farthest rank of the pawn's
colour. -/
theorem plain_pawn_candidates (g : game) (c : color) (x y fy : Fin 8)
    (hf : update_game_state g = g)
    (hk : get_kind (get_piece g.b x y) = PAWN) (hc : get_color (get_piece g.b x y) = c)
    (hfy : (fy.val : Int) = y.val + forward c) (m : move) (hm : m ∈ emitted g c x y)
    (hd : m.dst_y.val ≠ last_rank c) : m.p = get_piece g.b x y := by
  have hp : get_piece g.b x y ≠ EMPTY := piece_ne_empty_of_kind _ (by rw [hk]; decide)
  have key : ∀ t : Fin 8, m ∈ promo_cands ⟨x, y, t, fy, get_piece g.b x y⟩ →
      m.p = get_piece g.b x y := by
    intro t ht
    have h := mem_promo_cands m _ hp ht
    rcases h.2.2.2.2 with h1 | h1
    · exact h1.2
    · exfalso
      apply hd
      rw [h.2.2.2.1]
      have := h1.1
      rw [hc] at this
      exact this
  rcases (mem_emitted_pawn g hf c x y fy hk hfy m).mp hm with h | h | h
  · exact key _ h.2
  · obtain ⟨_, _, t2, _, _, e⟩ := h
    rw [e]
  · obtain ⟨tx, _, _, h3⟩ := h
    exact key _ h3

/-! ## Attacked squares -/

theorem is_targeted_set_targeted (v : targets_set) (a b : Int) (tx ty : Fin 8) :
    is_targeted (set_targeted v a b) tx.val ty.val = true ↔
      is_targeted v tx.val ty.val = true ∨ (a = tx.val ∧ b = ty.val) := by
  have htx := tx.isLt
  have hty := ty.isLt
  by_cases h : a < 0 ∨ a ≥ 8 ∨ b < 0 ∨ b ≥ 8
  · have hs : set_targeted v a b = v := by unfold set_targeted; rw [if_pos h]
    rw [hs]
    constructor
    · exact Or.inl
    · rintro (h1 | ⟨h1, h2⟩)
      · exact h1
      · omega
  · obtain ⟨fa, hfa⟩ : ∃ fa : Fin 8, (fa.val : Int) = a :=
      ⟨fin8 a, fin8_cast a (by omega) (by omega)⟩
    obtain ⟨fb, hfb⟩ : ∃ fb : Fin 8, (fb.val : Int) = b :=
      ⟨fin8 b, fin8_cast b (by omega) (by omega)⟩
    subst hfa
    subst hfb
    have e1 : is_targeted (set_targeted v fa.val fb.val) tx.val ty.val
        = (pieces_set.set_piece v fa.val fb.val).testBit (ty.val * 8 + tx.val) :=
      is_piece_eq_testBit _ tx ty
    have e2 : is_targeted v tx.val ty.val = v.testBit (ty.val * 8 + tx.val) :=
      is_piece_eq_testBit _ tx ty
    rw [e1, e2, testBit_set_piece]
    simp only [Bool.or_eq_true, decide_eq_true_eq]
    have := fa.isLt
    have := fb.isLt
    constructor
    · rintro (h1 | h1)
      · exact Or.inl h1
      · right; omega
    · rintro (h1 | h1)
      · exact Or.inl h1
      · right; omega

theorem ray_step (a d : Int) (j : Nat) : a + d + (j : Int) * d = a + ((j + 1 : Nat) : Int) * d := by
  push_cast; ring

/-- The squares marked by one ray loop of `threaten`. -/
theorem ray_targets_iff (ps : pieces_set) (dx dy : Int) (tx ty : Fin 8) (n : Nat) :
    ∀ (vx vy : Int) (v : targets_set),
    is_targeted (ray_targets ps dx dy n vx vy v) tx.val ty.val = true ↔
      is_targeted v tx.val ty.val = true ∨
      ∃ k : Nat, k < n ∧
        (∀ j : Nat, j ≤ k → ray_cond dx dy (vx + j * dx) (vy + j * dy) = true) ∧
        (∀ j : Nat, j < k → is_piece ps (vx + j * dx) (vy + j * dy) = false) ∧
        (tx.val : Int) = vx + k * dx ∧ (ty.val : Int) = vy + k * dy := by
  induction n with
  | zero => intro vx vy v; simp [ray_targets]
  | succ n ih =>
    intro vx vy v
    rw [ray_targets]
    by_cases hc : ray_cond dx dy vx vy = true
    · rw [if_pos hc]
      have zero_case : ((vx = (tx.val : Int) ∧ vy = (ty.val : Int)) →
          ∃ k : Nat, k < n + 1 ∧
            (∀ j : Nat, j ≤ k → ray_cond dx dy (vx + j * dx) (vy + j * dy) = true) ∧
            (∀ j : Nat, j < k → is_piece ps (vx + j * dx) (vy + j * dy) = false) ∧
            (tx.val : Int) = vx + k * dx ∧ (ty.val : Int) = vy + k * dy) := by
        rintro ⟨h1, h2⟩
        refine ⟨0, by omega, ?_, fun j hj => by omega, by simp [h1], by simp [h2]⟩
        intro j hj
        have : j = 0 := by omega
        subst this
        simpa using hc
      by_cases hp : is_piece ps vx vy = true
      · rw [if_pos hp, is_targeted_set_targeted]
        constructor
        · rintro (h | h)
          · exact Or.inl h
          · exact Or.inr (zero_case h)
        · rintro (h | ⟨k, hk, h1, h2, h3, h4⟩)
          · exact Or.inl h
          · by_cases hk0 : k = 0
            · subst hk0
              simp only [Nat.cast_zero, zero_mul, add_zero] at h3 h4
              exact Or.inr ⟨h3.symm, h4.symm⟩
            · have h0 := h2 0 (by omega)
              simp only [Nat.cast_zero, zero_mul, add_zero] at h0
              rw [h0] at hp
              exact absurd hp (by simp)
      · rw [if_neg hp, ih, is_targeted_set_targeted]
        constructor
        · rintro ((h | h) | ⟨k, hk, h1, h2, h3, h4⟩)
          · exact Or.inl h
          · exact Or.inr (zero_case h)
          · right
            refine ⟨k + 1, by omega, ?_, ?_, ?_, ?_⟩
            · intro j hj
              cases j with
              | zero => simpa using hc
              | succ j =>
                have := h1 j (by omega)
                rw [ray_step, ray_step] at this
                exact this
            · intro j hj
              cases j with
              | zero => simpa using hp
              | succ j =>
                have := h2 j (by omega)
                rw [ray_step, ray_step] at this
                exact this
            · rw [h3, ray_step]
            · rw [h4, ray_step]
        · rintro (h | ⟨k, hk, h1, h2, h3, h4⟩)
          · exact Or.inl (Or.inl h)
          · cases k with
            | zero =>
              simp only [Nat.cast_zero, zero_mul, add_zero] at h3 h4
              exact Or.inl (Or.inr ⟨h3.symm, h4.symm⟩)
            | succ k =>
              right
              refine ⟨k, by omega, ?_, ?_, ?_, ?_⟩
              · intro j hj
                have := h1 (j + 1) (by omega)
                rw [← ray_step, ← ray_step] at this
                exact this
              · intro j hj
                have := h2 (j + 1) (by omega)
                rw [← ray_step, ← ray_step] at this
                exact this
              · rw [h3, ray_step]
              · rw [h4, ray_step]
    · rw [if_neg hc]
      constructor
      · exact Or.inl
      · rintro (h | ⟨k, hk, h1, h2, h3, h4⟩)
        · exact h
        · have := h1 0 (by omega)
          simp only [Nat.cast_zero, zero_mul, add_zero] at this
          exact absurd this hc

/-- On the way from a square of the board to another one along one of the
eight directions the loop condition holds, and fewer than eight steps are made. -/
theorem ray_cond_on_segment (sx sy tx ty : Fin 8) (dx dy : Int)
    (hdx : dx = -1 ∨ dx = 0 ∨ dx = 1) (hdy : dy = -1 ∨ dy = 0 ∨ dy = 1)
    (hne : dx ≠ 0 ∨ dy ≠ 0) (k : Nat)
    (h1 : (tx.val : Int) = sx.val + dx + k * dx) (h2 : (ty.val : Int) = sy.val + dy + k * dy) :
    k < 8 ∧ ∀ j : Nat, j ≤ k →
      ray_cond dx dy ((sx.val : Int) + dx + j * dx) ((sy.val : Int) + dy + j * dy) = true := by
  have := sx.isLt
  have := sy.isLt
  have := tx.isLt
  have := ty.isLt
  unfold ray_cond
  rcases hdx with h | h | h <;> rcases hdy with h' | h' | h' <;> subst h <;> subst h' <;>
    simp at hne h1 h2 ⊢ <;> refine ⟨by omega, ?_⟩ <;> intro j hj <;> omega

/-- One ray loop of `threaten` started next to a square of the board marks
the squares of the ray up to and including the first one set in `ps`. -/
theorem ray_targets_board (ps : pieces_set) (sx sy tx ty : Fin 8) (dx dy : Int)
    (hdx : dx = -1 ∨ dx = 0 ∨ dx = 1) (hdy : dy = -1 ∨ dy = 0 ∨ dy = 1)
    (hne : dx ≠ 0 ∨ dy ≠ 0) (ax ay : Int) (hax : ax = sx.val + dx) (hay : ay = sy.val + dy)
    (v : targets_set) :
    is_targeted (ray_targets ps dx dy 8 ax ay v) tx.val ty.val = true ↔
      is_targeted v tx.val ty.val = true ∨
      ∃ k : Nat, 1 ≤ k ∧ (tx.val : Int) = sx.val + k * dx ∧ (ty.val : Int) = sy.val + k * dy ∧
        ray_clear ps sx.val sy.val dx dy k := by
  subst hax
  subst hay
  rw [ray_targets_iff]
  apply or_congr Iff.rfl
  constructor
  · rintro ⟨k, _, _, h2, h3, h4⟩
    refine ⟨k + 1, by omega, by rw [h3, ray_step], by rw [h4, ray_step], ?_⟩
    intro j hj1 hj2
    obtain ⟨i, rfl⟩ : ∃ i, j = i + 1 := ⟨j - 1, by omega⟩
    have := h2 i (by omega)
    rw [ray_step, ray_step] at this
    exact this
  · rintro ⟨k, hk, h3, h4, h5⟩
    obtain ⟨i, rfl⟩ : ∃ i, k = i + 1 := ⟨k - 1, by omega⟩
    rw [← ray_step] at h3 h4
    obtain ⟨hb, hc⟩ := ray_cond_on_segment sx sy tx ty dx dy hdx hdy hne i h3 h4
    refine ⟨i, hb, hc, ?_, h3, h4⟩
    intro j hj
    have := h5 (j + 1) (by omega) (by omega)
    rw [← ray_step, ← ray_step] at this
    exact this

theorem diag_targets_iff (ps : pieces_set) (v : targets_set) (sx sy tx ty : Fin 8) :
    is_targeted (diag_targets ps v sx.val sy.val) tx.val ty.val = true ↔
      is_targeted v tx.val ty.val = true ∨
      ∃ d ∈ diag_dirs, ∃ k : Nat, 1 ≤ k ∧ (tx.val : Int) = sx.val + k * d.1 ∧
        (ty.val : Int) = sy.val + k * d.2 ∧ ray_clear ps sx.val sy.val d.1 d.2 k := by
  unfold diag_targets
  simp only []
  rw [ray_targets_board ps sx sy tx ty (-1) 1 (by decide) (by decide) (by decide) _ _
        (by omega) (by omega),
      ray_targets_board ps sx sy tx ty 1 1 (by decide) (by decide) (by decide) _ _
        (by omega) (by omega),
      ray_targets_board ps sx sy tx ty 1 (-1) (by decide) (by decide) (by decide) _ _
        (by omega) (by omega),
      ray_targets_board ps sx sy tx ty (-1) (-1) (by decide) (by decide) (by decide) _ _
        (by omega) (by omega)]
  simp only [diag_dirs, List.mem_cons, List.mem_singleton, List.not_mem_nil, or_false,
    exists_eq_or_imp, exists_eq_left, or_assoc]

theorem line_targets_iff (ps : pieces_set) (v : targets_set) (sx sy tx ty : Fin 8) :
    is_targeted (line_targets ps v sx.val sy.val) tx.val ty.val = true ↔
      is_targeted v tx.val ty.val = true ∨
      ∃ d ∈ line_dirs, ∃ k : Nat, 1 ≤ k ∧ (tx.val : Int) = sx.val + k * d.1 ∧
        (ty.val : Int) = sy.val + k * d.2 ∧ ray_clear ps sx.val sy.val d.1 d.2 k := by
  unfold line_targets
  simp only []
  rw [ray_targets_board ps sx sy tx ty 0 1 (by decide) (by decide) (by decide) _ _
        (by omega) (by omega),
      ray_targets_board ps sx sy tx ty 0 (-1) (by decide) (by decide) (by decide) _ _
        (by omega) (by omega),
      ray_targets_board ps sx sy tx ty 1 0 (by decide) (by decide) (by decide) _ _
        (by omega) (by omega),
      ray_targets_board ps sx sy tx ty (-1) 0 (by decide) (by decide) (by decide) _ _
        (by omega) (by omega)]
  simp only [line_dirs, List.mem_cons, List.mem_singleton, List.not_mem_nil, or_false,
    exists_eq_or_imp, exists_eq_left, or_assoc]

theorem get_kind_cases (p : piece) : get_kind p = 0 ∨ get_kind p = 1 ∨ get_kind p = PAWN ∨
    get_kind p = KNIGHT ∨ get_kind p = BISHOP ∨ get_kind p = ROOK ∨ get_kind p = QUEEN ∨
    get_kind p = KING := by
  revert p; decide

theorem attacks_pawn (ps : pieces_set) (p : piece) (sx sy tx ty : Int)
    (hk : get_kind p = PAWN) :
    attacks ps p sx sy tx ty ↔
      ty = sy + forward (get_color p) ∧ (tx = sx - 1 ∨ tx = sx + 1) := by
  simp [attacks, hk, slider_dirs]

theorem attacks_knight (ps : pieces_set) (p : piece) (sx sy tx ty : Int)
    (hk : get_kind p = KNIGHT) :
    attacks ps p sx sy tx ty ↔ (tx - sx, ty - sy) ∈ knight_offsets := by
  simp [attacks, hk, slider_dirs]

theorem attacks_king (ps : pieces_set) (p : piece) (sx sy tx ty : Int)
    (hk : get_kind p = KING) :
    attacks ps p sx sy tx ty ↔ (tx - sx, ty - sy) ∈ king_offsets := by
  simp [attacks, hk, slider_dirs]

theorem attacks_slider (ps : pieces_set) (p : piece) (sx sy tx ty : Int)
    (hk : get_kind p = BISHOP ∨ get_kind p = ROOK ∨ get_kind p = QUEEN) :
    attacks ps p sx sy tx ty ↔
      ∃ d ∈ slider_dirs (get_kind p), ∃ k : Nat, 1 ≤ k ∧ tx = sx + k * d.1 ∧
        ty = sy + k * d.2 ∧ ray_clear ps sx sy d.1 d.2 k := by
  rcases hk with hk | hk | hk <;> simp [attacks, hk]

theorem targeted_knight (v : targets_set) (sx sy tx ty : Fin 8) :
    is_targeted
      (set_targeted (set_targeted (set_targeted (set_targeted (set_targeted (set_targeted
        (set_targeted (set_targeted v ((sx.val : Int) - 1) ((sy.val : Int) - 2))
          ((sx.val : Int) + 1) ((sy.val : Int) - 2))
          ((sx.val : Int) - 1) ((sy.val : Int) + 2))
          ((sx.val : Int) + 1) ((sy.val : Int) + 2))
          ((sx.val : Int) - 2) ((sy.val : Int) - 1))
          ((sx.val : Int) - 2) ((sy.val : Int) + 1))
          ((sx.val : Int) + 2) ((sy.val : Int) - 1))
          ((sx.val : Int) + 2) ((sy.val : Int) + 1)) tx.val ty.val = true ↔
      is_targeted v tx.val ty.val = true ∨
        ((tx.val : Int) - sx.val, (ty.val : Int) - sy.val) ∈ knight_offsets := by
  simp only [is_targeted_set_targeted, or_assoc, knight_offsets, List.mem_cons,
    List.mem_singleton, Prod.mk.injEq, List.not_mem_nil, or_false]
  refine or_congr Iff.rfl (or_congr ?_ (or_congr ?_ (or_congr ?_ (or_congr ?_
    (or_congr ?_ (or_congr ?_ (or_congr ?_ ?_))))))) <;> omega

theorem targeted_king (v : targets_set) (sx sy tx ty : Fin 8) :
    is_targeted
      (set_targeted (set_targeted (set_targeted (set_targeted (set_targeted (set_targeted
        (set_targeted (set_targeted v ((sx.val : Int) - 1) ((sy.val : Int) - 1))
          (sx.val : Int) ((sy.val : Int) - 1))
          ((sx.val : Int) + 1) ((sy.val : Int) - 1))
          ((sx.val : Int) - 1) (sy.val : Int))
          ((sx.val : Int) + 1) (sy.val : Int))
          ((sx.val : Int) - 1) ((sy.val : Int) + 1))
          (sx.val : Int) ((sy.val : Int) + 1))
          ((sx.val : Int) + 1) ((sy.val : Int) + 1)) tx.val ty.val = true ↔
      is_targeted v tx.val ty.val = true ∨
        ((tx.val : Int) - sx.val, (ty.val : Int) - sy.val) ∈ king_offsets := by
  simp only [is_targeted_set_targeted, or_assoc, king_offsets, List.mem_cons,
    List.mem_singleton, Prod.mk.injEq, List.not_mem_nil, or_false]
  refine or_congr Iff.rfl (or_congr ?_ (or_congr ?_ (or_congr ?_ (or_congr ?_
    (or_congr ?_ (or_congr ?_ (or_congr ?_ ?_))))))) <;> omega

theorem targeted_pawn_up (v : targets_set) (sx sy tx ty : Fin 8) :
    is_targeted (set_targeted (set_targeted v ((sx.val : Int) - 1) ((sy.val : Int) + 1))
        ((sx.val : Int) + 1) ((sy.val : Int) + 1)) tx.val ty.val = true ↔
      is_targeted v tx.val ty.val = true ∨
        ((ty.val : Int) = sy.val + 1 ∧
          ((tx.val : Int) = sx.val - 1 ∨ (tx.val : Int) = sx.val + 1)) := by
  simp only [is_targeted_set_targeted, or_assoc]
  refine or_congr Iff.rfl ?_
  omega

theorem targeted_pawn_down (v : targets_set) (sx sy tx ty : Fin 8) :
    is_targeted (set_targeted (set_targeted v ((sx.val : Int) - 1) ((sy.val : Int) - 1))
        ((sx.val : Int) + 1) ((sy.val : Int) - 1)) tx.val ty.val = true ↔
      is_targeted v tx.val ty.val = true ∨
        ((ty.val : Int) = sy.val + -1 ∧
          ((tx.val : Int) = sx.val - 1 ∨ (tx.val : Int) = sx.val + 1)) := by
  simp only [is_targeted_set_targeted, or_assoc]
  refine or_congr Iff.rfl ?_
  omega

/-- The squares that `threaten` adds for the piece `p` on `(sx, sy)`. -/
theorem threaten_iff (ps : pieces_set) (v : targets_set) (p : piece) (sx sy tx ty : Fin 8) :
    is_targeted (threaten ps v p sx.val sy.val) tx.val ty.val = true ↔
      is_targeted v tx.val ty.val = true ∨ attacks ps p sx.val sy.val tx.val ty.val := by
  rcases get_kind_cases p with hk | hk | hk | hk | hk | hk | hk | hk
  · simp [threaten, attacks, hk, slider_dirs]
  · simp [threaten, attacks, hk, slider_dirs]
  · rw [attacks_pawn ps p _ _ _ _ hk]
    unfold threaten forward
    rw [if_pos hk]
    rcases get_color_cases p with hc | hc
    · rw [hc, if_neg (by decide), if_pos rfl]
      exact targeted_pawn_up v sx sy tx ty
    · rw [hc, if_pos rfl, if_neg (by decide)]
      exact targeted_pawn_down v sx sy tx ty
  · rw [attacks_knight ps p _ _ _ _ hk]
    unfold threaten
    rw [hk, if_neg (by decide), if_pos rfl]
    exact targeted_knight v sx sy tx ty
  · rw [attacks_slider ps p _ _ _ _ (Or.inl hk)]
    unfold threaten
    rw [hk, if_neg (by decide), if_neg (by decide), if_pos rfl, diag_targets_iff]
    rfl
  · rw [attacks_slider ps p _ _ _ _ (Or.inr (Or.inl hk))]
    unfold threaten
    rw [hk, if_neg (by decide), if_neg (by decide), if_neg (by decide), if_pos rfl,
      line_targets_iff]
    rfl
  · rw [attacks_slider ps p _ _ _ _ (Or.inr (Or.inr hk))]
    unfold threaten
    rw [hk, if_neg (by decide), if_neg (by decide), if_neg (by decide), if_neg (by decide),
      if_pos rfl, line_targets_iff, diag_targets_iff]
    have hs : slider_dirs QUEEN = diag_dirs ++ line_dirs := rfl
    rw [hs]
    refine or_assoc.trans (or_congr Iff.rfl ?_)
    constructor
    · rintro (⟨d, hd, h⟩ | ⟨d, hd, h⟩)
      · exact ⟨d, List.mem_append_left _ hd, h⟩
      · exact ⟨d, List.mem_append_right _ hd, h⟩
    · rintro ⟨d, hd, h⟩
      rcases List.mem_append.mp hd with hd | hd
      · exact Or.inl ⟨d, hd, h⟩
      · exact Or.inr ⟨d, hd, h⟩
  · rw [attacks_king ps p _ _ _ _ hk]
    unfold threaten
    rw [hk, if_neg (by decide), if_neg (by decide), if_neg (by decide), if_neg (by decide),
      if_neg (by decide), if_pos rfl]
    exact targeted_king v sx sy tx ty

theorem fold_targets {α : Type} (tx ty : Fin 8) (f : targets_set → α → targets_set)
    (A : α → Prop)
    (h : ∀ v a, is_targeted (f v a) tx.val ty.val = true ↔
      is_targeted v tx.val ty.val = true ∨ A a) (l : List α) :
    ∀ v, is_targeted (l.foldl f v) tx.val ty.val = true ↔
      is_targeted v tx.val ty.val = true ∨ ∃ a ∈ l, A a := by
  induction l with
  | nil => intro v; simp
  | cons a l ih =>
    intro v
    rw [List.foldl_cons, ih, h]
    simp only [List.mem_cons, exists_eq_or_imp, or_assoc]

theorem is_targeted_zero (x y : Int) : is_targeted 0 x y = false := by
  unfold is_targeted
  split
  · rfl
  · simp

/-- The attacked set: a square is marked exactly when some piece of colour
`c` attacks it, with `ps` as the occupancy that stops rays. -/
theorem find_targeted_iff (b : board) (ps : pieces_set) (c : color) (tx ty : Fin 8) :
    is_targeted (find_targeted b ps c) tx.val ty.val = true ↔
      ∃ sx sy : Fin 8, get_color (get_piece b sx sy) = c ∧
        attacks ps (get_piece b sx sy) sx.val sy.val tx.val ty.val := by
  unfold find_targeted
  have inner : ∀ (x : Fin 8) (v : targets_set) (y : Fin 8),
      is_targeted (if get_color (get_piece b x y) = c then
          threaten ps v (get_piece b x y) x.val y.val else v) tx.val ty.val = true ↔
        is_targeted v tx.val ty.val = true ∨ (get_color (get_piece b x y) = c ∧
          attacks ps (get_piece b x y) x.val y.val tx.val ty.val) := by
    intro x v y
    by_cases hc : get_color (get_piece b x y) = c
    · rw [if_pos hc, threaten_iff]
      simp [hc]
    · rw [if_neg hc]
      simp [hc]
  have outer := fold_targets tx ty
    (fun v x => coords.foldl (fun v y =>
      if get_color (get_piece b x y) = c then threaten ps v (get_piece b x y) x.val y.val
      else v) v)
    (fun x => ∃ y ∈ coords, get_color (get_piece b x y) = c ∧
          attacks ps (get_piece b x y) x.val y.val tx.val ty.val)
    (fun v x => fold_targets tx ty _ _ (inner x) coords v) coords 0
  rw [outer]
  simp [is_targeted_zero, mem_coords]

/-! ## Check and the occupancy masks -/

theorem is_targeted_eq_testBit (v : targets_set) (x y : Fin 8) :
    is_targeted v x.val y.val = v.testBit (y.val * 8 + x.val) :=
  is_piece_eq_testBit v x y

theorem and_ne_zero_of_testBit (a b i : Nat) (ha : a.testBit i = true)
    (hb : b.testBit i = true) : (a &&& b != 0) = true := by
  rw [bne_iff_ne]
  intro h
  have := Nat.testBit_and a b i
  rw [h, ha, hb] at this
  simp at this

theorem and_ne_zero_iff (a b : Nat) :
    (a &&& b != 0) = true ↔ ∃ i, a.testBit i = true ∧ b.testBit i = true := by
  constructor
  · intro h
    rw [bne_iff_ne] at h
    by_contra hn
    apply h
    apply Nat.eq_of_testBit_eq
    intro i
    rw [Nat.testBit_and, Nat.zero_testBit]
    by_cases ha : a.testBit i = true
    · by_cases hb : b.testBit i = true
      · exact absurd ⟨i, ha, hb⟩ hn
      · simp [hb]
    · simp [ha]
  · rintro ⟨i, ha, hb⟩
    exact and_ne_zero_of_testBit a b i ha hb

/-- The combined mask that `update_game_state` computes is clear exactly on
the empty squares. -/
theorem is_piece_pieces (b : board) (x y : Fin 8) :
    is_piece (find_pieces b WHITE ||| find_pieces b BLACK) x.val y.val
      = decide (get_piece b x y ≠ 0) := by
  rw [is_piece_or, is_piece_find_pieces, is_piece_find_pieces, board_get_color_eq]
  rcases get_color_cases (get_piece b x y) with hc | hc
  · by_cases h0 : get_piece b x y = 0 <;> simp [hc, h0]
  · by_cases h0 : get_piece b x y = 0 <;> simp [hc, h0]

theorem is_piece_find_king (b : board) (c : color) (x y : Fin 8) :
    is_piece (find_king b c) x.val y.val
      = decide (get_color (get_piece b x y) = c ∧ get_kind (get_piece b x y) = KING) := by
  unfold find_king
  exact is_piece_fold
    (fun x y => get_color (get_piece b x y) = c ∧ get_kind (get_piece b x y) = KING) x y

/-- A rook attacks along its file up to the first occupied square. -/
theorem rook_attacks_file (b : board) (c : color) (x ky ry : Fin 8) (hne : ky ≠ ry)
    (hr : get_color (get_piece b x ry) = c ∧ get_kind (get_piece b x ry) = ROOK)
    (he : ∀ y : Fin 8, (ky < y ∧ y < ry) ∨ (ry < y ∧ y < ky) → get_piece b x y = EMPTY) :
    is_targeted (find_targeted b (find_pieces b WHITE ||| find_pieces b BLACK) c)
      x.val ky.val = true := by
  rw [find_targeted_iff]
  refine ⟨x, ry, hr.1, ?_⟩
  rw [attacks_slider _ _ _ _ _ _ (Or.inr (Or.inl hr.2)), hr.2]
  have hky := ky.isLt
  have hry := ry.isLt
  have clear : ∀ (y : Int), ((ky.val : Int) < y ∧ y < ry.val) ∨ ((ry.val : Int) < y ∧ y < ky.val) →
      is_piece (find_pieces b WHITE ||| find_pieces b BLACK) x.val y = false := by
    intro y hy
    obtain ⟨fy, hfy⟩ : ∃ fy : Fin 8, (fy.val : Int) = y :=
      ⟨fin8 y, fin8_cast y (by omega) (by omega)⟩
    subst hfy
    rw [is_piece_pieces]
    have := he fy (by
      rcases hy with h | h
      · left; exact ⟨Fin.lt_def.mpr (by omega), Fin.lt_def.mpr (by omega)⟩
      · right; exact ⟨Fin.lt_def.mpr (by omega), Fin.lt_def.mpr (by omega)⟩)
    simp [this]
  have hlt : ky.val < ry.val ∨ ry.val < ky.val := by
    rcases Nat.lt_trichotomy ky.val ry.val with h | h | h
    · exact Or.inl h
    · exact absurd (Fin.ext h) hne
    · exact Or.inr h
  rcases hlt with h | h
  · refine ⟨(0, -1), by decide, ry.val - ky.val, by omega, by simp, ?_, ?_⟩
    · show (ky.val : Int) = ry.val + ((ry.val - ky.val : Nat) : Int) * (-1)
      omega
    · intro j hj1 hj2
      have e : (x.val : Int) + (j : Int) * (0 : Int) = x.val := by simp
      show is_piece _ ((x.val : Int) + (j : Int) * (0 : Int)) ((ry.val : Int) + (j : Int) * (-1)) = false
      rw [e]
      exact clear _ (by omega)
  · refine ⟨(0, 1), by decide, ky.val - ry.val, by omega, by simp, ?_, ?_⟩
    · show (ky.val : Int) = ry.val + ((ky.val - ry.val : Nat) : Int) * 1
      omega
    · intro j hj1 hj2
      have e : (x.val : Int) + (j : Int) * (0 : Int) = x.val := by simp
      show is_piece _ ((x.val : Int) + (j : Int) * (0 : Int)) ((ry.val : Int) + (j : Int) * 1) = false
      rw [e]
      exact clear _ (by omega)

/-- A king on a file with an enemy rook and nothing between them is in check
after `update_game_state`. -/
theorem rook_check_flag (g : game) (x ky ry : Fin 8)
    (he : ∀ y : Fin 8, (ky < y ∧ y < ry) ∨ (ry < y ∧ y < ky) → get_piece g.b x y = EMPTY) :
    (get_piece g.b x ky = WHITE_KING → get_piece g.b x ry = BLACK_ROOK →
      (update_game_state g).white_in_check = true) ∧
    (get_piece g.b x ky = BLACK_KING → get_piece g.b x ry = WHITE_ROOK →
      (update_game_state g).black_in_check = true) := by
  constructor
  · intro hk hr
    have hne : ky ≠ ry := by
      intro h; rw [h, hr] at hk; exact absurd hk (by decide)
    have h1 := rook_attacks_file g.b BLACK x ky ry hne (by rw [hr]; decide) he
    have h2 : is_piece (find_king g.b WHITE) x.val ky.val = true := by
      rw [is_piece_find_king, hk]; decide
    rw [is_targeted_eq_testBit] at h1
    rw [is_piece_eq_testBit] at h2
    exact and_ne_zero_of_testBit _ _ _ h2 h1
  · intro hk hr
    have hne : ky ≠ ry := by
      intro h; rw [h, hr] at hk; exact absurd hk (by decide)
    have h1 := rook_attacks_file g.b WHITE x ky ry hne (by rw [hr]; decide) he
    have h2 : is_piece (find_king g.b BLACK) x.val ky.val = true := by
      rw [is_piece_find_king, hk]; decide
    rw [is_targeted_eq_testBit] at h1
    rw [is_piece_eq_testBit] at h2
    exact and_ne_zero_of_testBit _ _ _ h2 h1

/-- Two masks built by the double loop from tests that exclude each other
share no bit. -/
theorem masks_disjoint (P Q : Fin 8 → Fin 8 → Prop) [∀ x y, Decidable (P x y)]
    [∀ x y, Decidable (Q x y)] (h : ∀ x y, ¬ (P x y ∧ Q x y)) :
    (coords.foldl (fun v x =>
        coords.foldl (fun v y => if P x y then pieces_set.set_piece v x.val y.val else v) v) 0)
    &&& (coords.foldl (fun v x =>
        coords.foldl (fun v y => if Q x y then pieces_set.set_piece v x.val y.val else v) v) 0)
      = 0 := by
  apply Nat.eq_of_testBit_eq
  intro i
  rw [Nat.testBit_and, testBit_fold_file, testBit_fold_file, Nat.zero_testBit]
  simp only [Bool.false_or]
  rw [Bool.and_eq_false_iff]
  by_contra hn
  simp only [not_or, Bool.not_eq_false] at hn
  obtain ⟨h1, h2⟩ := hn
  rw [List.any_eq_true] at h1 h2
  obtain ⟨x1, _, h1⟩ := h1
  obtain ⟨x2, _, h2⟩ := h2
  rw [List.any_eq_true] at h1 h2
  obtain ⟨y1, _, h1⟩ := h1
  obtain ⟨y2, _, h2⟩ := h2
  simp only [Bool.and_eq_true, decide_eq_true_eq] at h1 h2
  have := x1.isLt
  have := x2.isLt
  have := y1.isLt
  have := y2.isLt
  have e1 : x1 = x2 := Fin.ext (by omega)
  have e2 : y1 = y2 := Fin.ext (by omega)
  rw [e1, e2] at h1
  exact h x2 y2 ⟨h1.1, h2.1⟩

theorem find_pieces_disjoint (b : board) : find_pieces b WHITE &&& find_pieces b BLACK = 0 := by
  unfold find_pieces
  apply masks_disjoint
  intro x y h
  have := h.1.1.symm.trans h.2.1
  exact absurd this (by decide)

theorem white_value_iff : ∀ p : piece, (p = EMPTY ∨ p ∈ white_values ∨ p ∈ black_values) →
    ((get_color p = WHITE ∧ p ≠ 0) ↔ p ∈ white_values) := by decide

theorem black_value_iff : ∀ p : piece, (p = EMPTY ∨ p ∈ white_values ∨ p ∈ black_values) →
    ((get_color p = BLACK ∧ p ≠ 0) ↔ p ∈ black_values) := by decide

theorem king_value_iff : ∀ p : piece,
    ((get_color p = WHITE ∧ get_kind p = KING) ↔ p = WHITE_KING) ∧
    ((get_color p = BLACK ∧ get_kind p = KING) ↔ p = BLACK_KING) := by decide

/-- The masks that `update_game_state` computes, square by square. -/
theorem masks_of_update_game_state (g : game) (hv : valid_board g.b) (x y : Fin 8) :
    ((update_game_state g).white_pieces.testBit (y.val * 8 + x.val) = true ↔
      get_piece g.b x y ∈ white_values) ∧
    ((update_game_state g).black_pieces.testBit (y.val * 8 + x.val) = true ↔
      get_piece g.b x y ∈ black_values) ∧
    (update_game_state g).white_pieces &&& (update_game_state g).black_pieces = 0 ∧
    (update_game_state g).pieces
      = (update_game_state g).white_pieces ||| (update_game_state g).black_pieces ∧
    ((update_game_state g).pieces.testBit (y.val * 8 + x.val) = true ↔
      get_piece g.b x y ≠ EMPTY) ∧
    ((update_game_state g).white_king.testBit (y.val * 8 + x.val) = true ↔
      get_piece g.b x y = WHITE_KING) ∧
    ((update_game_state g).black_king.testBit (y.val * 8 + x.val) = true ↔
      get_piece g.b x y = BLACK_KING) ∧
    (get_piece g.b x y = EMPTY →
      get_color (get_piece g.b x y) = WHITE ∧
      (update_game_state g).white_pieces.testBit (y.val * 8 + x.val) = false ∧
      (update_game_state g).black_pieces.testBit (y.val * 8 + x.val) = false ∧
      (update_game_state g).pieces.testBit (y.val * 8 + x.val) = false ∧
      (update_game_state g).white_king.testBit (y.val * 8 + x.val) = false ∧
      (update_game_state g).black_king.testBit (y.val * 8 + x.val) = false) := by
  have hw : (update_game_state g).white_pieces = find_pieces g.b WHITE := rfl
  have hb : (update_game_state g).black_pieces = find_pieces g.b BLACK := rfl
  have hp : (update_game_state g).pieces = find_pieces g.b WHITE ||| find_pieces g.b BLACK := rfl
  have hwk : (update_game_state g).white_king = find_king g.b WHITE := rfl
  have hbk : (update_game_state g).black_king = find_king g.b BLACK := rfl
  rw [hw, hb, hp, hwk, hbk]
  simp only [← is_piece_eq_testBit, is_piece_pieces, is_piece_find_pieces, is_piece_find_king,
    board_get_color_eq, decide_eq_true_eq, decide_eq_false_iff_not]
  have hv1 := hv x y
  refine ⟨white_value_iff _ hv1, black_value_iff _ hv1, find_pieces_disjoint g.b, trivial,
    trivial, (king_value_iff _).1, (king_value_iff _).2, ?_⟩
  intro h0
  rw [h0]
  decide

/-! ## Candidates of bishops, rooks and queens -/

/-- In a fresh state the mask `allies` marks the squares that hold a piece of
the colour `c`. -/
theorem fresh_ally (g : game) (h : update_game_state g = g) (c : color)
    (hc : c = WHITE ∨ c = BLACK) (x y : Fin 8) :
    is_piece (if c = WHITE then g.white_pieces else g.black_pieces) x.val y.val = true ↔
      get_piece g.b x y ≠ EMPTY ∧ get_color (get_piece g.b x y) = c := by
  obtain ⟨_, hw, hb⟩ := fresh_pieces g h x y
  rcases hc with hc | hc
  · rw [if_pos hc, hw, hc]
    simp [and_comm]
  · rw [hc, if_neg (by decide), hb]
    simp [and_comm]

/-- In a fresh state the combined mask is clear on an integer square exactly
when no piece stands there; squares off the board hold nothing. -/
theorem fresh_clear (g : game) (h : update_game_state g = g) (a b : Int) :
    is_piece g.pieces a b = false ↔ piece_at g.b a b = EMPTY := by
  unfold piece_at
  by_cases hb : a < 0 ∨ a ≥ 8 ∨ b < 0 ∨ b ≥ 8
  · rw [if_pos hb, is_piece_off_board _ _ _ hb]
    simp
  · rw [if_neg hb]
    have := fresh_unoccupied g h (fin8 a) (fin8 b)
    rw [fin8_cast a (by omega) (by omega), fin8_cast b (by omega) (by omega)] at this
    exact this

/-- What one ray loop of `add_moves` appends. -/
theorem ray_cands_iff (allies pieces : pieces_set) (x y : Int) (p : piece) (dx dy : Int)
    (m : move) (n : Nat) : ∀ (vx vy : Int),
    m ∈ ray_cands allies pieces x y p dx dy n vx vy ↔
      ∃ k : Nat, k < n ∧
        (∀ j : Nat, j ≤ k → ray_cond dx dy (vx + j * dx) (vy + j * dy) = true) ∧
        (∀ j : Nat, j < k → is_piece pieces (vx + j * dx) (vy + j * dy) = false) ∧
        is_piece allies (vx + k * dx) (vy + k * dy) = false ∧
        m ∈ cand (move_of x y (vx + k * dx) (vy + k * dy) p) := by
  induction n with
  | zero => intro vx vy; simp [ray_cands]
  | succ n ih =>
    intro vx vy
    rw [ray_cands]
    by_cases hc : ray_cond dx dy vx vy = true
    · rw [if_pos hc, List.mem_append]
      have first : m ∈ (if (!is_piece allies vx vy) = true then cand (move_of x y vx vy p)
            else []) ↔
          (is_piece allies vx vy = false ∧ m ∈ cand (move_of x y vx vy p)) := by
        by_cases ha : is_piece allies vx vy = true
        · simp [ha]
        · simp only [Bool.not_eq_true] at ha
          simp [ha]
      rw [first]
      constructor
      · rintro (⟨h1, h2⟩ | h)
        · refine ⟨0, by omega, ?_, fun j hj => by omega, by simpa using h1, by simpa using h2⟩
          intro j hj
          have : j = 0 := by omega
          subst this
          simpa using hc
        · by_cases hp : is_piece pieces vx vy = true
          · rw [if_pos hp] at h
            simp at h
          · rw [if_neg hp, ih] at h
            obtain ⟨k, hk, h1, h2, h3, h4⟩ := h
            refine ⟨k + 1, by omega, ?_, ?_, ?_, ?_⟩
            · intro j hj
              cases j with
              | zero => simpa using hc
              | succ j =>
                have := h1 j (by omega)
                rw [ray_step, ray_step] at this
                exact this
            · intro j hj
              cases j with
              | zero => simpa using hp
              | succ j =>
                have := h2 j (by omega)
                rw [ray_step, ray_step] at this
                exact this
            · rw [ray_step, ray_step] at h3
              exact h3
            · rw [ray_step, ray_step] at h4
              exact h4
      · rintro ⟨k, hk, h1, h2, h3, h4⟩
        cases k with
        | zero =>
          simp only [Nat.cast_zero, zero_mul, add_zero] at h3 h4
          exact Or.inl ⟨h3, h4⟩
        | succ k =>
          right
          have hp := h2 0 (by omega)
          simp only [Nat.cast_zero, zero_mul, add_zero] at hp
          rw [if_neg (by rw [hp]; simp), ih]
          refine ⟨k, by omega, ?_, ?_, ?_, ?_⟩
          · intro j hj
            have := h1 (j + 1) (by omega)
            rw [← ray_step, ← ray_step] at this
            exact this
          · intro j hj
            have := h2 (j + 1) (by omega)
            rw [← ray_step, ← ray_step] at this
            exact this
          · rw [← ray_step, ← ray_step] at h3
            exact h3
          · rw [← ray_step, ← ray_step] at h4
            exact h4
    · rw [if_neg hc]
      simp only [List.not_mem_nil, false_iff]
      rintro ⟨k, hk, h1, _⟩
      have := h1 0 (by omega)
      simp only [Nat.cast_zero, zero_mul, add_zero] at this
      exact hc this

/-- One ray loop of `add_moves` started next to a square of the board: the
squares of the ray up to the first one set in `pieces`, those set in `allies`
left out. -/
theorem ray_cands_board (allies pieces : pieces_set) (x y : Fin 8) (p : piece)
    (hp : p ≠ EMPTY) (dx dy : Int)
    (hdx : dx = -1 ∨ dx = 0 ∨ dx = 1) (hdy : dy = -1 ∨ dy = 0 ∨ dy = 1)
    (hne : dx ≠ 0 ∨ dy ≠ 0) (ax ay : Int) (hax : ax = x.val + dx) (hay : ay = y.val + dy)
    (m : move) :
    m ∈ ray_cands allies pieces x.val y.val p dx dy 8 ax ay ↔
      ∃ k : Nat, 1 ≤ k ∧ ∃ tx ty : Fin 8,
        (tx.val : Int) = x.val + k * dx ∧ (ty.val : Int) = y.val + k * dy ∧
        ray_clear pieces x.val y.val dx dy k ∧
        is_piece allies tx.val ty.val = false ∧ m = ⟨x, y, tx, ty, p⟩ := by
  subst hax
  subst hay
  rw [ray_cands_iff]
  constructor
  · rintro ⟨k, _, _, h2, h3, h4⟩
    rw [mem_cand_move_of] at h4
    obtain ⟨hb, hm, _⟩ := h4
    rw [fin8_val, fin8_val] at hm
    refine ⟨k + 1, by omega, fin8 _, fin8 _, ?_, ?_, ?_, ?_, hm⟩
    · rw [fin8_cast _ hb.1 hb.2.1, ray_step]
    · rw [fin8_cast _ hb.2.2.1 hb.2.2.2, ray_step]
    · intro j hj1 hj2
      obtain ⟨i, rfl⟩ : ∃ i, j = i + 1 := ⟨j - 1, by omega⟩
      have := h2 i (by omega)
      rw [ray_step, ray_step] at this
      exact this
    · rw [fin8_cast _ hb.1 hb.2.1, fin8_cast _ hb.2.2.1 hb.2.2.2]
      exact h3
  · rintro ⟨k, hk, tx, ty, h3, h4, h5, h6, hm⟩
    obtain ⟨i, rfl⟩ : ∃ i, k = i + 1 := ⟨k - 1, by omega⟩
    rw [← ray_step] at h3 h4
    obtain ⟨hb, hc⟩ := ray_cond_on_segment x y tx ty dx dy hdx hdy hne i h3 h4
    refine ⟨i, hb, hc, ?_, ?_, ?_⟩
    · intro j hj
      have := h5 (j + 1) (by omega) (by omega)
      rw [← ray_step, ← ray_step] at this
      exact this
    · rw [← h3, ← h4]
      exact h6
    · rw [← h3, ← h4, move_of_fin, mem_cand]
      refine ⟨hm, ne_invalid_of_piece _ hp⟩

theorem diag_cands_iff (allies pieces : pieces_set) (x y : Fin 8) (p : piece)
    (hp : p ≠ EMPTY) (m : move) :
    m ∈ diag_cands allies pieces x.val y.val p ↔
      ∃ d ∈ diag_dirs, ∃ k : Nat, 1 ≤ k ∧ ∃ tx ty : Fin 8,
        (tx.val : Int) = x.val + k * d.1 ∧ (ty.val : Int) = y.val + k * d.2 ∧
        ray_clear pieces x.val y.val d.1 d.2 k ∧
        is_piece allies tx.val ty.val = false ∧ m = ⟨x, y, tx, ty, p⟩ := by
  unfold diag_cands
  rw [List.mem_append, List.mem_append, List.mem_append,
    ray_cands_board allies pieces x y p hp (-1) (-1) (by decide) (by decide) (by decide) _ _
      (by omega) (by omega),
    ray_cands_board allies pieces x y p hp 1 (-1) (by decide) (by decide) (by decide) _ _
      (by omega) (by omega),
    ray_cands_board allies pieces x y p hp 1 1 (by decide) (by decide) (by decide) _ _
      (by omega) (by omega),
    ray_cands_board allies pieces x y p hp (-1) 1 (by decide) (by decide) (by decide) _ _
      (by omega) (by omega)]
  simp only [diag_dirs, List.mem_cons, List.mem_singleton, List.not_mem_nil, or_false,
    exists_eq_or_imp, exists_eq_left, or_assoc]

theorem line_cands_iff (allies pieces : pieces_set) (x y : Fin 8) (p : piece)
    (hp : p ≠ EMPTY) (m : move) :
    m ∈ line_cands allies pieces x.val y.val p ↔
      ∃ d ∈ line_dirs, ∃ k : Nat, 1 ≤ k ∧ ∃ tx ty : Fin 8,
        (tx.val : Int) = x.val + k * d.1 ∧ (ty.val : Int) = y.val + k * d.2 ∧
        ray_clear pieces x.val y.val d.1 d.2 k ∧
        is_piece allies tx.val ty.val = false ∧ m = ⟨x, y, tx, ty, p⟩ := by
  unfold line_cands
  rw [List.mem_append, List.mem_append, List.mem_append,
    ray_cands_board allies pieces x y p hp (-1) 0 (by decide) (by decide) (by decide) _ _
      (by omega) (by omega),
    ray_cands_board allies pieces x y p hp 1 0 (by decide) (by decide) (by decide) _ _
      (by omega) (by omega),
    ray_cands_board allies pieces x y p hp 0 (-1) (by decide) (by decide) (by decide) _ _
      (by omega) (by omega),
    ray_cands_board allies pieces x y p hp 0 1 (by decide) (by decide) (by decide) _ _
      (by omega) (by omega)]
  simp only [line_dirs, List.mem_cons, List.mem_singleton, List.not_mem_nil, or_false,
    exists_eq_or_imp, exists_eq_left, or_assoc]

theorem candidates_slider (g : game) (c : color) (x y : Fin 8) :
    (get_kind (get_piece g.b x y) = BISHOP → candidates g c x.val y.val
      = diag_cands (if c = WHITE then g.white_pieces else g.black_pieces) g.pieces x.val y.val
          (get_piece g.b x y)) ∧
    (get_kind (get_piece g.b x y) = ROOK → candidates g c x.val y.val
      = line_cands (if c = WHITE then g.white_pieces else g.black_pieces) g.pieces x.val y.val
          (get_piece g.b x y)) ∧
    (get_kind (get_piece g.b x y) = QUEEN → candidates g c x.val y.val
      = diag_cands (if c = WHITE then g.white_pieces else g.black_pieces) g.pieces x.val y.val
          (get_piece g.b x y)
        ++ line_cands (if c = WHITE then g.white_pieces else g.black_pieces) g.pieces
          x.val y.val (get_piece g.b x y)) := by
  refine ⟨?_, ?_, ?_⟩ <;> intro hk <;> unfold candidates <;>
    simp only [fin8_val, hk, show ¬ (BISHOP = PAWN) by decide,
      show ¬ (BISHOP = KNIGHT) by decide, show ¬ (ROOK = PAWN) by decide,
      show ¬ (ROOK = KNIGHT) by decide, show ¬ (ROOK = BISHOP) by decide,
      show ¬ (QUEEN = PAWN) by decide, show ¬ (QUEEN = KNIGHT) by decide,
      show ¬ (QUEEN = BISHOP) by decide, show ¬ (QUEEN = ROOK) by decide, if_false, if_true]

/-- What the per-square generator emits for a bishop, rook or queen in a
fresh state. -/
theorem mem_emitted_slider (g : game) (hf : update_game_state g = g) (c : color)
    (x y : Fin 8) (hc : get_color (get_piece g.b x y) = c)
    (hk : get_kind (get_piece g.b x y) = BISHOP ∨ get_kind (get_piece g.b x y) = ROOK ∨
      get_kind (get_piece g.b x y) = QUEEN) (m : move) :
    m ∈ emitted g c x y ↔
      ∃ d ∈ slider_dirs (get_kind (get_piece g.b x y)), ∃ k : Nat, 1 ≤ k ∧ ∃ tx ty : Fin 8,
        (tx.val : Int) = x.val + k * d.1 ∧ (ty.val : Int) = y.val + k * d.2 ∧
        (∀ j : Nat, 1 ≤ j → j < k →
          piece_at g.b ((x.val : Int) + j * d.1) ((y.val : Int) + j * d.2) = EMPTY) ∧
        ¬ (get_piece g.b tx ty ≠ EMPTY ∧ get_color (get_piece g.b tx ty) = c) ∧
        m = ⟨x, y, tx, ty, get_piece g.b x y⟩ := by
  have hcc : c = WHITE ∨ c = BLACK := by rw [← hc]; exact get_color_cases _
  have hp : get_piece g.b x y ≠ EMPTY := by
    apply piece_ne_empty_of_kind
    rcases hk with hk | hk | hk <;> rw [hk] <;> decide
  have conv : ∀ (d : Int × Int) (k : Nat) (tx ty : Fin 8),
      (ray_clear g.pieces x.val y.val d.1 d.2 k ∧
        is_piece (if c = WHITE then g.white_pieces else g.black_pieces) tx.val ty.val = false ∧
        m = ⟨x, y, tx, ty, get_piece g.b x y⟩) ↔
      ((∀ j : Nat, 1 ≤ j → j < k →
          piece_at g.b ((x.val : Int) + j * d.1) ((y.val : Int) + j * d.2) = EMPTY) ∧
        ¬ (get_piece g.b tx ty ≠ EMPTY ∧ get_color (get_piece g.b tx ty) = c) ∧
        m = ⟨x, y, tx, ty, get_piece g.b x y⟩) := by
    intro d k tx ty
    have ha := fresh_ally g hf c hcc tx ty
    refine and_congr ?_ (and_congr ?_ Iff.rfl)
    · unfold ray_clear
      constructor
      · intro h j h1 h2; exact (fresh_clear g hf _ _).mp (h j h1 h2)
      · intro h j h1 h2; exact (fresh_clear g hf _ _).mpr (h j h1 h2)
    · rw [← ha]
      simp
  rw [emitted_eq]
  obtain ⟨hB, hR, hQ⟩ := candidates_slider g c x y
  rcases hk with hk | hk | hk
  · rw [hB hk, diag_cands_iff _ _ _ _ _ hp, hk]
    simp only [conv]
    rfl
  · rw [hR hk, line_cands_iff _ _ _ _ _ hp, hk]
    simp only [conv]
    rfl
  · rw [hQ hk, List.mem_append, diag_cands_iff _ _ _ _ _ hp, line_cands_iff _ _ _ _ _ hp, hk]
    simp only [conv]
    have hs : slider_dirs QUEEN = diag_dirs ++ line_dirs := rfl
    rw [hs]
    constructor
    · rintro (⟨d, hd, h⟩ | ⟨d, hd, h⟩)
      · exact ⟨d, List.mem_append_left _ hd, h⟩
      · exact ⟨d, List.mem_append_right _ hd, h⟩
    · rintro ⟨d, hd, h⟩
      rcases List.mem_append.mp hd with hd | hd
      · exact Or.inl ⟨d, hd, h⟩
      · exact Or.inr ⟨d, hd, h⟩

/-! ## Candidates of knights and kings -/

/-- One line `if (!is_piece(allies, a, b)) add_move(..., move_of(x, y, a, b, p))`
of the `KNIGHT` and `KING` cases, for the offset `(da, db)`. -/
theorem mem_step (allies : pieces_set) (x y : Fin 8) (p : piece) (hp : p ≠ EMPTY)
    (a b da db : Int) (ha : a = x.val + da) (hb : b = y.val + db) (m : move) :
    m ∈ (if (!is_piece allies a b) = true then cand (move_of x.val y.val a b p) else []) ↔
      ∃ tx ty : Fin 8, ((tx.val : Int) - x.val = da ∧ (ty.val : Int) - y.val = db) ∧
        is_piece allies tx.val ty.val = false ∧ m = ⟨x, y, tx, ty, p⟩ := by
  constructor
  · intro h
    by_cases hal : is_piece allies a b = true
    · simp [hal] at h
    · simp only [Bool.not_eq_true] at hal
      rw [if_pos (by simp [hal]), mem_cand_move_of] at h
      obtain ⟨hbd, hm, _⟩ := h
      rw [fin8_val, fin8_val] at hm
      have e1 := fin8_cast a hbd.1 hbd.2.1
      have e2 := fin8_cast b hbd.2.2.1 hbd.2.2.2
      refine ⟨fin8 a, fin8 b, ⟨by omega, by omega⟩, ?_, hm⟩
      rw [e1, e2]
      exact hal
  · rintro ⟨tx, ty, ⟨h1, h2⟩, hal, hm⟩
    have e1 : a = tx.val := by omega
    have e2 : b = ty.val := by omega
    rw [e1, e2, if_pos (by simp [hal]), move_of_fin, mem_cand]
    exact ⟨hm, ne_invalid_of_piece _ hp⟩

theorem exists_offsets_or (R : Fin 8 → Fin 8 → Prop) (x y : Fin 8) (o : Int × Int)
    (l : List (Int × Int)) :
    (∃ tx ty : Fin 8, ((tx.val : Int) - x.val, (ty.val : Int) - y.val) ∈ o :: l ∧ R tx ty) ↔
      (∃ tx ty : Fin 8, ((tx.val : Int) - x.val = o.1 ∧ (ty.val : Int) - y.val = o.2) ∧ R tx ty) ∨
      (∃ tx ty : Fin 8, ((tx.val : Int) - x.val, (ty.val : Int) - y.val) ∈ l ∧ R tx ty) := by
  constructor
  · rintro ⟨tx, ty, h, r⟩
    rcases List.mem_cons.mp h with h | h
    · left
      refine ⟨tx, ty, ⟨?_, ?_⟩, r⟩
      · exact congrArg Prod.fst h
      · exact congrArg Prod.snd h
    · exact Or.inr ⟨tx, ty, h, r⟩
  · rintro (⟨tx, ty, ⟨h1, h2⟩, r⟩ | ⟨tx, ty, h, r⟩)
    · refine ⟨tx, ty, List.mem_cons.mpr (Or.inl ?_), r⟩
      exact Prod.ext h1 h2
    · exact ⟨tx, ty, List.mem_cons_of_mem _ h, r⟩

theorem exists_offsets_nil (R : Fin 8 → Fin 8 → Prop) (x y : Fin 8) :
    (∃ tx ty : Fin 8, ((tx.val : Int) - x.val, (ty.val : Int) - y.val) ∈ ([] : List (Int × Int))
      ∧ R tx ty) ↔ False := by
  simp

/-- What the `KNIGHT` case appends. -/
theorem mem_knight_cands (allies : pieces_set) (x y : Fin 8) (p : piece) (hp : p ≠ EMPTY)
    (m : move) :
    m ∈ knight_cands allies x.val y.val p ↔
      ∃ tx ty : Fin 8, ((tx.val : Int) - x.val, (ty.val : Int) - y.val) ∈ knight_offsets ∧
        is_piece allies tx.val ty.val = false ∧ m = ⟨x, y, tx, ty, p⟩ := by
  unfold knight_cands knight_offsets
  simp only [List.mem_append, exists_offsets_or, exists_offsets_nil, or_false, or_assoc]
  rw [mem_step allies x y p hp _ _ (-1) (-2) (by omega) (by omega),
    mem_step allies x y p hp _ _ 1 (-2) (by omega) (by omega),
    mem_step allies x y p hp _ _ (-1) 2 (by omega) (by omega),
    mem_step allies x y p hp _ _ 1 2 (by omega) (by omega),
    mem_step allies x y p hp _ _ (-2) (-1) (by omega) (by omega),
    mem_step allies x y p hp _ _ (-2) 1 (by omega) (by omega),
    mem_step allies x y p hp _ _ 2 (-1) (by omega) (by omega),
    mem_step allies x y p hp _ _ 2 1 (by omega) (by omega)]

/-- What the eight one-square lines of the `KING` case append. -/
theorem mem_king_step_cands (allies : pieces_set) (x y : Fin 8) (p : piece) (hp : p ≠ EMPTY)
    (m : move) :
    m ∈ king_step_cands allies x.val y.val p ↔
      ∃ tx ty : Fin 8, ((tx.val : Int) - x.val, (ty.val : Int) - y.val) ∈ king_offsets ∧
        is_piece allies tx.val ty.val = false ∧ m = ⟨x, y, tx, ty, p⟩ := by
  unfold king_step_cands king_offsets
  simp only [List.mem_append, exists_offsets_or, exists_offsets_nil, or_false, or_assoc]
  rw [mem_step allies x y p hp _ _ (-1) (-1) (by omega) (by omega),
    mem_step allies x y p hp _ _ 0 (-1) (by omega) (by omega),
    mem_step allies x y p hp _ _ 1 (-1) (by omega) (by omega),
    mem_step allies x y p hp _ _ (-1) 0 (by omega) (by omega),
    mem_step allies x y p hp _ _ 1 0 (by omega) (by omega),
    mem_step allies x y p hp _ _ (-1) 1 (by omega) (by omega),
    mem_step allies x y p hp _ _ 0 1 (by omega) (by omega),
    mem_step allies x y p hp _ _ 1 1 (by omega) (by omega)]

theorem candidates_knight (g : game) (c : color) (x y : Fin 8)
    (hk : get_kind (get_piece g.b x y) = KNIGHT) :
    candidates g c x.val y.val
      = knight_cands (if c = WHITE then g.white_pieces else g.black_pieces) x.val y.val
          (get_piece g.b x y) := by
  unfold candidates
  simp only [fin8_val, hk, show ¬ (KNIGHT = PAWN) by decide, if_false, if_true]

/-- What the per-square generator emits for a knight in a fresh state. -/
theorem mem_emitted_knight (g : game) (hf : update_game_state g = g) (c : color)
    (x y : Fin 8) (hc : get_color (get_piece g.b x y) = c)
    (hk : get_kind (get_piece g.b x y) = KNIGHT) (m : move) :
    m ∈ emitted g c x y ↔
      ∃ tx ty : Fin 8, ((tx.val : Int) - x.val, (ty.val : Int) - y.val) ∈ knight_offsets ∧
        ¬ (get_piece g.b tx ty ≠ EMPTY ∧ get_color (get_piece g.b tx ty) = c) ∧
        m = ⟨x, y, tx, ty, get_piece g.b x y⟩ := by
  have hcc : c = WHITE ∨ c = BLACK := by rw [← hc]; exact get_color_cases _
  have hp : get_piece g.b x y ≠ EMPTY := piece_ne_empty_of_kind _ (by rw [hk]; decide)
  rw [emitted_eq, candidates_knight g c x y hk, mem_knight_cands _ _ _ _ hp]
  simp only [← fresh_ally g hf c hcc, Bool.not_eq_true]

/-- What the per-square generator emits for a king in a fresh state, the
castling candidates set apart. -/
theorem mem_emitted_king (g : game) (hf : update_game_state g = g) (c : color)
    (x y : Fin 8) (hc : get_color (get_piece g.b x y) = c)
    (hk : get_kind (get_piece g.b x y) = KING) (m : move) :
    (m ∈ emitted g c x y ∧
        ¬ ((m.dst_x.val : Int) = x.val - 2 ∨ (m.dst_x.val : Int) = x.val + 2)) ↔
      ∃ tx ty : Fin 8, ((tx.val : Int) - x.val, (ty.val : Int) - y.val) ∈ king_offsets ∧
        ¬ (get_piece g.b tx ty ≠ EMPTY ∧ get_color (get_piece g.b tx ty) = c) ∧
        m = ⟨x, y, tx, ty, get_piece g.b x y⟩ := by
  have hcc : c = WHITE ∨ c = BLACK := by rw [← hc]; exact get_color_cases _
  have hp : get_piece g.b x y ≠ EMPTY := piece_ne_empty_of_kind _ (by rw [hk]; decide)
  have hxl := x.isLt
  rw [emitted_eq, candidates_king g c x y hk, List.mem_append, List.mem_append,
    mem_king_step_cands _ _ _ _ hp, mem_castle_left, mem_castle_right]
  simp only [← fresh_ally g hf c hcc, Bool.not_eq_true]
  constructor
  · rintro ⟨(h | ⟨_, _, h⟩) | ⟨_, _, h⟩, hn⟩
    · exact h
    · rw [mem_cand_move_of] at h
      obtain ⟨hb, hm, _⟩ := h
      exfalso
      apply hn
      left
      rw [hm]
      exact fin8_cast _ hb.1 hb.2.1
    · rw [mem_cand_move_of] at h
      obtain ⟨hb, hm, _⟩ := h
      exfalso
      apply hn
      right
      rw [hm]
      exact fin8_cast _ hb.1 hb.2.1
  · rintro ⟨tx, ty, ho, ha, hm⟩
    refine ⟨Or.inl (Or.inl ⟨tx, ty, ho, ha, hm⟩), ?_⟩
    rw [hm]
    dsimp only
    unfold king_offsets at ho
    simp only [List.mem_cons, Prod.mk.injEq, List.mem_singleton, List.not_mem_nil,
      or_false] at ho
    omega

/-! ## Sources of the candidates -/

theorem candidates_no_kind (g : game) (c : color) (x y : Fin 8)
    (hk : get_kind (get_piece g.b x y) = 0 ∨ get_kind (get_piece g.b x y) = 1) :
    candidates g c x.val y.val = [] := by
  unfold candidates
  rcases hk with hk | hk <;>
    simp only [fin8_val, hk, show ¬ ((0 : Nat) = PAWN) by decide,
      show ¬ ((0 : Nat) = KNIGHT) by decide, show ¬ ((0 : Nat) = BISHOP) by decide,
      show ¬ ((0 : Nat) = ROOK) by decide, show ¬ ((0 : Nat) = QUEEN) by decide,
      show ¬ ((0 : Nat) = KING) by decide, show ¬ ((1 : Nat) = PAWN) by decide,
      show ¬ ((1 : Nat) = KNIGHT) by decide, show ¬ ((1 : Nat) = BISHOP) by decide,
      show ¬ ((1 : Nat) = ROOK) by decide, show ¬ ((1 : Nat) = QUEEN) by decide,
      show ¬ ((1 : Nat) = KING) by decide, if_false]

/-- Apart from a pawn on the farthest rank of its colour, every candidate of
the per-square generator starts on the square of the piece and carries a
piece of the mover's colour: the piece itself, or for a pawn reaching the
farthest rank a knight, bishop, rook or queen. -/
theorem emitted_sources (g : game) (hf : update_game_state g = g) (c : color)
    (x y : Fin 8) (hc : get_color (get_piece g.b x y) = c)
    (hr : get_kind (get_piece g.b x y) = PAWN →
      0 ≤ (y.val : Int) + forward c ∧ (y.val : Int) + forward c < 8)
    (m : move) (hm : m ∈ emitted g c x y) :
    m.src_x = x ∧ m.src_y = y ∧ get_color m.p = c ∧ m.p ≠ EMPTY ∧
    (m.p = get_piece g.b x y ∨
      (get_kind (get_piece g.b x y) = PAWN ∧ m.dst_y.val = last_rank c)) := by
  have hcc : c = WHITE ∨ c = BLACK := by rw [← hc]; exact get_color_cases _
  have same : m.src_x = x ∧ m.src_y = y ∧ m.p = get_piece g.b x y →
      get_kind (get_piece g.b x y) ≠ 0 →
      m.src_x = x ∧ m.src_y = y ∧ get_color m.p = c ∧ m.p ≠ EMPTY ∧
      (m.p = get_piece g.b x y ∨
        (get_kind (get_piece g.b x y) = PAWN ∧ m.dst_y.val = last_rank c)) := by
    rintro ⟨h1, h2, h3⟩ hk
    refine ⟨h1, h2, by rw [h3]; exact hc, ?_, Or.inl h3⟩
    rw [h3]
    exact piece_ne_empty_of_kind _ hk
  rcases get_kind_cases (get_piece g.b x y) with hk | hk | hk | hk | hk | hk | hk | hk
  · rw [emitted_eq, candidates_no_kind g c x y (Or.inl hk)] at hm
    simp at hm
  · rw [emitted_eq, candidates_no_kind g c x y (Or.inr hk)] at hm
    simp at hm
  · have hb := hr hk
    have hp : get_piece g.b x y ≠ EMPTY := piece_ne_empty_of_kind _ (by rw [hk]; decide)
    have key : ∀ t : Fin 8, ∀ fy : Fin 8,
        m ∈ promo_cands ⟨x, y, t, fy, get_piece g.b x y⟩ →
        m.src_x = x ∧ m.src_y = y ∧ get_color m.p = c ∧ m.p ≠ EMPTY ∧
        (m.p = get_piece g.b x y ∨
          (get_kind (get_piece g.b x y) = PAWN ∧ m.dst_y.val = last_rank c)) := by
      intro t fy ht
      have h := mem_promo_cands m _ hp ht
      dsimp only at h
      rw [hc] at h
      rcases h.2.2.2.2 with h1 | h1
      · exact same ⟨h.1, h.2.1, h1.2⟩ (by rw [hk]; decide)
      · refine ⟨h.1, h.2.1, ?_, ?_, Or.inr ⟨hk, by rw [h.2.2.2.1]; exact h1.1⟩⟩
        · rcases h1.2 with e | e | e | e <;> rw [e] <;>
            exact get_color_make_piece c _ hcc (by decide)
        · rcases h1.2 with e | e | e | e <;> rw [e] <;>
            exact piece_ne_empty_of_kind _
              (by rw [get_kind_make_piece c _ hcc (by decide)]; decide)
    rw [mem_emitted_pawn g hf c x y (fin8 ((y.val : Int) + forward c)) hk
      (fin8_cast _ hb.1 hb.2) m] at hm
    rcases hm with ⟨_, h⟩ | ⟨_, _, fy2, _, _, h⟩ | ⟨tx, _, _, h⟩
    · exact key _ _ h
    · exact same ⟨by rw [h], by rw [h], by rw [h]⟩ (by rw [hk]; decide)
    · exact key _ _ h
  · rw [mem_emitted_knight g hf c x y hc hk] at hm
    obtain ⟨tx, ty, _, _, h⟩ := hm
    exact same ⟨by rw [h], by rw [h], by rw [h]⟩ (by rw [hk]; decide)
  · rw [mem_emitted_slider g hf c x y hc (Or.inl hk)] at hm
    obtain ⟨_, _, _, _, tx, ty, _, _, _, _, h⟩ := hm
    exact same ⟨by rw [h], by rw [h], by rw [h]⟩ (by rw [hk]; decide)
  · rw [mem_emitted_slider g hf c x y hc (Or.inr (Or.inl hk))] at hm
    obtain ⟨_, _, _, _, tx, ty, _, _, _, _, h⟩ := hm
    exact same ⟨by rw [h], by rw [h], by rw [h]⟩ (by rw [hk]; decide)
  · rw [mem_emitted_slider g hf c x y hc (Or.inr (Or.inr hk))] at hm
    obtain ⟨_, _, _, _, tx, ty, _, _, _, _, h⟩ := hm
    exact same ⟨by rw [h], by rw [h], by rw [h]⟩ (by rw [hk]; decide)
  · rw [emitted_eq, candidates_king g c x y hk, List.mem_append, List.mem_append] at hm
    rcases hm with (h | h) | h
    · have := mem_king_step _ _ _ _ _ h
      rw [fin8_val, fin8_val] at this
      exact same ⟨this.2.2.2.2.1, this.2.2.2.2.2.1, this.2.2.2.2.2.2⟩ (by rw [hk]; decide)
    · rw [mem_castle_left, mem_cand_move_of, fin8_val, fin8_val] at h
      obtain ⟨_, _, _, h, _⟩ := h
      exact same ⟨by rw [h], by rw [h], by rw [h]⟩ (by rw [hk]; decide)
    · rw [mem_castle_right, mem_cand_move_of, fin8_val, fin8_val] at h
      obtain ⟨_, _, _, h, _⟩ := h
      exact same ⟨by rw [h], by rw [h], by rw [h]⟩ (by rw [hk]; decide)

/-! ## Coordinates and the castle test -/

theorem pos_of_fin (x y : Fin 8) : pos_of x.val y.val = ⟨x, y, 0⟩ := by
  have hx := x.isLt; have hy := y.isLt
  rw [pos_of, if_neg (by omega), fin8_val, fin8_val]

theorem pos_of_off_board (x y : Int) (h : x < 0 ∨ x ≥ 8 ∨ y < 0 ∨ y ≥ 8) :
    pos_of x y = INVALID_POS := by rw [pos_of, if_pos h]

/-- Among the coordinates of the board, `operator!=` tells every one but
`(7, 7)` from the sentinel. -/
theorem pos_ne_sentinel_iff : ∀ x y : Fin 8,
    pos_ne (pos_of x.val y.val) INVALID_POS = true ↔ ¬ (x = 7 ∧ y = 7) := by
  intro x y; rw [pos_of_fin]; revert x y; decide

theorem is_castle_iff (m : move) : is_castle m = true ↔
    get_kind m.p = KING ∧ ((m.dst_x : Int) ≠ m.src_x - 1 ∧ (m.dst_x : Int) ≠ m.src_x + 1) := by
  simp [is_castle]

/-- The test `is_castle` in terms of the file displacement: zero, or at least two. -/
theorem is_castle_iff_abs (m : move) : is_castle m = true ↔
    get_kind m.p = KING ∧ (m.dst_x = m.src_x ∨ 2 ≤ |(m.dst_x.val : Int) - m.src_x.val|) := by
  rw [is_castle_iff]
  have : ((m.dst_x : Int) ≠ m.src_x - 1 ∧ (m.dst_x : Int) ≠ m.src_x + 1) ↔
      (m.dst_x = m.src_x ∨ 2 ≤ |(m.dst_x.val : Int) - m.src_x.val|) := by
    rw [Fin.ext_iff, le_abs]
    constructor <;> intro h <;> omega
  rw [this]

/-! ## The 8-bit counter -/

/-- With 264 candidates the counter `length` wraps around to 8: the list the
caller reads holds eight queen moves, and the kingside castle of a king that
would be safe on g1 is lost. Statements about the legal list therefore carry
the bound of 255 candidates. -/
theorem overflow_drops_castle :
    (square_candidates queen_ring WHITE).length = 264 ∧
    queen_ring.white_in_check = false ∧
    (⟨4, 0, 6, 0, WHITE_KING⟩ : move) ∈ emitted queen_ring WHITE 4 0 ∧
    in_check (move_piece queen_ring ⟨4, 0, 6, 0, WHITE_KING⟩) WHITE = false ∧
    (legal_moves queen_ring WHITE).length = 8 ∧
    (⟨4, 0, 6, 0, WHITE_KING⟩ : move) ∉ legal_moves queen_ring WHITE :=
  ⟨by decide!, by decide!, by decide!, by decide!, by decide!, by decide!⟩

/-- Whatever is written, the counter stays an 8-bit value. -/
theorem length_push_move_lt (s : move_list) (m : move) : (push_move s m).length < 256 := by
  unfold push_move
  exact Nat.mod_lt _ (by decide)

theorem length_foldl_push_move (l : List move) : ∀ s : move_list, s.length < 256 →
    (l.foldl push_move s).length < 256 := by
  induction l with
  | nil => intro s h; simpa using h
  | cons a l ih => intro s _; exact ih _ (length_push_move_lt s a)

theorem length_collect_moves (g : game) (c : color) :
    (collect_moves push_move g c move_list.empty).length < 256 := by
  rw [collect_moves_eq]
  exact length_foldl_push_move _ _ (by decide)

theorem length_toList (s : move_list) : s.toList.length = s.length := by
  simp [move_list.toList]

theorem length_legal_moves (g : game) (c : color) :
    (legal_moves g c).length ≤ (collect_moves push_move g c move_list.empty).length := by
  have h1 : legal_moves g c
      = (collect_moves push_move g c move_list.empty).toList.filter (king_safe g c) :=
    add_moves_toList g c move_list.empty
  have h2 := List.length_filter_le (king_safe g c)
    (collect_moves push_move g c move_list.empty).toList
  rw [length_toList] at h2
  rw [h1]
  exact h2

theorem foldl_empty_complete (l : List move) (h : l.length ≤ 255) :
    (l.foldl push_move move_list.empty).toList = l ∧
    (l.foldl push_move move_list.empty).length = l.length := by
  have := foldl_push_move l move_list.empty (by simpa [move_list.empty] using h)
  exact ⟨by simpa [toList_empty] using this.1, by simpa [move_list.empty] using this.2⟩

/-- With at most 255 candidates the first loop of `add_moves` stores every one
of them, in order, and the counter is their number. -/
theorem collect_moves_complete (g : game) (c : color)
    (h : (square_candidates g c).length ≤ 255) :
    (collect_moves push_move g c move_list.empty).toList = square_candidates g c ∧
    (collect_moves push_move g c move_list.empty).length = (square_candidates g c).length := by
  rw [collect_moves_eq]
  exact foldl_empty_complete _ h

/-! ## Board words -/

theorem board_get_kind_eq (b : board) (x y : Fin 8) :
    b.get_kind x y = get_kind (get_piece b x y) := by
  unfold board.get_kind get_kind get_piece piece_of
  simp only []
  have h : (b.rows y >>> (4 * x.val) &&& 15) % 16 &&& 7 = b.rows y >>> (4 * x.val) &&& 7 := by
    rw [Nat.mod_eq_of_lt (nibble_lt _), Nat.and_assoc, show (15 : Nat) &&& 7 = 7 by decide]
  rw [h]

/-- Writing a square keeps every row word within 32 bits. -/
theorem set_piece_row_lt (b : board) (x y y' : Fin 8) (p : piece)
    (h : b.rows y' < 4294967296) : (set_piece b x y p).rows y' < 4294967296 := by
  unfold set_piece
  simp only []
  by_cases hy : y' = y
  · subst hy
    simp only [if_true]
    have h1 : b.rows y' &&& (4294967295 ^^^ (15 <<< (4 * x.val))) < 2 ^ 32 :=
      lt_of_le_of_lt Nat.and_le_left (by simpa using h)
    have h2 : p.val <<< (4 * x.val) < 2 ^ 32 := by
      rw [Nat.shiftLeft_eq]
      have hp := p.isLt
      have hx := x.isLt
      calc p.val * 2 ^ (4 * x.val) < 16 * 2 ^ (4 * x.val) :=
            Nat.mul_lt_mul_of_pos_right hp (Nat.two_pow_pos _)
        _ = 2 ^ (4 + 4 * x.val) := by rw [Nat.pow_add]
        _ ≤ 2 ^ 32 := Nat.pow_le_pow_right (by decide) (by omega)
    have := Nat.or_lt_two_pow h1 h2
    simpa using this
  · simp only [hy, if_false]
    exact h

/-! ## The 64-bit sets -/

theorem testBit_mask64 (i : Nat) : (18446744073709551615 : Nat).testBit i = decide (i < 64) := by
  have : (18446744073709551615 : Nat) = 2 ^ 64 - 1 := by norm_num
  rw [this, Nat.testBit_two_pow_sub_one]

theorem set_off_board (v : Nat) (x y : Int) (h : x < 0 ∨ x ≥ 8 ∨ y < 0 ∨ y ≥ 8) :
    is_piece v x y = false ∧ is_targeted v x y = false ∧ pieces_set.set_piece v x y = v ∧
    remove_piece v x y = v ∧ set_targeted v x y = v := by
  unfold is_piece is_targeted pieces_set.set_piece remove_piece set_targeted
  simp only [if_pos h, and_self]

theorem testBit_set_at (v : Nat) (x y : Int) (h : ¬ (x < 0 ∨ x ≥ 8 ∨ y < 0 ∨ y ≥ 8)) (i : Nat) :
    (pieces_set.set_piece v x y).testBit i = (v.testBit i || decide (i = (y * 8 + x).toNat)) ∧
    (set_targeted v x y).testBit i = (v.testBit i || decide (i = (y * 8 + x).toNat)) := by
  unfold pieces_set.set_piece set_targeted
  rw [if_neg h, Nat.testBit_or, Nat.one_shiftLeft, Nat.testBit_two_pow]
  have e : decide ((y * 8 + x).toNat = i) = decide (i = (y * 8 + x).toNat) := by
    by_cases hh : i = (y * 8 + x).toNat
    · simp [hh]
    · have : ¬ ((y * 8 + x).toNat = i) := fun h1 => hh h1.symm
      simp [hh, this]
  rw [e]
  exact ⟨rfl, rfl⟩

theorem testBit_remove_at (v : Nat) (hv : v < 18446744073709551616) (x y : Int)
    (h : ¬ (x < 0 ∨ x ≥ 8 ∨ y < 0 ∨ y ≥ 8)) (i : Nat) :
    (remove_piece v x y).testBit i = (v.testBit i && !decide (i = (y * 8 + x).toNat)) := by
  unfold remove_piece
  rw [if_neg h, Nat.testBit_and, Nat.testBit_xor, testBit_mask64, Nat.one_shiftLeft,
    Nat.testBit_two_pow]
  have hidx : (y * 8 + x).toNat < 64 := by omega
  by_cases hi : i < 64
  · by_cases hh : i = (y * 8 + x).toNat
    · subst hh
      simp [hi]
    · have : ¬ ((y * 8 + x).toNat = i) := fun h1 => hh h1.symm
      simp [hi, hh, this]
  · have hlt : v < 2 ^ i := lt_of_lt_of_le hv (by
      have : 2 ^ 64 ≤ 2 ^ i := Nat.pow_le_pow_right (by decide) (by omega)
      simpa using this)
    simp [Nat.testBit_lt_two_pow hlt]

theorem is_piece_testBit (v : Nat) (x y : Int) (h : ¬ (x < 0 ∨ x ≥ 8 ∨ y < 0 ∨ y ≥ 8)) :
    is_piece v x y = v.testBit (y * 8 + x).toNat ∧
    is_targeted v x y = v.testBit (y * 8 + x).toNat := by
  unfold is_piece is_targeted
  rw [if_neg h, Nat.testBit, Nat.and_comm]
  exact ⟨rfl, rfl⟩

/-- The five operations on a 64-bit set. -/
theorem bit_set_operations (v : Nat) (hv : v < 18446744073709551616) (x y : Int) :
    ((x < 0 ∨ x ≥ 8 ∨ y < 0 ∨ y ≥ 8) →
      is_piece v x y = false ∧ is_targeted v x y = false ∧ pieces_set.set_piece v x y = v ∧
      remove_piece v x y = v ∧ set_targeted v x y = v) ∧
    (0 ≤ x ∧ x < 8 ∧ 0 ≤ y ∧ y < 8 →
      is_piece (pieces_set.set_piece v x y) x y = true ∧
      is_targeted (set_targeted v x y) x y = true ∧
      is_piece (remove_piece v x y) x y = false ∧
      (∀ i : Nat, i ≠ (y * 8 + x).toNat →
        (pieces_set.set_piece v x y).testBit i = v.testBit i ∧
        (set_targeted v x y).testBit i = v.testBit i ∧
        (remove_piece v x y).testBit i = v.testBit i) ∧
      (pieces_set.set_piece v x y).testBit (y * 8 + x).toNat = true ∧
      (set_targeted v x y).testBit (y * 8 + x).toNat = true ∧
      (remove_piece v x y).testBit (y * 8 + x).toNat = false) := by
  refine ⟨set_off_board v x y, ?_⟩
  intro hb
  have h : ¬ (x < 0 ∨ x ≥ 8 ∨ y < 0 ∨ y ≥ 8) := by omega
  refine ⟨?_, ?_, ?_, ?_, ?_, ?_, ?_⟩
  · rw [(is_piece_testBit _ x y h).1, (testBit_set_at v x y h _).1]; simp
  · rw [(is_piece_testBit _ x y h).2, (testBit_set_at v x y h _).2]; simp
  · rw [(is_piece_testBit _ x y h).1, testBit_remove_at v hv x y h]; simp
  · intro i hi
    rw [(testBit_set_at v x y h i).1, (testBit_set_at v x y h i).2, testBit_remove_at v hv x y h]
    simp [hi]
  · rw [(testBit_set_at v x y h _).1]; simp
  · rw [(testBit_set_at v x y h _).2]; simp
  · rw [testBit_remove_at v hv x y h]; simp

/-! ## Construction of states -/

theorem zero_rows (b : board) :
    coords.foldl (fun b i => (⟨fun j => if j = i then 0 else b.rows j⟩ : board)) b
      = ⟨fun _ => 0⟩ := by
  have h : ∀ j : Fin 8,
      (coords.foldl (fun b i => (⟨fun j => if j = i then 0 else b.rows j⟩ : board)) b).rows j
        = 0 := by
    intro j
    simp only [coords, List.foldl_cons, List.foldl_nil]
    fin_cases j <;> simp
  cases hb : coords.foldl (fun b i => (⟨fun j => if j = i then 0 else b.rows j⟩ : board)) b with
  | mk rows =>
    rw [hb] at h
    congr
    funext j
    exact h j

/-- The function `empty_game` overwrites every field of the state it is handed. -/
theorem empty_game_on_eq (g : game) : empty_game_on g = empty_game := by
  unfold empty_game_on empty_game
  simp only [zero_rows]

theorem setup_game_on_eq (g : game) : setup_game_on g = setup_game := by
  unfold setup_game_on setup_game
  rw [empty_game_on_eq]

/-! ## The strategy `min_opponent_moves` -/

theorem length_add_moves (g : game) (c : color) :
    (add_moves g c move_list.empty).length = (legal_moves g c).length := by
  unfold legal_moves
  rw [length_toList]

theorem length_add_moves_le (g : game) (c : color) :
    (add_moves g c move_list.empty).length ≤ 255 := by
  rw [length_add_moves]
  have h1 := length_legal_moves g c
  have h2 := length_collect_moves g c
  omega

theorem toList_reset_push (s : move_list) (m : move) :
    (push_move ⟨s.moves, 0⟩ m).toList = [m] ∧ (push_move ⟨s.moves, 0⟩ m).length = 1 := by
  constructor
  · simp [push_move, move_list.toList, List.range_succ]
  · simp [push_move]

/-- The loop of `min_opponent_moves` over a list of at most 255 moves keeps
in `options` the moves whose count equals the least count seen, in order. -/
theorem min_opponent_fold (g : game) (c : color) (l : List move) : l.length ≤ 255 →
    ((l.foldl (min_opponent_step g c) (move_list.empty, 255)).2 ≤ 255 ∧
     (∀ m ∈ l, (l.foldl (min_opponent_step g c) (move_list.empty, 255)).2
        ≤ reply_count g m c) ∧
     (l.foldl (min_opponent_step g c) (move_list.empty, 255)).1.toList
        = l.filter (fun m => reply_count g m c
            = (l.foldl (min_opponent_step g c) (move_list.empty, 255)).2) ∧
     (l.foldl (min_opponent_step g c) (move_list.empty, 255)).1.length
        = (l.filter (fun m => reply_count g m c
            = (l.foldl (min_opponent_step g c) (move_list.empty, 255)).2)).length ∧
     (l = [] ∨ 0 < (l.foldl (min_opponent_step g c) (move_list.empty, 255)).1.length) ∧
     (l = [] → (l.foldl (min_opponent_step g c) (move_list.empty, 255)).2 = 255)) := by
  induction l using List.reverseRecOn with
  | nil =>
    intro _
    refine ⟨le_refl _, fun m hm => by simp at hm, ?_, ?_, Or.inl rfl, fun _ => rfl⟩
    · simp [toList_empty]
    · simp [move_list.empty]
  | append_singleton l a ih =>
    intro hl
    rw [List.length_append, List.length_singleton] at hl
    obtain ⟨h1, h2, h3, h4, h5, h6⟩ := ih (by omega)
    rw [List.foldl_append, List.foldl_cons, List.foldl_nil]
    generalize l.foldl (min_opponent_step g c) (move_list.empty, 255) = st at h1 h2 h3 h4 h5 h6
    have hne : l ++ [a] = [] → False := by simp
    have hcnt : (add_moves (move_piece g a) c move_list.empty).length = reply_count g a c := by
      unfold reply_count
      exact length_add_moves _ _
    have hle : reply_count g a c ≤ 255 := by
      rw [← hcnt]; exact length_add_moves_le _ _
    have hflen : (l.filter (fun m => reply_count g m c = st.2)).length ≤ l.length :=
      List.length_filter_le _ _
    unfold min_opponent_step
    simp only [hcnt]
    by_cases hlt : reply_count g a c < st.2
    · rw [if_pos hlt]
      have hnone : l.filter (fun m => decide (reply_count g m c = reply_count g a c)) = [] := by
        rw [List.filter_eq_nil_iff]
        intro m hm
        have := h2 m hm
        simp only [decide_eq_true_eq]
        omega
      refine ⟨hle, ?_, ?_, ?_, Or.inr ?_, fun h => (hne h).elim⟩
      rotate_right
      · show 0 < (push_move ⟨st.1.moves, 0⟩ a).length
        rw [(toList_reset_push st.1 a).2]
        exact Nat.one_pos
      · intro m hm
        rcases List.mem_append.mp hm with hm | hm
        · have := h2 m hm
          show reply_count g a c ≤ reply_count g m c
          omega
        · rw [List.mem_singleton.mp hm]
      · show (push_move ⟨st.1.moves, 0⟩ a).toList = _
        rw [(toList_reset_push st.1 a).1, List.filter_append, hnone]
        simp
      · show (push_move ⟨st.1.moves, 0⟩ a).length = _
        rw [(toList_reset_push st.1 a).2, List.filter_append, hnone]
        simp
    · rw [if_neg hlt]
      by_cases heq : reply_count g a c = st.2
      · rw [if_pos heq]
        have hlen : st.1.length < 255 := by rw [h4]; omega
        refine ⟨h1, ?_, ?_, ?_, Or.inr ?_, fun h => (hne h).elim⟩
        rotate_right
        · show 0 < (push_move st.1 a).length
          rw [length_push_move st.1 a hlen]
          omega
        · intro m hm
          rcases List.mem_append.mp hm with hm | hm
          · exact h2 m hm
          · rw [List.mem_singleton.mp hm]
            show st.2 ≤ reply_count g a c
            omega
        · show (push_move st.1 a).toList = _
          rw [toList_push_move st.1 a hlen, h3, List.filter_append]
          simp [heq]
        · show (push_move st.1 a).length = _
          rw [length_push_move st.1 a hlen, h4, List.filter_append]
          simp [heq]
      · rw [if_neg heq]
        have hpos : 0 < st.1.length := by
          rcases h5 with h5 | h5
          · have := h6 h5
            omega
          · exact h5
        refine ⟨h1, ?_, ?_, ?_, Or.inr hpos, fun h => (hne h).elim⟩
        · intro m hm
          rcases List.mem_append.mp hm with hm | hm
          · exact h2 m hm
          · rw [List.mem_singleton.mp hm]
            omega
        · rw [h3, List.filter_append]
          simp [heq]
        · rw [h4, List.filter_append]
          simp [heq]

theorem toList_get (s : move_list) (k : Nat) (h : k < s.length) :
    s.moves k ∈ s.toList := by
  unfold move_list.toList
  exact List.mem_map.mpr ⟨k, List.mem_range.mpr h, rfl⟩

theorem mem_toList (s : move_list) (m : move) (h : m ∈ s.toList) :
    ∃ k, k < s.length ∧ s.moves k = m := by
  unfold move_list.toList at h
  obtain ⟨k, hk, e⟩ := List.mem_map.mp h
  exact ⟨k, List.mem_range.mp hk, e⟩

theorem min_opponent_options_eq (g : game) (c : color) (moves : Nat → move) (length : Nat) :
    min_opponent_options g c moves length
      = ((List.range length).map moves).foldl (min_opponent_step g c) (move_list.empty, 255) := by
  unfold min_opponent_options
  rw [List.foldl_map]

/-- What `min_opponent_moves` computes on a list of 1 to 255 moves: whatever
the draw, it returns a move of the list for which the number of moves that
`add_moves` reports for the colour `c` itself after the move is least; and
each such move is returned for some draw. -/
theorem min_opponent_moves_own (g : game) (c : color) (moves : Nat → move) (length : Nat)
    (h1 : 0 < length) (h2 : length ≤ 255) :
    (∀ r : Nat, ∃ m, min_opponent_moves g c moves length r = some m ∧
      m ∈ (List.range length).map moves ∧
      ∀ m1 ∈ (List.range length).map moves, reply_count g m c ≤ reply_count g m1 c) ∧
    (∀ m ∈ (List.range length).map moves,
      (∀ m1 ∈ (List.range length).map moves, reply_count g m c ≤ reply_count g m1 c) →
      ∃ r : Nat, min_opponent_moves g c moves length r = some m) := by
  have hl : ((List.range length).map moves).length ≤ 255 := by simpa using h2
  obtain ⟨_, hmin, hlist, hlen, hpos, _⟩ := min_opponent_fold g c _ hl
  rw [← min_opponent_options_eq] at hmin hlist hlen hpos
  have hpos1 : 0 < (min_opponent_options g c moves length).1.length := by
    rcases hpos with h | h
    · have := congrArg List.length h
      simp at this
      omega
    · exact h
  have hmem : ∀ m, m ∈ (min_opponent_options g c moves length).1.toList ↔
      m ∈ (List.range length).map moves ∧
        reply_count g m c = (min_opponent_options g c moves length).2 := by
    intro m
    rw [hlist, List.mem_filter]
    simp
  constructor
  · intro r
    refine ⟨(min_opponent_options g c moves length).1.moves
      (r % (min_opponent_options g c moves length).1.length), ?_, ?_⟩
    · unfold min_opponent_moves
      simp only []
      rw [if_neg (by omega)]
    · have := (hmem _).mp (toList_get _ _ (Nat.mod_lt r hpos1))
      refine ⟨this.1, ?_⟩
      intro m1 hm1
      rw [this.2]
      exact hmin m1 hm1
  · intro m hm hleast
    obtain ⟨m0, hm0⟩ : ∃ m0, m0 ∈ (min_opponent_options g c moves length).1.toList :=
      ⟨_, toList_get _ 0 hpos1⟩
    have h0 := (hmem m0).mp hm0
    have heq : reply_count g m c = (min_opponent_options g c moves length).2 := by
      have a1 := hleast m0 h0.1
      have a2 := hmin m hm
      omega
    obtain ⟨k, hk, e⟩ := mem_toList _ m ((hmem m).mpr ⟨hm, heq⟩)
    refine ⟨k, ?_⟩
    unfold min_opponent_moves
    simp only []
    rw [if_neg (by omega), Nat.mod_eq_of_lt hk, e]

/-! ## Nesting of `move_piece` -/

/-- A king move over two files whose rook-side corner holds no king, and does
not end on that corner, makes `move_piece` nest exactly once: the piece of
the corner is relocated by a call that is not a castle. -/
theorem castle_one_level (g : game) (m : move) (corner : Fin 8)
    (hk : get_kind m.p = KING)
    (hside : ((m.dst_x.val : Int) = m.src_x.val - 2 ∧ corner = 0) ∨
      ((m.dst_x.val : Int) = m.src_x.val + 2 ∧ corner = 7))
    (hcorner : get_kind (get_piece g.b corner m.dst_y) ≠ KING)
    (hdst : m.dst_x ≠ corner) :
    is_castle m = true ∧
    get_piece (move_piece_local g m).b corner m.dst_y = get_piece g.b corner m.dst_y ∧
    is_castle ⟨corner, m.dst_y, (if corner = 0 then 3 else 5), m.dst_y,
      get_piece g.b corner m.dst_y⟩ = false ∧
    move_piece_fuel 2 g m = some (move_piece g m) ∧
    move_piece g m = update_game_state (update_game_state (move_piece_local
      (move_piece_local g m)
      ⟨corner, m.dst_y, (if corner = 0 then 3 else 5), m.dst_y,
        get_piece g.b corner m.dst_y⟩)) := by
  have hsx := m.src_x.isLt
  have hdx := m.dst_x.isLt
  have hc : is_castle m = true := by
    rw [is_castle_iff]
    refine ⟨hk, ?_⟩
    rcases hside with h | h <;> omega
  have hsrc : m.src_x ≠ corner := by
    rcases hside with ⟨h, e⟩ | ⟨h, e⟩
    · rw [e]
      intro h0
      have h00 : m.src_x.val = 0 := congrArg Fin.val h0
      omega
    · rw [e]
      intro h0
      have h00 : m.src_x.val = 7 := congrArg Fin.val h0
      omega
  have hpiece : get_piece (move_piece_local g m).b corner m.dst_y
      = get_piece g.b corner m.dst_y := by
    rw [move_piece_local_b, get_piece_set_piece, get_piece_set_piece,
      if_neg (fun h => hdst h.1.symm), if_neg (fun h => hsrc h.1.symm)]
  have hrel : is_castle ⟨corner, m.dst_y, (if corner = 0 then 3 else 5), m.dst_y,
      get_piece g.b corner m.dst_y⟩ = false := is_castle_of_not_king _ hcorner
  have hfuel : move_piece_fuel 2 g m = some (update_game_state (update_game_state
      (move_piece_local (move_piece_local g m)
        ⟨corner, m.dst_y, (if corner = 0 then 3 else 5), m.dst_y,
          get_piece g.b corner m.dst_y⟩))) := by
    rcases hside with ⟨h, e⟩ | ⟨h, e⟩
    · have hlt : m.dst_x < m.src_x := Fin.lt_def.mpr (by omega)
      subst e
      have e3 : (if (0 : Fin 8) = 0 then (3 : Fin 8) else 5) = 3 := rfl
      rw [e3] at hrel ⊢
      rw [show (2 : Nat) = 1 + 1 from rfl, move_piece_fuel_left 1 g m hc hlt, hpiece,
        move_piece_fuel_plain 0 _ _ (Or.inl hrel)]
      rfl
    · have hgt : m.dst_x > m.src_x := Fin.lt_def.mpr (by omega)
      subst e
      have e5 : (if (7 : Fin 8) = 0 then (3 : Fin 8) else 5) = 5 := rfl
      rw [e5] at hrel ⊢
      rw [show (2 : Nat) = 1 + 1 from rfl, move_piece_fuel_right 1 g m hc hgt, hpiece,
        move_piece_fuel_plain 0 _ _ (Or.inl hrel)]
      rfl
  have h3 := move_piece_fuel_mono _ g m _ hfuel
  have h4 := move_piece_fuel_mono _ g m _ h3
  have h5 := move_piece_fuel_eq 0 g m
  rw [show 0 + 4 = 2 + 1 + 1 from rfl, h4] at h5
  have heq := (Option.some.inj h5).symm
  exact ⟨hc, hpiece, hrel, by rw [hfuel, heq], heq⟩

/-! ## Rights after a pawn move, destinations of the candidates -/

/-- The castling rights after `move_piece` applied a move that does not carry
a king: only a white rook leaving file 0 or file 7 changes one. -/
theorem move_piece_rights_of_not_king (g : game) (m : move) (hk : get_kind m.p ≠ KING) :
    (move_piece g m).black_left_castle = g.black_left_castle ∧
    (move_piece g m).black_right_castle = g.black_right_castle ∧
    (move_piece g m).white_left_castle
      = (if m.p = WHITE_ROOK ∧ m.src_x = 0 then false else g.white_left_castle) ∧
    (move_piece g m).white_right_castle
      = (if m.p = WHITE_ROOK ∧ m.src_x = 7 then false else g.white_right_castle) := by
  rw [move_piece_plain g m (Or.inl (is_castle_of_not_king m hk))]
  obtain ⟨h1, h2, h3, h4⟩ := move_piece_local_rights g m
  have e : (get_color m.p ≠ BLACK ∧ get_kind m.p = ROOK) ↔ m.p = WHITE_ROOK := by
    generalize m.p = p
    revert p
    decide
  have e0 : (get_color m.p ≠ BLACK ∧ (get_kind m.p = KING ∨ (get_kind m.p = ROOK ∧ m.src_x = 0)))
      ↔ (m.p = WHITE_ROOK ∧ m.src_x = 0) := by
    rw [← e]
    constructor
    · rintro ⟨a, b | ⟨b, c⟩⟩
      · exact absurd b hk
      · exact ⟨⟨a, b⟩, c⟩
    · rintro ⟨⟨a, b⟩, c⟩
      exact ⟨a, Or.inr ⟨b, c⟩⟩
  have e7 : (get_color m.p ≠ BLACK ∧ (get_kind m.p = KING ∨ (get_kind m.p = ROOK ∧ m.src_x = 7)))
      ↔ (m.p = WHITE_ROOK ∧ m.src_x = 7) := by
    rw [← e]
    constructor
    · rintro ⟨a, b | ⟨b, c⟩⟩
      · exact absurd b hk
      · exact ⟨⟨a, b⟩, c⟩
    · rintro ⟨⟨a, b⟩, c⟩
      exact ⟨a, Or.inr ⟨b, c⟩⟩
  refine ⟨h1, h2, ?_, ?_⟩
  · show (move_piece_local g m).white_left_castle = _
    rw [h3]
    simp only [e0]
  · show (move_piece_local g m).white_right_castle = _
    rw [h4]
    simp only [e7]

/-- A candidate of a pawn that is not on the farthest rank of its colour
starts on the pawn's square and carries no king. -/
theorem pawn_candidate_piece (g : game) (hf : update_game_state g = g) (c : color)
    (x y fy : Fin 8) (hk : get_kind (get_piece g.b x y) = PAWN)
    (hfy : (fy.val : Int) = y.val + forward c) (m : move) (hm : m ∈ emitted g c x y) :
    m.src_x = x ∧ get_kind m.p ≠ KING := by
  have hp : get_piece g.b x y ≠ EMPTY := piece_ne_empty_of_kind _ (by rw [hk]; decide)
  have hcc := get_color_cases (get_piece g.b x y)
  have key : ∀ t : Fin 8, m ∈ promo_cands ⟨x, y, t, fy, get_piece g.b x y⟩ →
      m.src_x = x ∧ get_kind m.p ≠ KING := by
    intro t ht
    have h := mem_promo_cands m _ hp ht
    dsimp only at h
    refine ⟨h.1, ?_⟩
    rcases h.2.2.2.2 with h1 | h1
    · rw [h1.2, hk]; decide
    · rcases h1.2 with e | e | e | e <;> rw [e, get_kind_make_piece _ _ hcc (by decide)] <;>
        decide
  rw [mem_emitted_pawn g hf c x y fy hk hfy m] at hm
  rcases hm with ⟨_, h⟩ | ⟨_, _, fy2, _, _, h⟩ | ⟨tx, _, _, h⟩
  · exact key _ h
  · rw [h]
    exact ⟨rfl, by dsimp only; rw [hk]; decide⟩
  · exact key _ h

/-- The castling rights after a pawn candidate is applied. -/
theorem pawn_candidate_rights (g : game) (hf : update_game_state g = g) (c : color)
    (x y fy : Fin 8) (hk : get_kind (get_piece g.b x y) = PAWN)
    (hfy : (fy.val : Int) = y.val + forward c) (m : move) (hm : m ∈ emitted g c x y) :
    (move_piece g m).black_left_castle = g.black_left_castle ∧
    (move_piece g m).black_right_castle = g.black_right_castle ∧
    (move_piece g m).white_left_castle
      = (if m.p = WHITE_ROOK ∧ x = 0 then false else g.white_left_castle) ∧
    (move_piece g m).white_right_castle
      = (if m.p = WHITE_ROOK ∧ x = 7 then false else g.white_right_castle) := by
  obtain ⟨h1, h2⟩ := pawn_candidate_piece g hf c x y fy hk hfy m hm
  have := move_piece_rights_of_not_king g m h2
  rw [h1] at this
  exact this

/-- Apart from the candidates of a pawn on the farthest rank of its colour
and from a king move of two files onto a corner square, no candidate ends on
a square that holds a piece of the mover's colour. -/
theorem emitted_not_allied (g : game) (hf : update_game_state g = g) (c : color)
    (x y : Fin 8) (hc : get_color (get_piece g.b x y) = c)
    (hr : get_kind (get_piece g.b x y) = PAWN →
      0 ≤ (y.val : Int) + forward c ∧ (y.val : Int) + forward c < 8)
    (m : move) (hm : m ∈ emitted g c x y)
    (hcorner : get_kind (get_piece g.b x y) = KING →
      ((m.dst_x.val : Int) = x.val - 2 → m.dst_x ≠ 0) ∧
      ((m.dst_x.val : Int) = x.val + 2 → m.dst_x ≠ 7)) :
    ¬ (get_piece g.b m.dst_x m.dst_y ≠ EMPTY ∧
        get_color (get_piece g.b m.dst_x m.dst_y) = c) := by
  have hcc : c = WHITE ∨ c = BLACK := by rw [← hc]; exact get_color_cases _
  rcases get_kind_cases (get_piece g.b x y) with hk | hk | hk | hk | hk | hk | hk | hk
  · rw [emitted_eq, candidates_no_kind g c x y (Or.inl hk)] at hm
    simp at hm
  · rw [emitted_eq, candidates_no_kind g c x y (Or.inr hk)] at hm
    simp at hm
  · have hb := hr hk
    have hp : get_piece g.b x y ≠ EMPTY := piece_ne_empty_of_kind _ (by rw [hk]; decide)
    rw [mem_emitted_pawn g hf c x y (fin8 ((y.val : Int) + forward c)) hk
      (fin8_cast _ hb.1 hb.2) m] at hm
    rcases hm with ⟨he, h⟩ | ⟨_, _, fy2, _, he, h⟩ | ⟨tx, _, he, h⟩
    · have := mem_promo_cands m _ hp h
      dsimp only at this
      rw [this.2.2.1, this.2.2.2.1]
      exact fun h0 => h0.1 he
    · rw [h]
      exact fun h0 => h0.1 he
    · have := mem_promo_cands m _ hp h
      dsimp only at this
      rw [this.2.2.1, this.2.2.2.1]
      intro h0
      rw [he.2] at h0
      unfold opponent at h0
      rcases hcc with e | e <;> rw [e] at h0 <;> simp at h0
  · rw [mem_emitted_knight g hf c x y hc hk] at hm
    obtain ⟨tx, ty, _, h1, h⟩ := hm
    rw [h]
    exact h1
  · rw [mem_emitted_slider g hf c x y hc (Or.inl hk)] at hm
    obtain ⟨_, _, _, _, tx, ty, _, _, _, h1, h⟩ := hm
    rw [h]
    exact h1
  · rw [mem_emitted_slider g hf c x y hc (Or.inr (Or.inl hk))] at hm
    obtain ⟨_, _, _, _, tx, ty, _, _, _, h1, h⟩ := hm
    rw [h]
    exact h1
  · rw [mem_emitted_slider g hf c x y hc (Or.inr (Or.inr hk))] at hm
    obtain ⟨_, _, _, _, tx, ty, _, _, _, h1, h⟩ := hm
    rw [h]
    exact h1
  · obtain ⟨hl, hrr, hshape⟩ := castle_candidates_iff g c x y hf hk
    have hxl := x.isLt
    have hdl := m.dst_x.isLt
    by_cases h2 : (m.dst_x.val : Int) = x.val - 2 ∨ (m.dst_x.val : Int) = x.val + 2
    · have hs := hshape m hm h2
      have hdy : m.dst_y = y := by rw [hs]
      rcases h2 with h2 | h2
      · have hpath := (hl.mp ⟨m, hm, h2, hdy⟩).2.2.1
        have hne := (hcorner hk).1 h2
        have h0 : 0 < m.dst_x.val := by
          rcases Nat.eq_zero_or_pos m.dst_x.val with e | e
          · exact absurd (Fin.ext e) hne
          · exact e
        have := hpath m.dst_x h0 (by omega)
        rw [hdy]
        exact fun h0 => h0.1 this
      · have hpath := (hrr.mp ⟨m, hm, h2, hdy⟩).2.2.1
        have hne := (hcorner hk).2 h2
        have h7 : m.dst_x.val < 7 := by
          rcases Nat.lt_or_ge m.dst_x.val 7 with e | e
          · exact e
          · exact absurd (Fin.ext (by show m.dst_x.val = 7; omega)) hne
        have := hpath m.dst_x (by omega) h7
        rw [hdy]
        exact fun h0 => h0.1 this
    · obtain ⟨tx, ty, _, h1, h⟩ := (mem_emitted_king g hf c x y hc hk m).mp ⟨hm, h2⟩
      rw [h]
      exact h1

/-! ## Games played from a position -/

theorem play_cons (g : game) (c : color) (m : move) (ms : List move)
    (h : m ∈ legal_moves g c) :
    play g c (m :: ms) = play (move_piece g m) (opponent c) ms := by
  rw [play, if_pos h]

/-- A candidate of the per-square generator that leaves the mover out of
check is in the legal list, the candidates being at most 255. -/
theorem legal_of_emitted (g : game) (c : color) (x y : Fin 8) (m : move)
    (hc : c = WHITE ∨ c = BLACK) (hlen : (square_candidates g c).length ≤ 255)
    (hcol : g.b.get_color x y = c) (hm : m ∈ emitted g c x y)
    (hs : in_check (move_piece g m) c = false) : m ∈ legal_moves g c :=
  (mem_legal_moves_iff g c m hlen (mem_square_candidates g c x y m hm hcol) hc).mpr hs

/-! ## The counter and the buffer in every state -/

/-- A write through a counter below 256 leaves every entry from index 256 on
as it was. -/
theorem moves_push_move_high (s : move_list) (m : move) (hs : s.length < 256) (i : Nat)
    (hi : 256 ≤ i) : (push_move s m).moves i = s.moves i := by
  unfold push_move
  simp only []
  rw [if_neg (by omega)]

theorem moves_foldl_push_move (l : List move) : ∀ s : move_list, s.length < 256 →
    ∀ i : Nat, 256 ≤ i → (l.foldl push_move s).moves i = s.moves i := by
  induction l with
  | nil => intro s _ i _; rfl
  | cons a l ih =>
    intro s hs i hi
    rw [List.foldl_cons, ih _ (length_push_move_lt s a) i hi, moves_push_move_high s a hs i hi]

/-- The counter after a run of writes is the number of writes modulo 256. -/
theorem length_foldl_push_move_mod (l : List move) : ∀ s : move_list, s.length < 256 →
    (l.foldl push_move s).length = (s.length + l.length) % 256 := by
  induction l with
  | nil => intro s hs; simpa using (Nat.mod_eq_of_lt hs).symm
  | cons a l ih =>
    intro s _
    rw [List.foldl_cons, ih _ (length_push_move_lt s a)]
    simp only [push_move, List.length_cons]
    omega

/-- The second loop of `add_moves`, run over at most 256 entries, leaves every
entry from index 256 on as it was. -/
theorem moves_filter_moves_high (g : game) (c : color) (n : Nat) :
    ∀ (i : Nat) (moves : Nat → move) (w : Nat), w ≤ i → i + n ≤ 256 →
      ∀ j : Nat, 256 ≤ j → (filter_moves g c n i moves w).moves j = moves j := by
  induction n with
  | zero => intro i moves w _ _ j _; rfl
  | succ n ih =>
    intro i moves w hw hn j hj
    rw [filter_moves]
    by_cases hk : king_safe g c (moves i) = true
    · rw [if_pos hk, ih (i + 1) _ (w + 1) (by omega) (by omega) j hj]
      exact if_neg (by omega)
    · rw [if_neg hk, ih (i + 1) moves w (by omega) (by omega) j hj]

/-- Neither loop of the colour-level `add_moves`, started with the counter at
0, changes an entry from index 256 on. -/
theorem add_moves_buffer (g : game) (c : color) (buf : Nat → move) (i : Nat) (hi : 256 ≤ i) :
    (collect_moves push_move g c ⟨buf, 0⟩).moves i = buf i ∧
    (add_moves g c ⟨buf, 0⟩).moves i = buf i := by
  have h1 : (collect_moves push_move g c ⟨buf, 0⟩).moves i = buf i := by
    rw [collect_moves_eq]
    exact moves_foldl_push_move _ ⟨buf, 0⟩ (Nat.zero_lt_succ _) i hi
  have h2 : (collect_moves push_move g c ⟨buf, 0⟩).length < 256 := by
    rw [collect_moves_eq]
    exact length_foldl_push_move _ ⟨buf, 0⟩ (Nat.zero_lt_succ _)
  refine ⟨h1, ?_⟩
  unfold add_moves
  simp only []
  rw [moves_filter_moves_high g c _ 0 _ 0 (le_refl 0) (by omega) i hi, h1]

/-- With 256 or more candidates the counter of the first loop is their number
modulo 256, less than their number. -/
theorem collect_moves_wraps (g : game) (c : color)
    (h : 256 ≤ (square_candidates g c).length) :
    (collect_moves push_move g c move_list.empty).length
      = (square_candidates g c).length % 256 ∧
    (collect_moves push_move g c move_list.empty).length < (square_candidates g c).length := by
  have h1 : (collect_moves push_move g c move_list.empty).length
      = (square_candidates g c).length % 256 := by
    rw [collect_moves_eq, length_foldl_push_move_mod _ _ (by decide)]
    simp [move_list.empty]
  refine ⟨h1, ?_⟩
  rw [h1]
  omega

/-! ## The generator against the attack projection -/

/-- In a fresh state, the destinations of the candidates emitted for a knight,
bishop, rook, queen or king (for a king: other than those to file `x - 2` or
`x + 2`) are the squares `threaten` marks for that piece with the combined
occupancy, less the squares holding a piece of the same colour. -/
theorem emitted_dst_iff_threaten (g : game) (hf : update_game_state g = g) (c : color)
    (x y : Fin 8) (hc : get_color (get_piece g.b x y) = c)
    (hk : get_kind (get_piece g.b x y) = KNIGHT ∨ get_kind (get_piece g.b x y) = BISHOP ∨
      get_kind (get_piece g.b x y) = ROOK ∨ get_kind (get_piece g.b x y) = QUEEN ∨
      get_kind (get_piece g.b x y) = KING) (tx ty : Fin 8) :
    (∃ m ∈ emitted g c x y, m.dst_x = tx ∧ m.dst_y = ty ∧
        (get_kind (get_piece g.b x y) = KING →
          ¬ ((m.dst_x.val : Int) = x.val - 2 ∨ (m.dst_x.val : Int) = x.val + 2))) ↔
      (is_targeted (threaten g.pieces 0 (get_piece g.b x y) x.val y.val) tx.val ty.val = true ∧
        ¬ (get_piece g.b tx ty ≠ EMPTY ∧ get_color (get_piece g.b tx ty) = c)) := by
  rw [threaten_iff, is_targeted_zero]
  simp only [Bool.false_eq_true, false_or]
  have slider : (get_kind (get_piece g.b x y) = BISHOP ∨ get_kind (get_piece g.b x y) = ROOK ∨
      get_kind (get_piece g.b x y) = QUEEN) →
      ((∃ m ∈ emitted g c x y, m.dst_x = tx ∧ m.dst_y = ty ∧
          (get_kind (get_piece g.b x y) = KING →
            ¬ ((m.dst_x.val : Int) = x.val - 2 ∨ (m.dst_x.val : Int) = x.val + 2))) ↔
        (attacks g.pieces (get_piece g.b x y) x.val y.val tx.val ty.val ∧
          ¬ (get_piece g.b tx ty ≠ EMPTY ∧ get_color (get_piece g.b tx ty) = c))) := by
    intro hs
    rw [attacks_slider _ _ _ _ _ _ hs]
    constructor
    · rintro ⟨m, hm, hx, hy, -⟩
      rw [mem_emitted_slider g hf c x y hc hs] at hm
      obtain ⟨d, hd, k, hk1, ux, uy, hux, huy, hclear, hna, rfl⟩ := hm
      subst hx; subst hy
      exact ⟨⟨d, hd, k, hk1, hux, huy,
        fun j h1 h2 => (fresh_clear g hf _ _).mpr (hclear j h1 h2)⟩, hna⟩
    · rintro ⟨⟨d, hd, k, hk1, hux, huy, hclear⟩, hna⟩
      refine ⟨⟨x, y, tx, ty, get_piece g.b x y⟩,
        (mem_emitted_slider g hf c x y hc hs _).mpr
          ⟨d, hd, k, hk1, tx, ty, hux, huy,
            fun j h1 h2 => (fresh_clear g hf _ _).mp (hclear j h1 h2), hna, rfl⟩, rfl, rfl, ?_⟩
      intro h
      rcases hs with h1 | h1 | h1 <;> rw [h1] at h <;> exact absurd h (by decide)
  rcases hk with hk | hk | hk | hk | hk
  · rw [attacks_knight _ _ _ _ _ _ hk]
    constructor
    · rintro ⟨m, hm, hx, hy, -⟩
      rw [mem_emitted_knight g hf c x y hc hk] at hm
      obtain ⟨ux, uy, ho, hna, rfl⟩ := hm
      subst hx; subst hy
      exact ⟨ho, hna⟩
    · rintro ⟨ho, hna⟩
      refine ⟨⟨x, y, tx, ty, get_piece g.b x y⟩,
        (mem_emitted_knight g hf c x y hc hk _).mpr ⟨tx, ty, ho, hna, rfl⟩, rfl, rfl, ?_⟩
      intro h
      rw [hk] at h
      exact absurd h (by decide)
  · exact slider (Or.inl hk)
  · exact slider (Or.inr (Or.inl hk))
  · exact slider (Or.inr (Or.inr hk))
  · rw [attacks_king _ _ _ _ _ _ hk]
    constructor
    · rintro ⟨m, hm, hx, hy, hn⟩
      obtain ⟨ux, uy, ho, hna, rfl⟩ := (mem_emitted_king g hf c x y hc hk m).mp ⟨hm, hn hk⟩
      subst hx; subst hy
      exact ⟨ho, hna⟩
    · rintro ⟨ho, hna⟩
      have h := (mem_emitted_king g hf c x y hc hk ⟨x, y, tx, ty, get_piece g.b x y⟩).mpr
        ⟨tx, ty, ho, hna, rfl⟩
      exact ⟨_, h.1, rfl, rfl, fun _ => h.2⟩

/-! ## The claims -/

/-- C1. Every move of the list that the colour-level `add_moves` returns for `c`
from an empty list leaves `c` out of check: after `move_piece` the in-check
flag of `c` is false, and the king mask of `c` recomputed from the resulting
board shares no bit with the recomputed attacked set of the opponent. The
state `g` need not even be fresh. -/
theorem legal_moves_leave_king_safe (g : game) (c : color) (m : move)
    (hm : m ∈ legal_moves g c) :
    (c = WHITE ∨ c = BLACK) ∧
    in_check (move_piece g m) c = false ∧
    find_king (move_piece g m).b c &&&
      find_targeted (move_piece g m).b
        (find_pieces (move_piece g m).b WHITE ||| find_pieces (move_piece g m).b BLACK)
        (opponent c) = 0 := by
  have hs := king_safe_of_mem g c m hm
  obtain ⟨h, hu⟩ := move_piece_eq_update g m
  unfold king_safe at hs
  simp only [Bool.decide_or, Bool.decide_and, Bool.or_eq_true, Bool.and_eq_true,
    decide_eq_true_eq, Bool.not_eq_true'] at hs
  rcases hs with ⟨hc, hk⟩ | ⟨hc, hk⟩
  · subst hc
    refine ⟨Or.inl rfl, ?_, ?_⟩
    · simpa [in_check] using hk
    · rw [hu] at hk ⊢
      have : (find_king h.b WHITE &&& find_targeted h.b
          (find_pieces h.b WHITE ||| find_pieces h.b BLACK) BLACK != 0) = false := hk
      simpa [opponent] using this
  · subst hc
    refine ⟨Or.inr rfl, ?_, ?_⟩
    · simpa [in_check] using hk
    · rw [hu] at hk ⊢
      have : (find_king h.b BLACK &&& find_targeted h.b
          (find_pieces h.b WHITE ||| find_pieces h.b BLACK) WHITE != 0) = false := hk
      simpa [opponent] using this

theorem legal_moves_leave_king_safe_witness :
    (⟨4, 0, 6, 0, WHITE_KING⟩ : move) ∈ legal_moves (castle_scenario false false false) WHITE ∧
    in_check (move_piece (castle_scenario false false false) ⟨4, 0, 6, 0, WHITE_KING⟩) WHITE
      = false :=
  ⟨by decide!,
   (legal_moves_leave_king_safe (castle_scenario false false false) WHITE
      ⟨4, 0, 6, 0, WHITE_KING⟩ (by decide!)).2.1⟩

/-- C2 (failing input). In the position after 1. e4 e5 2. Nf3 the king move
e8-e7 is in Black's legal list, and after `move_piece` applies it both of
Black's castling rights are still true. -/
theorem black_king_move_keeps_rights :
    (⟨4, 7, 4, 6, BLACK_KING⟩ : move) ∈ legal_moves open_game BLACK ∧
    open_game.black_left_castle = true ∧ open_game.black_right_castle = true ∧
    (move_piece open_game ⟨4, 7, 4, 6, BLACK_KING⟩).black_left_castle = true ∧
    (move_piece open_game ⟨4, 7, 4, 6, BLACK_KING⟩).black_right_castle = true :=
  ⟨legal_of_emitted _ _ 4 7 _ (Or.inr rfl) (by decide!) (by decide!) (by decide!) (by decide!),
   by decide!, by decide!, by decide!, by decide!⟩

/-- C3. When the per-square generators produce at most 255 candidates in
total, the list returned by the colour-level `add_moves` from an empty list
is the concatenation of the per-square lists (files outermost, ranks within a
file, each square in its own enumeration order) filtered by the king-safety
test on `move_piece(copy of g, m)`: same order, nothing dropped, nothing
repeated. The argument `g` is a value and is not changed. -/
theorem legal_moves_eq_filtered_candidates (g : game) (c : color)
    (h : (square_candidates g c).length ≤ 255) :
    legal_moves g c = (square_candidates g c).filter (king_safe g c) ∧
    ∀ m, m ∈ square_candidates g c → (m ∈ legal_moves g c ↔
      ((c = WHITE ∧ (move_piece g m).white_in_check = false) ∨
       (c = BLACK ∧ (move_piece g m).black_in_check = false))) := by
  have h1 := legal_moves_eq_filter g c h
  refine ⟨h1, ?_⟩
  intro m hm
  rw [h1, List.mem_filter]
  simp [hm, king_safe]

theorem legal_moves_eq_filtered_candidates_witness :
    (square_candidates setup_game WHITE).length ≤ 255 ∧
    legal_moves setup_game WHITE
      = (square_candidates setup_game WHITE).filter (king_safe setup_game WHITE) :=
  ⟨by decide!, (legal_moves_eq_filtered_candidates setup_game WHITE (by decide!)).1⟩

/-- C4. The state produced by `move_piece` is a fixed point of
`update_game_state`: every derived field equals the value recomputed from the
resulting board alone. This covers castles, whose nested rook relocation has
already changed the board. -/
theorem move_piece_fixed_point (g : game) (m : move) :
    update_game_state (move_piece g m) = move_piece g m ∧
    (move_piece g m).white_pieces = find_pieces (move_piece g m).b WHITE ∧
    (move_piece g m).black_pieces = find_pieces (move_piece g m).b BLACK ∧
    (move_piece g m).pieces
      = find_pieces (move_piece g m).b WHITE ||| find_pieces (move_piece g m).b BLACK ∧
    (move_piece g m).white_king = find_king (move_piece g m).b WHITE ∧
    (move_piece g m).black_king = find_king (move_piece g m).b BLACK ∧
    (move_piece g m).white_targets
      = find_targeted (move_piece g m).b (move_piece g m).pieces WHITE ∧
    (move_piece g m).black_targets
      = find_targeted (move_piece g m).b (move_piece g m).pieces BLACK ∧
    (move_piece g m).white_in_check
      = ((move_piece g m).white_king &&& (move_piece g m).black_targets != 0) ∧
    (move_piece g m).black_in_check
      = ((move_piece g m).black_king &&& (move_piece g m).white_targets != 0) := by
  obtain ⟨h, hu⟩ := move_piece_eq_update g m
  rw [hu]
  exact ⟨rfl, rfl, rfl, rfl, rfl, rfl, rfl, rfl, rfl, rfl⟩

/-- C5. For a king of colour `c` on `(x, y)` in a fresh state, the per-square
generator emits a candidate to file `x - 2` of the same rank exactly when the
queenside right of `c` is set, `c` is not in check, every square strictly
between file 0 and the king is empty and `x - 2` is on the board; and one to
file `x + 2` exactly when the kingside right is set, `c` is not in check,
every square strictly between the king and file 7 is empty and `x + 2` is on
the board. Nothing else enters: no attacked-square test on the square the
king passes over. Such a candidate starts on the king's square and carries
the king. -/
theorem king_castle_candidates (g : game) (c : color) (x y : Fin 8)
    (hf : update_game_state g = g)
    (hk : get_kind (get_piece g.b x y) = KING) (_hc : get_color (get_piece g.b x y) = c) :
    ((∃ m ∈ emitted g c x y, (m.dst_x.val : Int) = (x.val : Int) - 2 ∧ m.dst_y = y) ↔
      ((if c = WHITE then g.white_left_castle else g.black_left_castle) = true ∧
        in_check g c = false ∧
        (∀ i : Fin 8, 0 < i.val → i.val < x.val → get_piece g.b i y = EMPTY) ∧
        2 ≤ x.val)) ∧
    ((∃ m ∈ emitted g c x y, (m.dst_x.val : Int) = (x.val : Int) + 2 ∧ m.dst_y = y) ↔
      ((if c = WHITE then g.white_right_castle else g.black_right_castle) = true ∧
        in_check g c = false ∧
        (∀ i : Fin 8, x.val < i.val → i.val < 7 → get_piece g.b i y = EMPTY) ∧
        x.val + 2 ≤ 7)) ∧
    (∀ m ∈ emitted g c x y,
      ((m.dst_x.val : Int) = (x.val : Int) - 2 ∨ (m.dst_x.val : Int) = (x.val : Int) + 2) →
      m = ⟨x, y, m.dst_x, y, get_piece g.b x y⟩) :=
  castle_candidates_iff g c x y hf hk

theorem king_castle_candidates_witness :
    update_game_state (castle_scenario false false false) = castle_scenario false false false ∧
    get_kind (get_piece (castle_scenario false false false).b 4 0) = KING ∧
    get_color (get_piece (castle_scenario false false false).b 4 0) = WHITE ∧
    ((∃ m ∈ emitted (castle_scenario false false false) WHITE 4 0,
        (m.dst_x.val : Int) = ((4 : Fin 8).val : Int) + 2 ∧ m.dst_y = 0) ↔
      ((if WHITE = WHITE then (castle_scenario false false false).white_right_castle
          else (castle_scenario false false false).black_right_castle) = true ∧
        in_check (castle_scenario false false false) WHITE = false ∧
        (∀ i : Fin 8, (4 : Fin 8).val < i.val → i.val < 7 →
          get_piece (castle_scenario false false false).b i 0 = EMPTY) ∧
        (4 : Fin 8).val + 2 ≤ 7)) :=
  ⟨update_game_state_idem _, by decide!, by decide!,
   (king_castle_candidates (castle_scenario false false false) WHITE 4 0
      (update_game_state_idem _) (by decide!) (by decide!)).2.1⟩

/-- C6 (counterexample). White king e1, rooks a1 and h1, both rights set, both
paths empty, White not in check, a black rook on g8: the kingside two-file
move e1-g1 is not in White's legal list, because it would leave the king on
an attacked square. -/
theorem castle_onto_attacked_square_not_legal :
    update_game_state guarded_castle = guarded_castle ∧
    get_piece guarded_castle.b 4 0 = WHITE_KING ∧
    get_piece guarded_castle.b 0 0 = WHITE_ROOK ∧
    get_piece guarded_castle.b 7 0 = WHITE_ROOK ∧
    guarded_castle.white_left_castle = true ∧
    guarded_castle.white_right_castle = true ∧
    (∀ i : Fin 8, i ≠ 0 → i ≠ 4 → i ≠ 7 → get_piece guarded_castle.b i 0 = EMPTY) ∧
    guarded_castle.white_in_check = false ∧
    (⟨4, 0, 6, 0, WHITE_KING⟩ : move) ∉ legal_moves guarded_castle WHITE :=
  ⟨update_game_state_idem _, by decide!, by decide!, by decide!, by decide!, by decide!,
   by decide!, by decide!, by decide!⟩

/-- C6 (amended). With the king of `c` on its home square, rooks on both
corners, both rights set, both paths empty and `c` not in check, the
per-square generator emits both two-file king moves (to file 6 and to file
2); and when the generators produce at most 255 candidates in total, each of
the two is in the legal list of `c` exactly when applying it leaves the
in-check flag of `c` false. -/
theorem castle_candidates_home_square (g : game) (c : color) (hc : c = WHITE ∨ c = BLACK)
    (hf : update_game_state g = g)
    (hking : get_piece g.b 4 (home_rank c) = make_piece c KING)
    (_hrook0 : get_piece g.b 0 (home_rank c) = make_piece c ROOK)
    (_hrook7 : get_piece g.b 7 (home_rank c) = make_piece c ROOK)
    (hl : (if c = WHITE then g.white_left_castle else g.black_left_castle) = true)
    (hr : (if c = WHITE then g.white_right_castle else g.black_right_castle) = true)
    (hempty : ∀ i : Fin 8, i ≠ 0 → i ≠ 4 → i ≠ 7 → get_piece g.b i (home_rank c) = EMPTY)
    (hchk : in_check g c = false) :
    (⟨4, home_rank c, 6, home_rank c, make_piece c KING⟩ : move) ∈ emitted g c 4 (home_rank c) ∧
    (⟨4, home_rank c, 2, home_rank c, make_piece c KING⟩ : move) ∈ emitted g c 4 (home_rank c) ∧
    ((square_candidates g c).length ≤ 255 →
      ((⟨4, home_rank c, 6, home_rank c, make_piece c KING⟩ : move) ∈ legal_moves g c ↔
        in_check (move_piece g ⟨4, home_rank c, 6, home_rank c, make_piece c KING⟩) c
          = false) ∧
      ((⟨4, home_rank c, 2, home_rank c, make_piece c KING⟩ : move) ∈ legal_moves g c ↔
        in_check (move_piece g ⟨4, home_rank c, 2, home_rank c, make_piece c KING⟩) c
          = false)) :=
  castle_home g c hc hf hking hl hr hempty hchk

theorem castle_candidates_home_square_witness :
    (⟨4, 0, 6, 0, WHITE_KING⟩ : move) ∈ emitted guarded_castle WHITE 4 0 ∧
    (⟨4, 0, 2, 0, WHITE_KING⟩ : move) ∈ emitted guarded_castle WHITE 4 0 ∧
    ((⟨4, 0, 2, 0, WHITE_KING⟩ : move) ∈ legal_moves guarded_castle WHITE ↔
      in_check (move_piece guarded_castle ⟨4, 0, 2, 0, WHITE_KING⟩) WHITE = false) :=
  have h := castle_candidates_home_square guarded_castle WHITE (Or.inl rfl)
    (update_game_state_idem _) (by decide!) (by decide!) (by decide!) (by decide!)
    (by decide!) (by decide!) (by decide!)
  ⟨h.1, h.2.1, (h.2.2 (by decide!)).2⟩

/-- C7. The board after `move_piece`. (a) Unless the move carries a king whose
destination file differs from its source file by two or more, the board is
that of `g` with the source square emptied and then the carried piece written
to the destination, every other square unchanged. (b) For a king going from
file 4 to file 2 (resp. file 6) while the file-0 (resp. file-7) square of the
destination rank holds a rook, additionally that corner is emptied and the
rook stands on file 3 (resp. file 5); no other square changes. -/
theorem move_piece_board (g : game) (m : move) :
    (¬ (get_kind m.p = KING ∧
          (m.dst_x.val + 2 ≤ m.src_x.val ∨ m.src_x.val + 2 ≤ m.dst_x.val)) →
      (move_piece g m).b
          = set_piece (set_piece g.b m.src_x m.src_y EMPTY) m.dst_x m.dst_y m.p ∧
        ∀ x y : Fin 8, get_piece (move_piece g m).b x y =
          if x = m.dst_x ∧ y = m.dst_y then m.p
          else if x = m.src_x ∧ y = m.src_y then EMPTY
          else get_piece g.b x y) ∧
    (get_kind m.p = KING → m.src_x = 4 → m.dst_x = 2 →
      get_kind (get_piece g.b 0 m.dst_y) = ROOK →
      ∀ x y : Fin 8, get_piece (move_piece g m).b x y =
        if x = 3 ∧ y = m.dst_y then get_piece g.b 0 m.dst_y
        else if x = 0 ∧ y = m.dst_y then EMPTY
        else if x = m.dst_x ∧ y = m.dst_y then m.p
        else if x = m.src_x ∧ y = m.src_y then EMPTY
        else get_piece g.b x y) ∧
    (get_kind m.p = KING → m.src_x = 4 → m.dst_x = 6 →
      get_kind (get_piece g.b 7 m.dst_y) = ROOK →
      ∀ x y : Fin 8, get_piece (move_piece g m).b x y =
        if x = 5 ∧ y = m.dst_y then get_piece g.b 7 m.dst_y
        else if x = 7 ∧ y = m.dst_y then EMPTY
        else if x = m.dst_x ∧ y = m.dst_y then m.p
        else if x = m.src_x ∧ y = m.src_y then EMPTY
        else get_piece g.b x y) := by
  refine ⟨?_, ?_, ?_⟩
  · intro h
    have hplain : is_castle m = false ∨ m.dst_x = m.src_x := by
      by_cases hk : get_kind m.p = KING
      · by_cases he : m.dst_x = m.src_x
        · exact Or.inr he
        · left
          have hne : m.dst_x.val ≠ m.src_x.val := fun h1 => he (Fin.ext h1)
          have h2 : ¬ (m.dst_x.val + 2 ≤ m.src_x.val ∨ m.src_x.val + 2 ≤ m.dst_x.val) :=
            fun h3 => h ⟨hk, h3⟩
          simp only [is_castle, hk, true_and, decide_eq_false_iff_not]
          omega
      · exact Or.inl (is_castle_of_not_king m hk)
    refine ⟨move_piece_board_plain g m hplain, ?_⟩
    intro x y
    rw [move_piece_board_plain g m hplain]
    simp only [get_piece_set_piece]
  · intro hk hs hd hr x y
    have hc : is_castle m = true := by
      rw [is_castle, hk, hs, hd]; decide
    have hlt : m.dst_x < m.src_x := by rw [hs, hd]; decide
    have hrook : get_piece (move_piece_local g m).b 0 m.dst_y = get_piece g.b 0 m.dst_y := by
      rw [move_piece_local_b]
      simp [get_piece_set_piece, hs, hd]
    rw [move_piece_left g m hc hlt, update_game_state_b, hrook,
      move_piece_board_plain _ _ (Or.inl (is_castle_of_not_king _ (by rw [hr]; decide))),
      move_piece_local_b]
    simp only [get_piece_set_piece]
  · intro hk hs hd hr x y
    have hc : is_castle m = true := by
      rw [is_castle, hk, hs, hd]; decide
    have hgt : m.dst_x > m.src_x := by rw [hs, hd]; decide
    have hrook : get_piece (move_piece_local g m).b 7 m.dst_y = get_piece g.b 7 m.dst_y := by
      rw [move_piece_local_b]
      simp [get_piece_set_piece, hs, hd]
    rw [move_piece_right g m hc hgt, update_game_state_b, hrook,
      move_piece_board_plain _ _ (Or.inl (is_castle_of_not_king _ (by rw [hr]; decide))),
      move_piece_local_b]
    simp only [get_piece_set_piece]

theorem move_piece_board_witness :
    (∀ x y : Fin 8, get_piece (move_piece setup_game ⟨4, 1, 4, 3, WHITE_PAWN⟩).b x y =
      if x = 4 ∧ y = 3 then WHITE_PAWN
      else if x = 4 ∧ y = 1 then EMPTY
      else get_piece setup_game.b x y) ∧
    (∀ x y : Fin 8, get_piece (move_piece guarded_castle ⟨4, 0, 2, 0, WHITE_KING⟩).b x y =
      if x = 3 ∧ y = 0 then get_piece guarded_castle.b 0 0
      else if x = 0 ∧ y = 0 then EMPTY
      else if x = 2 ∧ y = 0 then WHITE_KING
      else if x = 4 ∧ y = 0 then EMPTY
      else get_piece guarded_castle.b x y) ∧
    (∀ x y : Fin 8, get_piece (move_piece guarded_castle ⟨4, 0, 6, 0, WHITE_KING⟩).b x y =
      if x = 5 ∧ y = 0 then get_piece guarded_castle.b 7 0
      else if x = 7 ∧ y = 0 then EMPTY
      else if x = 6 ∧ y = 0 then WHITE_KING
      else if x = 4 ∧ y = 0 then EMPTY
      else get_piece guarded_castle.b x y) :=
  ⟨((move_piece_board setup_game ⟨4, 1, 4, 3, WHITE_PAWN⟩).1 (by decide)).2,
   (move_piece_board guarded_castle ⟨4, 0, 2, 0, WHITE_KING⟩).2.1 (by decide) rfl rfl
     (by decide!),
   (move_piece_board guarded_castle ⟨4, 0, 6, 0, WHITE_KING⟩).2.2 (by decide) rfl rfl
     (by decide!)⟩

/-- C8. King e1 and rook h1 alone on the board, White's kingside right set
(whatever the other three rights): e1-g1 is in White's legal list, and after
`move_piece` applies it the king is on g1, the rook on f1, e1 and h1 are
empty and White's kingside right is false. -/
theorem kingside_castle_scenario : ∀ wl bl br : Bool,
    (∀ x y : Fin 8, get_piece (castle_scenario wl bl br).b x y =
      if x = 4 ∧ y = 0 then WHITE_KING else if x = 7 ∧ y = 0 then WHITE_ROOK else EMPTY) ∧
    (castle_scenario wl bl br).white_right_castle = true ∧
    update_game_state (castle_scenario wl bl br) = castle_scenario wl bl br ∧
    (⟨4, 0, 6, 0, WHITE_KING⟩ : move) ∈ legal_moves (castle_scenario wl bl br) WHITE ∧
    get_piece (move_piece (castle_scenario wl bl br) ⟨4, 0, 6, 0, WHITE_KING⟩).b 6 0
      = WHITE_KING ∧
    get_piece (move_piece (castle_scenario wl bl br) ⟨4, 0, 6, 0, WHITE_KING⟩).b 5 0
      = WHITE_ROOK ∧
    get_piece (move_piece (castle_scenario wl bl br) ⟨4, 0, 6, 0, WHITE_KING⟩).b 4 0
      = EMPTY ∧
    get_piece (move_piece (castle_scenario wl bl br) ⟨4, 0, 6, 0, WHITE_KING⟩).b 7 0
      = EMPTY ∧
    (move_piece (castle_scenario wl bl br) ⟨4, 0, 6, 0, WHITE_KING⟩).white_right_castle
      = false := by
  intro wl bl br
  refine ⟨?_, ?_, update_game_state_idem _, ?_⟩
  · cases wl <;> cases bl <;> cases br <;> decide!
  · rfl
  · cases wl <;> cases bl <;> cases br <;> decide!

/-- C9. For a pawn of colour `c` on `(x, y)` in a fresh state whose forward
square `(x, fy)` is on the board (the pawn is not on the farthest rank of
`c`): the generator emits a move to the forward square exactly when that
square is empty; a move two ranks forward exactly when the pawn is on its
home rank and both squares are empty; a move to a forward-diagonal square
exactly when that square holds a piece of the other colour; and no candidate
with any other destination. -/
theorem pawn_candidates (g : game) (c : color) (x y fy : Fin 8)
    (hf : update_game_state g = g)
    (hk : get_kind (get_piece g.b x y) = PAWN) (_hc : get_color (get_piece g.b x y) = c)
    (hfy : (fy.val : Int) = y.val + forward c) :
    ((∃ m ∈ emitted g c x y, m.dst_x = x ∧ m.dst_y = fy) ↔ get_piece g.b x fy = EMPTY) ∧
    (∀ fy2 : Fin 8, (fy2.val : Int) = y.val + 2 * forward c →
      ((∃ m ∈ emitted g c x y, m.dst_x = x ∧ m.dst_y = fy2) ↔
        ((y.val : Int) = pawn_home c ∧ get_piece g.b x fy = EMPTY ∧
          get_piece g.b x fy2 = EMPTY))) ∧
    (∀ tx : Fin 8, ((tx.val : Int) = x.val - 1 ∨ (tx.val : Int) = x.val + 1) →
      ((∃ m ∈ emitted g c x y, m.dst_x = tx ∧ m.dst_y = fy) ↔
        (get_piece g.b tx fy ≠ EMPTY ∧ get_color (get_piece g.b tx fy) = opponent c))) ∧
    (∀ m ∈ emitted g c x y,
      (m.dst_y = fy ∧ ((m.dst_x.val : Int) = x.val ∨ (m.dst_x.val : Int) = x.val - 1 ∨
          (m.dst_x.val : Int) = x.val + 1)) ∨
      (m.dst_x = x ∧ (m.dst_y.val : Int) = y.val + 2 * forward c)) :=
  pawn_destinations g c x y fy hf hk hfy

theorem pawn_candidates_witness :
    update_game_state setup_game = setup_game ∧
    get_piece setup_game.b 4 1 = WHITE_PAWN ∧
    ((∃ m ∈ emitted setup_game WHITE 4 1, m.dst_x = 4 ∧ m.dst_y = 2) ↔
      get_piece setup_game.b 4 2 = EMPTY) ∧
    ((∃ m ∈ emitted setup_game WHITE 4 1, m.dst_x = 4 ∧ m.dst_y = 3) ↔
      (((1 : Fin 8).val : Int) = pawn_home WHITE ∧ get_piece setup_game.b 4 2 = EMPTY ∧
        get_piece setup_game.b 4 3 = EMPTY)) :=
  have h := pawn_candidates setup_game WHITE 4 1 2 (update_game_state_idem _) (by decide!)
    (by decide!) (by decide)
  ⟨update_game_state_idem _, by decide!, h.1, h.2.1 3 (by decide)⟩

/-- C10 (failing input). A black pawn placed on a1, Black's own farthest rank:
the generator emits four candidates from h8 to h8 that carry the white
knight, bishop, rook and queen. Their destination is not on Black's farthest
rank and they do not carry the pawn; all four reach Black's legal list. -/
theorem pawn_on_last_rank_candidates :
    update_game_state pawn_on_last_rank = pawn_on_last_rank ∧
    (∀ x y : Fin 8, get_piece pawn_on_last_rank.b x y =
      if x = 0 ∧ y = 0 then BLACK_PAWN else EMPTY) ∧
    emitted pawn_on_last_rank BLACK 0 0
      = [⟨7, 7, 7, 7, WHITE_KNIGHT⟩, ⟨7, 7, 7, 7, WHITE_BISHOP⟩, ⟨7, 7, 7, 7, WHITE_ROOK⟩,
         ⟨7, 7, 7, 7, WHITE_QUEEN⟩] ∧
    legal_moves pawn_on_last_rank BLACK
      = [⟨7, 7, 7, 7, WHITE_KNIGHT⟩, ⟨7, 7, 7, 7, WHITE_BISHOP⟩, ⟨7, 7, 7, 7, WHITE_ROOK⟩,
         ⟨7, 7, 7, 7, WHITE_QUEEN⟩] :=
  ⟨update_game_state_idem _, by decide!, by decide!, by decide!⟩

/-- C11. For a bishop, rook or queen of colour `c` on `(x, y)` in a fresh
state, the per-square generator emits exactly the moves from `(x, y)` that
carry the piece to a square `(x, y) + k * d`, `k >= 1`, of the board, where
`d` is one of the ray directions of the kind (the 4 diagonals for a bishop,
the 4 orthogonals for a rook, all 8 for a queen), every square of the ray
strictly before the destination is empty, and the destination holds no piece
of colour `c`. So along each ray the squares before the first occupied one
are emitted, the first occupied square is emitted exactly when it holds a
piece of the other colour, and nothing beyond it is. -/
theorem slider_candidates (g : game) (hf : update_game_state g = g) (c : color)
    (x y : Fin 8) (hc : get_color (get_piece g.b x y) = c)
    (hk : get_kind (get_piece g.b x y) = BISHOP ∨ get_kind (get_piece g.b x y) = ROOK ∨
      get_kind (get_piece g.b x y) = QUEEN) (m : move) :
    m ∈ emitted g c x y ↔
      ∃ d ∈ slider_dirs (get_kind (get_piece g.b x y)), ∃ k : Nat, 1 ≤ k ∧ ∃ tx ty : Fin 8,
        (tx.val : Int) = x.val + k * d.1 ∧ (ty.val : Int) = y.val + k * d.2 ∧
        (∀ j : Nat, 1 ≤ j → j < k →
          piece_at g.b ((x.val : Int) + j * d.1) ((y.val : Int) + j * d.2) = EMPTY) ∧
        ¬ (get_piece g.b tx ty ≠ EMPTY ∧ get_color (get_piece g.b tx ty) = c) ∧
        m = ⟨x, y, tx, ty, get_piece g.b x y⟩ :=
  mem_emitted_slider g hf c x y hc hk m

theorem slider_candidates_witness :
    update_game_state rook_and_enemy = rook_and_enemy ∧
    get_piece rook_and_enemy.b 0 0 = WHITE_ROOK ∧
    get_piece rook_and_enemy.b 4 0 = BLACK_KNIGHT ∧
    (⟨0, 0, 4, 0, WHITE_ROOK⟩ : move) ∈ emitted rook_and_enemy WHITE 0 0 ∧
    (emitted rook_and_enemy WHITE 0 0).filter (fun m => m.dst_y = 0)
      = [⟨0, 0, 1, 0, WHITE_ROOK⟩, ⟨0, 0, 2, 0, WHITE_ROOK⟩, ⟨0, 0, 3, 0, WHITE_ROOK⟩,
         ⟨0, 0, 4, 0, WHITE_ROOK⟩] ∧
    get_piece rook_and_ally.b 4 0 = WHITE_KNIGHT ∧
    (emitted rook_and_ally WHITE 0 0).filter (fun m => m.dst_y = 0)
      = [⟨0, 0, 1, 0, WHITE_ROOK⟩, ⟨0, 0, 2, 0, WHITE_ROOK⟩, ⟨0, 0, 3, 0, WHITE_ROOK⟩] :=
  ⟨update_game_state_idem _, by decide!, by decide!,
   (slider_candidates rook_and_enemy (update_game_state_idem _) WHITE 0 0 (by decide!)
      (by decide!) ⟨0, 0, 4, 0, WHITE_ROOK⟩).mpr
     ⟨(1, 0), by decide!, 4, by decide, 4, 0, by decide, by decide,
      by intro j h1 h2; interval_cases j <;> decide!, by decide!, by decide!⟩,
   by decide!, by decide!, by decide!⟩

/-- C12. In a fresh state, for a knight of colour `c` on `(x, y)` the
per-square generator emits exactly the moves from `(x, y)` that carry the
knight to a square of the board at one of the eight knight offsets holding no
piece of colour `c`; for a king of colour `c`, the moves it emits other than
those to file `x - 2` or `x + 2` are exactly the moves from `(x, y)` that
carry the king to one of the eight adjacent squares of the board holding no
piece of colour `c`. The destination may be empty or hold a piece of the
other colour alike. -/
theorem knight_and_king_candidates (g : game) (hf : update_game_state g = g) (c : color)
    (x y : Fin 8) (hc : get_color (get_piece g.b x y) = c) (m : move) :
    (get_kind (get_piece g.b x y) = KNIGHT →
      (m ∈ emitted g c x y ↔
        ∃ tx ty : Fin 8, ((tx.val : Int) - x.val, (ty.val : Int) - y.val) ∈ knight_offsets ∧
          ¬ (get_piece g.b tx ty ≠ EMPTY ∧ get_color (get_piece g.b tx ty) = c) ∧
          m = ⟨x, y, tx, ty, get_piece g.b x y⟩)) ∧
    (get_kind (get_piece g.b x y) = KING →
      ((m ∈ emitted g c x y ∧
          ¬ ((m.dst_x.val : Int) = x.val - 2 ∨ (m.dst_x.val : Int) = x.val + 2)) ↔
        ∃ tx ty : Fin 8, ((tx.val : Int) - x.val, (ty.val : Int) - y.val) ∈ king_offsets ∧
          ¬ (get_piece g.b tx ty ≠ EMPTY ∧ get_color (get_piece g.b tx ty) = c) ∧
          m = ⟨x, y, tx, ty, get_piece g.b x y⟩)) :=
  ⟨fun hk => mem_emitted_knight g hf c x y hc hk m,
   fun hk => mem_emitted_king g hf c x y hc hk m⟩

theorem knight_and_king_candidates_witness :
    update_game_state open_game = open_game ∧
    get_piece open_game.b 5 2 = WHITE_KNIGHT ∧
    get_piece open_game.b 4 4 = BLACK_PAWN ∧
    (⟨5, 2, 4, 4, WHITE_KNIGHT⟩ : move) ∈ emitted open_game WHITE 5 2 :=
  ⟨update_game_state_idem _, by decide!, by decide!,
   ((knight_and_king_candidates open_game (update_game_state_idem _) WHITE 5 2 (by decide!)
      ⟨5, 2, 4, 4, WHITE_KNIGHT⟩).1 (by decide!)).mpr
     ⟨4, 4, by decide, by decide!, by decide!⟩⟩

/-- C13. For every board `b`, occupancy mask `ps` and colour `c`, a square
`(tx, ty)` is in `find_targeted(b, ps, c)` if and only if some square
`(sx, sy)` holds a piece of colour `c` that attacks it: a pawn one rank
forward (rank + 1 for white, rank - 1 for black) and one file aside, a knight
at a knight offset, a king on an adjacent square, a bishop, rook or queen
along one of the rays of its kind with no square strictly between set in
`ps`. The condition mentions neither the order of the visit nor, for pawns,
knights and kings, the mask `ps`. -/
theorem find_targeted_attacks (b : board) (ps : pieces_set) (c : color) (tx ty : Fin 8) :
    is_targeted (find_targeted b ps c) tx.val ty.val = true ↔
      ∃ sx sy : Fin 8, get_color (get_piece b sx sy) = c ∧
        attacks ps (get_piece b sx sy) sx.val sy.val tx.val ty.val :=
  find_targeted_iff b ps c tx ty

/-- C14. On every board a white king that shares its file with a black rook,
every square between them empty, has `white_in_check` set by
`update_game_state`, and a black king facing a white rook in the same way has
`black_in_check` set; in every state produced by `update_game_state` the
in-check flag of a colour is true exactly when the king mask of that colour
and the attacked-squares mask of the other colour have a bit in common. -/
theorem rook_on_file_gives_check (g : game) (x ky ry : Fin 8)
    (he : ∀ y : Fin 8, (ky < y ∧ y < ry) ∨ (ry < y ∧ y < ky) → get_piece g.b x y = EMPTY) :
    (get_piece g.b x ky = WHITE_KING → get_piece g.b x ry = BLACK_ROOK →
      (update_game_state g).white_in_check = true) ∧
    (get_piece g.b x ky = BLACK_KING → get_piece g.b x ry = WHITE_ROOK →
      (update_game_state g).black_in_check = true) ∧
    ((update_game_state g).white_in_check = true ↔
      ∃ i, (update_game_state g).white_king.testBit i = true ∧
        (update_game_state g).black_targets.testBit i = true) ∧
    ((update_game_state g).black_in_check = true ↔
      ∃ i, (update_game_state g).black_king.testBit i = true ∧
        (update_game_state g).white_targets.testBit i = true) :=
  ⟨(rook_check_flag g x ky ry he).1, (rook_check_flag g x ky ry he).2,
    and_ne_zero_iff _ _, and_ne_zero_iff _ _⟩

theorem rook_on_file_gives_check_witness :
    get_piece rook_check.b 4 0 = WHITE_KING ∧ get_piece rook_check.b 4 7 = BLACK_ROOK ∧
    (∀ y : Fin 8, ((0 : Fin 8) < y ∧ y < 7) ∨ ((7 : Fin 8) < y ∧ y < 0) →
      get_piece rook_check.b 4 y = EMPTY) ∧
    (update_game_state rook_check).white_in_check = true :=
  ⟨by decide!, by decide!, by decide!,
   (rook_on_file_gives_check rook_check 4 0 7 (by decide!)).1 (by decide!) (by decide!)⟩

/-- C15. For every board holding only the empty value and the twelve piece
values, after `update_game_state` bit `rank * 8 + file` of `white_pieces`
(of `black_pieces`) is set exactly when the square holds a white (a black)
piece; the two masks share no bit; `pieces` is their union and is set exactly
on the non-empty squares; `white_king` (`black_king`) is set exactly on the
squares holding the white (the black) king. An empty square, whose colour
bits read as white, is in none of the masks. -/
theorem update_game_state_masks (g : game) (hv : valid_board g.b) (x y : Fin 8) :
    ((update_game_state g).white_pieces.testBit (y.val * 8 + x.val) = true ↔
      get_piece g.b x y ∈ white_values) ∧
    ((update_game_state g).black_pieces.testBit (y.val * 8 + x.val) = true ↔
      get_piece g.b x y ∈ black_values) ∧
    (update_game_state g).white_pieces &&& (update_game_state g).black_pieces = 0 ∧
    (update_game_state g).pieces
      = (update_game_state g).white_pieces ||| (update_game_state g).black_pieces ∧
    ((update_game_state g).pieces.testBit (y.val * 8 + x.val) = true ↔
      get_piece g.b x y ≠ EMPTY) ∧
    ((update_game_state g).white_king.testBit (y.val * 8 + x.val) = true ↔
      get_piece g.b x y = WHITE_KING) ∧
    ((update_game_state g).black_king.testBit (y.val * 8 + x.val) = true ↔
      get_piece g.b x y = BLACK_KING) ∧
    (get_piece g.b x y = EMPTY →
      get_color (get_piece g.b x y) = WHITE ∧
      (update_game_state g).white_pieces.testBit (y.val * 8 + x.val) = false ∧
      (update_game_state g).black_pieces.testBit (y.val * 8 + x.val) = false ∧
      (update_game_state g).pieces.testBit (y.val * 8 + x.val) = false ∧
      (update_game_state g).white_king.testBit (y.val * 8 + x.val) = false ∧
      (update_game_state g).black_king.testBit (y.val * 8 + x.val) = false) :=
  masks_of_update_game_state g hv x y

theorem update_game_state_masks_witness :
    valid_board setup_game.b ∧
    get_piece setup_game.b 4 7 = BLACK_KING ∧
    (update_game_state setup_game).black_king.testBit ((7 : Fin 8).val * 8 + (4 : Fin 8).val)
      = true :=
  ⟨by unfold valid_board; decide!, by decide!,
   (update_game_state_masks setup_game (by unfold valid_board; decide!) 4 7).2.2.2.2.2.2.1.mpr
     (by decide!)⟩

/-- C16. In the state produced by `setup_game` the colour-level `add_moves`
started from an empty list returns exactly 20 moves for WHITE: the 8 one-step
pawn moves, the 8 two-step pawn moves and the 4 knight moves (listed here in
the order of generation); it returns exactly 20 moves for BLACK, which are
the rank-mirrored images of the white moves, each carrying a black piece. -/
theorem start_position_moves :
    legal_moves setup_game WHITE =
      [⟨0, 1, 0, 2, WHITE_PAWN⟩, ⟨0, 1, 0, 3, WHITE_PAWN⟩,
       ⟨1, 0, 0, 2, WHITE_KNIGHT⟩, ⟨1, 0, 2, 2, WHITE_KNIGHT⟩,
       ⟨1, 1, 1, 2, WHITE_PAWN⟩, ⟨1, 1, 1, 3, WHITE_PAWN⟩,
       ⟨2, 1, 2, 2, WHITE_PAWN⟩, ⟨2, 1, 2, 3, WHITE_PAWN⟩,
       ⟨3, 1, 3, 2, WHITE_PAWN⟩, ⟨3, 1, 3, 3, WHITE_PAWN⟩,
       ⟨4, 1, 4, 2, WHITE_PAWN⟩, ⟨4, 1, 4, 3, WHITE_PAWN⟩,
       ⟨5, 1, 5, 2, WHITE_PAWN⟩, ⟨5, 1, 5, 3, WHITE_PAWN⟩,
       ⟨6, 0, 5, 2, WHITE_KNIGHT⟩, ⟨6, 0, 7, 2, WHITE_KNIGHT⟩,
       ⟨6, 1, 6, 2, WHITE_PAWN⟩, ⟨6, 1, 6, 3, WHITE_PAWN⟩,
       ⟨7, 1, 7, 2, WHITE_PAWN⟩, ⟨7, 1, 7, 3, WHITE_PAWN⟩] ∧
    (legal_moves setup_game WHITE).length = 20 ∧
    (legal_moves setup_game WHITE).Perm
      (coords.map (fun x => (⟨x, 1, x, 2, WHITE_PAWN⟩ : move)) ++
       coords.map (fun x => (⟨x, 1, x, 3, WHITE_PAWN⟩ : move)) ++
       [⟨1, 0, 0, 2, WHITE_KNIGHT⟩, ⟨1, 0, 2, 2, WHITE_KNIGHT⟩,
        ⟨6, 0, 5, 2, WHITE_KNIGHT⟩, ⟨6, 0, 7, 2, WHITE_KNIGHT⟩]) ∧
    (legal_moves setup_game BLACK).length = 20 ∧
    (legal_moves setup_game BLACK).Perm ((legal_moves setup_game WHITE).map mirror) ∧
    (∀ m ∈ legal_moves setup_game BLACK, get_color m.p = BLACK) := by
  have hw : legal_moves setup_game WHITE =
      [⟨0, 1, 0, 2, WHITE_PAWN⟩, ⟨0, 1, 0, 3, WHITE_PAWN⟩,
       ⟨1, 0, 0, 2, WHITE_KNIGHT⟩, ⟨1, 0, 2, 2, WHITE_KNIGHT⟩,
       ⟨1, 1, 1, 2, WHITE_PAWN⟩, ⟨1, 1, 1, 3, WHITE_PAWN⟩,
       ⟨2, 1, 2, 2, WHITE_PAWN⟩, ⟨2, 1, 2, 3, WHITE_PAWN⟩,
       ⟨3, 1, 3, 2, WHITE_PAWN⟩, ⟨3, 1, 3, 3, WHITE_PAWN⟩,
       ⟨4, 1, 4, 2, WHITE_PAWN⟩, ⟨4, 1, 4, 3, WHITE_PAWN⟩,
       ⟨5, 1, 5, 2, WHITE_PAWN⟩, ⟨5, 1, 5, 3, WHITE_PAWN⟩,
       ⟨6, 0, 5, 2, WHITE_KNIGHT⟩, ⟨6, 0, 7, 2, WHITE_KNIGHT⟩,
       ⟨6, 1, 6, 2, WHITE_PAWN⟩, ⟨6, 1, 6, 3, WHITE_PAWN⟩,
       ⟨7, 1, 7, 2, WHITE_PAWN⟩, ⟨7, 1, 7, 3, WHITE_PAWN⟩] := by decide!
  have hb : legal_moves setup_game BLACK =
      [⟨0, 6, 0, 5, BLACK_PAWN⟩, ⟨0, 6, 0, 4, BLACK_PAWN⟩,
       ⟨1, 6, 1, 5, BLACK_PAWN⟩, ⟨1, 6, 1, 4, BLACK_PAWN⟩,
       ⟨1, 7, 0, 5, BLACK_KNIGHT⟩, ⟨1, 7, 2, 5, BLACK_KNIGHT⟩,
       ⟨2, 6, 2, 5, BLACK_PAWN⟩, ⟨2, 6, 2, 4, BLACK_PAWN⟩,
       ⟨3, 6, 3, 5, BLACK_PAWN⟩, ⟨3, 6, 3, 4, BLACK_PAWN⟩,
       ⟨4, 6, 4, 5, BLACK_PAWN⟩, ⟨4, 6, 4, 4, BLACK_PAWN⟩,
       ⟨5, 6, 5, 5, BLACK_PAWN⟩, ⟨5, 6, 5, 4, BLACK_PAWN⟩,
       ⟨6, 6, 6, 5, BLACK_PAWN⟩, ⟨6, 6, 6, 4, BLACK_PAWN⟩,
       ⟨6, 7, 5, 5, BLACK_KNIGHT⟩, ⟨6, 7, 7, 5, BLACK_KNIGHT⟩,
       ⟨7, 6, 7, 5, BLACK_PAWN⟩, ⟨7, 6, 7, 4, BLACK_PAWN⟩] := by decide!
  refine ⟨hw, ?_, ?_, ?_, ?_, ?_⟩
  · rw [hw]; rfl
  · rw [hw]; decide!
  · rw [hb]; rfl
  · rw [hw, hb]; decide!
  · rw [hb]; decide!

/-- C17 (fails on the code). A white pawn standing on a8, its own farthest
rank, in a fresh state: the per-square generator appends four candidates,
none of which has a8 as its source; each goes from h8 to h8, a square the
pawn's movement rule does not reach, and carries a white knight, bishop, rook
or queen. The out-of-range forward step does contribute to the list. -/
theorem white_pawn_on_last_rank_candidates :
    update_game_state white_pawn_on_last_rank = white_pawn_on_last_rank ∧
    get_piece white_pawn_on_last_rank.b 0 7 = WHITE_PAWN ∧
    move_of 0 7 0 8 WHITE_PAWN = INVALID_MOVE ∧
    emitted white_pawn_on_last_rank WHITE 0 7 =
      [⟨7, 7, 7, 7, WHITE_KNIGHT⟩, ⟨7, 7, 7, 7, WHITE_BISHOP⟩,
       ⟨7, 7, 7, 7, WHITE_ROOK⟩, ⟨7, 7, 7, 7, WHITE_QUEEN⟩] ∧
    (∀ m ∈ emitted white_pawn_on_last_rank WHITE 0 7, ¬ (m.src_x = 0 ∧ m.src_y = 7)) ∧
    legal_moves white_pawn_on_last_rank WHITE = emitted white_pawn_on_last_rank WHITE 0 7 :=
  ⟨update_game_state_idem _, by decide!, by decide!, by decide!, by decide!, by decide!⟩

/-- C18 (counterexample). In the position `queen_ring`, built by direct piece
placement, the generators produce 264 candidates for WHITE: the 8-bit counter
wraps and ends at 8, the reported list has 8 moves, and the king move e1-f1,
which is a candidate and passes the king-safety test, is not reported. -/
theorem add_moves_counter_wraps :
    (square_candidates queen_ring WHITE).length = 264 ∧
    (collect_moves push_move queen_ring WHITE move_list.empty).length = 8 ∧
    (legal_moves queen_ring WHITE).length = 8 ∧
    (⟨4, 0, 5, 0, WHITE_KING⟩ : move) ∈ square_candidates queen_ring WHITE ∧
    king_safe queen_ring WHITE ⟨4, 0, 5, 0, WHITE_KING⟩ = true ∧
    (⟨4, 0, 5, 0, WHITE_KING⟩ : move) ∉ legal_moves queen_ring WHITE :=
  ⟨by decide!, by decide!, by decide!, by decide!, by decide!, by decide!⟩

/-- C18 (amended). In every state and for every colour the counter of the
colour-level `add_moves` stays below 256, neither loop changes an entry of the
caller's array from index 256 on, and at most 255 moves are reported. When the
per-square generators produce at most 255 candidates for `c`, the counter does
not wrap: the first loop stores every candidate in order, the counter is their
number, and the reported list is exactly the candidates that pass the
king-safety test. When they produce 256 or more, the counter is their number
modulo 256, so fewer moves are stored than were generated. -/
theorem add_moves_within_capacity (g : game) (c : color) :
    (collect_moves push_move g c move_list.empty).length < 256 ∧
    (∀ (buf : Nat → move) (i : Nat), 256 ≤ i →
      (collect_moves push_move g c ⟨buf, 0⟩).moves i = buf i ∧
      (add_moves g c ⟨buf, 0⟩).moves i = buf i) ∧
    (legal_moves g c).length ≤ 255 ∧
    ((square_candidates g c).length ≤ 255 →
      (collect_moves push_move g c move_list.empty).toList = square_candidates g c ∧
      (collect_moves push_move g c move_list.empty).length = (square_candidates g c).length ∧
      legal_moves g c = (square_candidates g c).filter (king_safe g c)) ∧
    (256 ≤ (square_candidates g c).length →
      (collect_moves push_move g c move_list.empty).length
        = (square_candidates g c).length % 256 ∧
      (collect_moves push_move g c move_list.empty).length
        < (square_candidates g c).length) := by
  have h1 := length_collect_moves g c
  have h3 := length_legal_moves g c
  exact ⟨h1, fun buf i hi => add_moves_buffer g c buf i hi, by omega,
    fun h => ⟨(collect_moves_complete g c h).1, (collect_moves_complete g c h).2,
      legal_moves_eq_filter g c h⟩,
    fun h => collect_moves_wraps g c h⟩

theorem add_moves_within_capacity_witness :
    (square_candidates setup_game BLACK).length ≤ 255 ∧
    (collect_moves push_move setup_game BLACK move_list.empty).toList
      = square_candidates setup_game BLACK ∧
    256 ≤ (square_candidates queen_ring WHITE).length ∧
    (collect_moves push_move queen_ring WHITE move_list.empty).length
      < (square_candidates queen_ring WHITE).length :=
  ⟨by decide!, ((add_moves_within_capacity setup_game BLACK).2.2.2.1 (by decide!)).1,
   by decide!, ((add_moves_within_capacity queen_ring WHITE).2.2.2.2 (by decide!)).2⟩

/-- C19 (fails on the code). The coordinate `pos_of(7, 7)`, the square h8,
compares equal to the sentinel `INVALID_POS` under `operator==` (and so not
unequal under `operator!=`), although its `extra` field differs; so does the
result of `pos_from_string` on the text h8. Every other coordinate of the
board compares unequal to the sentinel, and every pair with a component
outside 0..7 yields the sentinel itself. -/
theorem h8_compares_equal_to_sentinel :
    pos_of 7 7 = ⟨7, 7, 0⟩ ∧ pos_of 7 7 ≠ INVALID_POS ∧
    pos_eq (pos_of 7 7) INVALID_POS = true ∧
    pos_ne (pos_of 7 7) INVALID_POS = false ∧
    pos_from_string 104 56 = pos_of 7 7 ∧
    pos_ne (pos_from_string 104 56) INVALID_POS = false ∧
    (∀ x y : Fin 8, pos_ne (pos_of x.val y.val) INVALID_POS = true ↔ ¬ (x = 7 ∧ y = 7)) ∧
    (∀ x y : Int, ¬ (0 ≤ x ∧ x ≤ 7 ∧ 0 ≤ y ∧ y ≤ 7) ↔ pos_of x y = INVALID_POS) := by
  refine ⟨by decide, by decide, by decide, by decide, by decide, by decide,
    pos_ne_sentinel_iff, ?_⟩
  intro x y
  constructor
  · intro h
    exact pos_of_off_board x y (by omega)
  · intro h h1
    have h2 := pos_of_fin (fin8 x) (fin8 y)
    rw [fin8_cast x h1.1 (by omega), fin8_cast y h1.2.2.1 (by omega), h] at h2
    have h3 : (3 : Fin 4) = 0 := congrArg pos.extra h2
    exact absurd h3 (by decide)

/-- C20 (fails on the code). The king move e1-e2, which stays on its file, is
a castle for `is_castle`; in general `is_castle m` is true exactly when `m`
carries a king and its file displacement is zero or at least two. -/
theorem is_castle_same_file_king_move :
    is_castle ⟨4, 0, 4, 1, WHITE_KING⟩ = true ∧
    (∀ m : move, is_castle m = true ↔
      get_kind m.p = KING ∧ (m.dst_x = m.src_x ∨ 2 ≤ |(m.dst_x.val : Int) - m.src_x.val|)) :=
  ⟨by decide, is_castle_iff_abs⟩

/-- C21. For every board, all squares and every 4-bit piece value `p`:
reading the square just written gives `p`, every other square reads as
before, and `get_kind` / `get_color` of the written square return the low
three bits and the colour bit of `p`. A row word that fits 32 bits still does
after the write, also for a black piece on file 7. -/
theorem set_piece_round_trip (b : board) (x y x' y' : Fin 8) (p : piece) :
    get_piece (set_piece b x y p) x y = p ∧
    (¬ (x' = x ∧ y' = y) → get_piece (set_piece b x y p) x' y' = get_piece b x' y') ∧
    (set_piece b x y p).get_kind x y = p.val &&& 7 ∧
    ((set_piece b x y p).get_color x y = BLACK ↔ p.val &&& 8 = 8) ∧
    ((set_piece b x y p).get_color x y = WHITE ↔ p.val &&& 8 = 0) ∧
    (b.rows y' < 4294967296 → (set_piece b x y p).rows y' < 4294967296) ∧
    get_piece (set_piece b 7 y BLACK_KING) 7 y = BLACK_KING := by
  have h1 := get_piece_set_piece b x y x y p
  rw [if_pos ⟨rfl, rfl⟩] at h1
  have h2 := get_piece_set_piece b 7 y 7 y BLACK_KING
  rw [if_pos ⟨rfl, rfl⟩] at h2
  have key : ∀ q : piece, (get_color q = BLACK ↔ q.val &&& 8 = 8) ∧
      (get_color q = WHITE ↔ q.val &&& 8 = 0) := by decide
  refine ⟨h1, ?_, ?_, ?_, ?_, set_piece_row_lt b x y y' p, h2⟩
  · intro hne
    rw [get_piece_set_piece, if_neg hne]
  · rw [board_get_kind_eq, h1]
    rfl
  · rw [board_get_color_eq, h1]
    exact (key p).1
  · rw [board_get_color_eq, h1]
    exact (key p).2

/-- C22. The function `update_game_state` is idempotent, state for state, and
changes neither the board nor any of the four castling rights. -/
theorem update_game_state_idempotent (g : game) :
    update_game_state (update_game_state g) = update_game_state g ∧
    (update_game_state g).b = g.b ∧
    (update_game_state g).white_left_castle = g.white_left_castle ∧
    (update_game_state g).white_right_castle = g.white_right_castle ∧
    (update_game_state g).black_left_castle = g.black_left_castle ∧
    (update_game_state g).black_right_castle = g.black_right_castle :=
  ⟨rfl, rfl, rfl, rfl, rfl, rfl⟩

/-- C23. For every 64-bit set `v` and all coordinates `(x, y)`: with a
coordinate outside 0..7, `is_piece` and `is_targeted` are false and
`set_piece`, `remove_piece`, `set_targeted` return `v`; with both inside,
the test at `(x, y)` is true after `set_piece` / `set_targeted` and false
after `remove_piece`, bit `y * 8 + x` is the one that is set or cleared and
every other bit is as in `v`. -/
theorem set_operations (v : Nat) (hv : v < 18446744073709551616) (x y : Int) :
    ((x < 0 ∨ x ≥ 8 ∨ y < 0 ∨ y ≥ 8) →
      is_piece v x y = false ∧ is_targeted v x y = false ∧ pieces_set.set_piece v x y = v ∧
      remove_piece v x y = v ∧ set_targeted v x y = v) ∧
    (0 ≤ x ∧ x < 8 ∧ 0 ≤ y ∧ y < 8 →
      is_piece (pieces_set.set_piece v x y) x y = true ∧
      is_targeted (set_targeted v x y) x y = true ∧
      is_piece (remove_piece v x y) x y = false ∧
      (∀ i : Nat, i ≠ (y * 8 + x).toNat →
        (pieces_set.set_piece v x y).testBit i = v.testBit i ∧
        (set_targeted v x y).testBit i = v.testBit i ∧
        (remove_piece v x y).testBit i = v.testBit i) ∧
      (pieces_set.set_piece v x y).testBit (y * 8 + x).toNat = true ∧
      (set_targeted v x y).testBit (y * 8 + x).toNat = true ∧
      (remove_piece v x y).testBit (y * 8 + x).toNat = false) :=
  bit_set_operations v hv x y

theorem set_operations_witness :
    (4096 : Nat) < 18446744073709551616 ∧
    is_piece (remove_piece 4096 4 1) 4 1 = false ∧
    is_piece (pieces_set.set_piece 4096 (-1) 1) (-1) 1 = false :=
  ⟨by decide, ((set_operations 4096 (by decide) 4 1).2 (by decide)).2.2.1,
   by decide⟩

/-- C24. Whatever state it is handed, `setup_game` yields the standard
starting position (the back ranks in the file order rook, knight, bishop,
queen, king, bishop, knight, rook, the pawns on ranks 1 and 6, ranks 2 to 5
empty) with all four castling rights true, derived fields that are those of
the board, and neither colour in check; and `empty_game` yields the empty
board with all masks zero, both flags false and all four rights false. -/
theorem setup_and_empty_game :
    (∀ g : game, setup_game_on g = setup_game) ∧
    (∀ x y : Fin 8, get_piece setup_game.b x y = standard_piece x y) ∧
    (∀ x : Fin 8, get_piece setup_game.b x 0 = make_piece WHITE (back_rank x) ∧
      get_piece setup_game.b x 1 = WHITE_PAWN ∧ get_piece setup_game.b x 2 = EMPTY ∧
      get_piece setup_game.b x 3 = EMPTY ∧ get_piece setup_game.b x 4 = EMPTY ∧
      get_piece setup_game.b x 5 = EMPTY ∧ get_piece setup_game.b x 6 = BLACK_PAWN ∧
      get_piece setup_game.b x 7 = make_piece BLACK (back_rank x)) ∧
    (setup_game.white_left_castle = true ∧ setup_game.white_right_castle = true ∧
      setup_game.black_left_castle = true ∧ setup_game.black_right_castle = true) ∧
    update_game_state setup_game = setup_game ∧
    (setup_game.white_in_check = false ∧ setup_game.black_in_check = false) ∧
    (∀ g : game, empty_game_on g = empty_game) ∧
    (∀ x y : Fin 8, get_piece empty_game.b x y = EMPTY) ∧
    (empty_game.pieces = 0 ∧ empty_game.white_pieces = 0 ∧ empty_game.black_pieces = 0 ∧
      empty_game.white_king = 0 ∧ empty_game.black_king = 0 ∧
      empty_game.white_targets = 0 ∧ empty_game.black_targets = 0) ∧
    (empty_game.white_in_check = false ∧ empty_game.black_in_check = false) ∧
    (empty_game.white_left_castle = false ∧ empty_game.white_right_castle = false ∧
      empty_game.black_left_castle = false ∧ empty_game.black_right_castle = false) :=
  ⟨setup_game_on_eq, by decide!, by decide!, ⟨rfl, rfl, rfl, rfl⟩, update_game_state_idem _,
   ⟨by decide!, by decide!⟩, empty_game_on_eq, by decide!, ⟨rfl, rfl, rfl, rfl, rfl, rfl, rfl⟩,
   ⟨rfl, rfl⟩, ⟨rfl, rfl, rfl, rfl⟩⟩

/-- C25 (fails on the code). White king a1 and pawn h3 against black king e8
and pawn g5, White to choose among its four legal moves: after Kb1, Ka2, Kb2
Black has 6 legal moves, after h4 it has 7, yet `min_opponent_moves` returns
h4 whatever the draw. The count it minimises is that of the mover's own
colour `c` (here 6, 6, 9, 5), as the general statement says: on a list of 1
to 255 moves it returns a move of the list with the least number of moves
reported for `c` itself, and each such move is returned for some draw. -/
theorem min_opponent_moves_counts_own_moves :
    update_game_state pawn_duel = pawn_duel ∧
    (add_moves pawn_duel WHITE move_list.empty).toList
      = [⟨0, 0, 1, 0, WHITE_KING⟩, ⟨0, 0, 0, 1, WHITE_KING⟩, ⟨0, 0, 1, 1, WHITE_KING⟩,
         ⟨7, 2, 7, 3, WHITE_PAWN⟩] ∧
    (legal_moves pawn_duel WHITE).map (fun m => reply_count pawn_duel m (opponent WHITE))
      = [6, 6, 6, 7] ∧
    (legal_moves pawn_duel WHITE).map (fun m => reply_count pawn_duel m WHITE) = [6, 6, 9, 5] ∧
    (∀ r : Nat,
      min_opponent_moves pawn_duel WHITE (add_moves pawn_duel WHITE move_list.empty).moves
        (add_moves pawn_duel WHITE move_list.empty).length r = some ⟨7, 2, 7, 3, WHITE_PAWN⟩) ∧
    (∀ (g : game) (c : color) (moves : Nat → move) (length : Nat), 0 < length → length ≤ 255 →
      (∀ r : Nat, ∃ m, min_opponent_moves g c moves length r = some m ∧
        m ∈ (List.range length).map moves ∧
        ∀ m1 ∈ (List.range length).map moves, reply_count g m c ≤ reply_count g m1 c) ∧
      (∀ m ∈ (List.range length).map moves,
        (∀ m1 ∈ (List.range length).map moves, reply_count g m c ≤ reply_count g m1 c) →
        ∃ r : Nat, min_opponent_moves g c moves length r = some m)) := by
  refine ⟨update_game_state_idem _, by decide!, by decide!, by decide!, ?_,
    min_opponent_moves_own⟩
  intro r
  have h : ((min_opponent_options pawn_duel WHITE
        (add_moves pawn_duel WHITE move_list.empty).moves
        (add_moves pawn_duel WHITE move_list.empty).length).1.length,
      (min_opponent_options pawn_duel WHITE
        (add_moves pawn_duel WHITE move_list.empty).moves
        (add_moves pawn_duel WHITE move_list.empty).length).1.moves 0)
        = (1, (⟨7, 2, 7, 3, WHITE_PAWN⟩ : move)) := by decide!
  have h1 := congrArg Prod.fst h
  have h2 := congrArg Prod.snd h
  dsimp only at h1 h2
  unfold min_opponent_moves
  simp only []
  rw [h1, if_neg (by decide), Nat.mod_one, h2]

/-- C26 (counterexample). White king c1 and white rook a1 with White's
queenside right set, in a fresh state: the generator emits the two-file king
move c1-a1, which is in White's legal list. Applying it, the relocation that
`move_piece` makes from the corner carries the king itself and is a castle:
two levels of nesting do not suffice, three do, and afterwards the board
holds the king on d1 and nothing else. -/
theorem castle_relocation_can_be_a_castle :
    update_game_state king_beside_corner = king_beside_corner ∧
    (∀ x y : Fin 8, get_piece king_beside_corner.b x y =
      if y = 0 ∧ x = 2 then WHITE_KING else if y = 0 ∧ x = 0 then WHITE_ROOK else EMPTY) ∧
    (⟨2, 0, 0, 0, WHITE_KING⟩ : move) ∈ emitted king_beside_corner WHITE 2 0 ∧
    (⟨2, 0, 0, 0, WHITE_KING⟩ : move) ∈ legal_moves king_beside_corner WHITE ∧
    is_castle ⟨0, 0, 3, 0,
      get_piece (move_piece_local king_beside_corner ⟨2, 0, 0, 0, WHITE_KING⟩).b 0 0⟩ = true ∧
    (move_piece_fuel 2 king_beside_corner ⟨2, 0, 0, 0, WHITE_KING⟩).isSome = false ∧
    (move_piece_fuel 3 king_beside_corner ⟨2, 0, 0, 0, WHITE_KING⟩).isSome = true ∧
    (∀ x y : Fin 8, get_piece (move_piece king_beside_corner ⟨2, 0, 0, 0, WHITE_KING⟩).b x y =
      if y = 0 ∧ x = 3 then WHITE_KING else EMPTY) ∧
    (⟨4, 0, 2, 0, WHITE_KING⟩ : move) ∈ emitted king_in_corner WHITE 4 0 ∧
    get_piece king_in_corner.b 0 0 = BLACK_KING ∧
    (move_piece_fuel 2 king_in_corner ⟨4, 0, 2, 0, WHITE_KING⟩).isSome = false :=
  ⟨update_game_state_idem _, by decide!, by decide!, by decide!, by decide!, by decide!,
   by decide!, by decide!, by decide!, by decide!, by decide!⟩

/-- C26 (amended). For a two-file king move that the generator emits for a
king on `(x, y)` in a fresh state: if the corner of the king's rank on the
side of the move (file 0 for the move to `x - 2`, file 7 for the move to
`x + 2`) holds no king and is not the king's destination, then the
relocation that `move_piece` applies is not a castle, `move_piece` nests one
level deep and no deeper, and the resulting state is the board with the king
moved and the piece of the corner moved to file 3 (resp. 5), derived fields
recomputed. -/
theorem castle_nests_once (g : game) (hf : update_game_state g = g) (c : color)
    (x y : Fin 8) (hk : get_kind (get_piece g.b x y) = KING) (m : move)
    (hm : m ∈ emitted g c x y) (corner : Fin 8)
    (hside : ((m.dst_x.val : Int) = x.val - 2 ∧ corner = 0) ∨
      ((m.dst_x.val : Int) = x.val + 2 ∧ corner = 7))
    (hcorner : get_kind (get_piece g.b corner y) ≠ KING) (hdst : m.dst_x ≠ corner) :
    is_castle m = true ∧
    is_castle ⟨corner, y, (if corner = 0 then 3 else 5), y, get_piece g.b corner y⟩ = false ∧
    move_piece_fuel 2 g m = some (move_piece g m) ∧
    move_piece g m = update_game_state (update_game_state (move_piece_local
      (move_piece_local g m)
      ⟨corner, y, (if corner = 0 then 3 else 5), y, get_piece g.b corner y⟩)) := by
  have hs := (castle_candidates_iff g c x y hf hk).2.2 m hm
    (by rcases hside with h | h
        · exact Or.inl h.1
        · exact Or.inr h.1)
  have e1 : m.src_x = x := by rw [hs]
  have e2 : m.dst_y = y := by rw [hs]
  have e3 : m.p = get_piece g.b x y := by rw [hs]
  have := castle_one_level g m corner (by rw [e3]; exact hk) (by rw [e1]; exact hside)
    (by rw [e2]; exact hcorner) hdst
  rw [e2] at this
  exact ⟨this.1, this.2.2.1, this.2.2.2.1, this.2.2.2.2⟩

theorem castle_nests_once_witness :
    update_game_state guarded_castle = guarded_castle ∧
    get_piece guarded_castle.b 4 0 = WHITE_KING ∧
    get_piece guarded_castle.b 0 0 = WHITE_ROOK ∧
    (⟨4, 0, 2, 0, WHITE_KING⟩ : move) ∈ emitted guarded_castle WHITE 4 0 ∧
    move_piece_fuel 2 guarded_castle ⟨4, 0, 2, 0, WHITE_KING⟩
      = some (move_piece guarded_castle ⟨4, 0, 2, 0, WHITE_KING⟩) :=
  ⟨update_game_state_idem _, by decide!, by decide!, by decide!,
   (castle_nests_once guarded_castle (update_game_state_idem _) WHITE 4 0 (by decide!)
      ⟨4, 0, 2, 0, WHITE_KING⟩ (by decide!) 0 (Or.inl ⟨by decide, rfl⟩) (by decide!)
      (by decide)).2.2.1⟩

/-- C27. The function `move_piece` returns on every state and every move
value: four levels of nesting are enough whatever the input, more levels give
the same state, and any bound under which the call returns gives that state.
Four is attained: with kings on a1 and h1, the move e1-c1 does not return
within three levels. -/
theorem move_piece_terminates (g : game) (m : move) :
    (∀ n : Nat, move_piece_fuel (n + 4) g m = some (move_piece g m)) ∧
    (∀ n : Nat, ∀ r : game, move_piece_fuel n g m = some r → r = move_piece g m) ∧
    (move_piece_fuel 3 two_corner_kings ⟨4, 0, 2, 0, WHITE_KING⟩).isSome = false := by
  refine ⟨fun n => move_piece_fuel_eq n g m, ?_, by decide!⟩
  intro n r h
  have key : ∀ k : Nat, move_piece_fuel (n + k) g m = some r := by
    intro k
    induction k with
    | zero => exact h
    | succ k ih => exact move_piece_fuel_mono _ g m r ih
  have h4 := key 4
  rw [move_piece_fuel_eq n g m] at h4
  exact (Option.some.inj h4).symm

/-- C28 (fails on the code). White king e1, rooks a1 and h1, a white pawn on
a7, both white rights set: the promotion candidate a7-a8 carrying a rook is
emitted and legal, and `move_piece` clears White's queenside right although
neither the king nor the rook a1 moved. In general a pawn candidate leaves
Black's rights as they were and clears a right of White exactly when it
carries a white rook and starts on file 0 (queenside) or file 7 (kingside). -/
theorem rook_promotion_clears_right :
    update_game_state rook_promotion = rook_promotion ∧
    get_piece rook_promotion.b 0 6 = WHITE_PAWN ∧
    rook_promotion.white_left_castle = true ∧
    (⟨0, 6, 0, 7, WHITE_ROOK⟩ : move) ∈ emitted rook_promotion WHITE 0 6 ∧
    (⟨0, 6, 0, 7, WHITE_ROOK⟩ : move) ∈ legal_moves rook_promotion WHITE ∧
    (move_piece rook_promotion ⟨0, 6, 0, 7, WHITE_ROOK⟩).white_left_castle = false ∧
    get_piece (move_piece rook_promotion ⟨0, 6, 0, 7, WHITE_ROOK⟩).b 0 0 = WHITE_ROOK ∧
    get_piece (move_piece rook_promotion ⟨0, 6, 0, 7, WHITE_ROOK⟩).b 4 0 = WHITE_KING ∧
    (∀ (g : game) (c : color) (x y fy : Fin 8) (m : move), update_game_state g = g →
      get_kind (get_piece g.b x y) = PAWN → (fy.val : Int) = y.val + forward c →
      m ∈ emitted g c x y →
      (move_piece g m).black_left_castle = g.black_left_castle ∧
      (move_piece g m).black_right_castle = g.black_right_castle ∧
      (move_piece g m).white_left_castle
        = (if m.p = WHITE_ROOK ∧ x = 0 then false else g.white_left_castle) ∧
      (move_piece g m).white_right_castle
        = (if m.p = WHITE_ROOK ∧ x = 7 then false else g.white_right_castle)) :=
  ⟨update_game_state_idem _, by decide!, by decide!, by decide!, by decide!, by decide!,
   by decide!, by decide!,
   fun g c x y fy m hf hk hfy hm => pawn_candidate_rights g hf c x y fy hk hfy m hm⟩

/-- C29 (fails on the code). Two games played from the starting position with
moves of the legal lists. After 1. e4 e5 2. Nf3 Ke7 both castling rights of
Black are still true while the black king stands on e7 and e8 is empty.
After 1. b4 g6 2. b5 Bg7 3. b6 Bxa1 White's queenside right is still true
while a1 holds a black bishop. -/
theorem castling_right_outlives_its_pieces :
    (play setup_game WHITE [⟨4, 1, 4, 3, WHITE_PAWN⟩, ⟨4, 6, 4, 4, BLACK_PAWN⟩,
        ⟨6, 0, 5, 2, WHITE_KNIGHT⟩, ⟨4, 7, 4, 6, BLACK_KING⟩]).map
      (fun g => (g.black_left_castle, g.black_right_castle, get_piece g.b 4 7,
        get_piece g.b 4 6))
      = some (true, true, EMPTY, BLACK_KING) ∧
    (play setup_game WHITE [⟨1, 1, 1, 3, WHITE_PAWN⟩, ⟨6, 6, 6, 5, BLACK_PAWN⟩,
        ⟨1, 3, 1, 4, WHITE_PAWN⟩, ⟨5, 7, 6, 6, BLACK_BISHOP⟩, ⟨1, 4, 1, 5, WHITE_PAWN⟩,
        ⟨6, 6, 0, 0, BLACK_BISHOP⟩]).map
      (fun g => (g.white_left_castle, get_piece g.b 0 0, get_piece g.b 4 0))
      = some (true, BLACK_BISHOP, WHITE_KING) := by
  have ob : opponent BLACK = WHITE := rfl
  have ow : opponent WHITE = BLACK := rfl
  constructor
  · have h1 : (⟨4, 1, 4, 3, WHITE_PAWN⟩ : move) ∈ legal_moves setup_game WHITE :=
      legal_of_emitted _ _ 4 1 _ (Or.inl rfl) (by decide!) (by decide!) (by decide!)
        (by decide!)
    have h2 : (⟨4, 6, 4, 4, BLACK_PAWN⟩ : move) ∈
        legal_moves (move_piece setup_game ⟨4, 1, 4, 3, WHITE_PAWN⟩) BLACK :=
      legal_of_emitted _ _ 4 6 _ (Or.inr rfl) (by decide!) (by decide!) (by decide!)
        (by decide!)
    have h3 : (⟨6, 0, 5, 2, WHITE_KNIGHT⟩ : move) ∈
        legal_moves (move_piece (move_piece setup_game ⟨4, 1, 4, 3, WHITE_PAWN⟩)
          ⟨4, 6, 4, 4, BLACK_PAWN⟩) WHITE :=
      legal_of_emitted _ _ 6 0 _ (Or.inl rfl) (by decide!) (by decide!) (by decide!)
        (by decide!)
    have h4 : (⟨4, 7, 4, 6, BLACK_KING⟩ : move) ∈
        legal_moves (move_piece (move_piece (move_piece setup_game ⟨4, 1, 4, 3, WHITE_PAWN⟩)
          ⟨4, 6, 4, 4, BLACK_PAWN⟩) ⟨6, 0, 5, 2, WHITE_KNIGHT⟩) BLACK :=
      legal_of_emitted _ _ 4 7 _ (Or.inr rfl) (by decide!) (by decide!) (by decide!)
        (by decide!)
    rw [play_cons _ _ _ _ h1, ow, play_cons _ _ _ _ h2, ob, play_cons _ _ _ _ h3, ow,
      play_cons _ _ _ _ h4, play, Option.map_some']
    decide!
  · have h1 : (⟨1, 1, 1, 3, WHITE_PAWN⟩ : move) ∈ legal_moves setup_game WHITE :=
      legal_of_emitted _ _ 1 1 _ (Or.inl rfl) (by decide!) (by decide!) (by decide!)
        (by decide!)
    have h2 : (⟨6, 6, 6, 5, BLACK_PAWN⟩ : move) ∈
        legal_moves (move_piece setup_game ⟨1, 1, 1, 3, WHITE_PAWN⟩) BLACK :=
      legal_of_emitted _ _ 6 6 _ (Or.inr rfl) (by decide!) (by decide!) (by decide!)
        (by decide!)
    have h3 : (⟨1, 3, 1, 4, WHITE_PAWN⟩ : move) ∈
        legal_moves (move_piece (move_piece setup_game ⟨1, 1, 1, 3, WHITE_PAWN⟩)
          ⟨6, 6, 6, 5, BLACK_PAWN⟩) WHITE :=
      legal_of_emitted _ _ 1 3 _ (Or.inl rfl) (by decide!) (by decide!) (by decide!)
        (by decide!)
    have h4 : (⟨5, 7, 6, 6, BLACK_BISHOP⟩ : move) ∈
        legal_moves (move_piece (move_piece (move_piece setup_game ⟨1, 1, 1, 3, WHITE_PAWN⟩)
          ⟨6, 6, 6, 5, BLACK_PAWN⟩) ⟨1, 3, 1, 4, WHITE_PAWN⟩) BLACK :=
      legal_of_emitted _ _ 5 7 _ (Or.inr rfl) (by decide!) (by decide!) (by decide!)
        (by decide!)
    have h5 : (⟨1, 4, 1, 5, WHITE_PAWN⟩ : move) ∈
        legal_moves (move_piece (move_piece (move_piece (move_piece setup_game
          ⟨1, 1, 1, 3, WHITE_PAWN⟩) ⟨6, 6, 6, 5, BLACK_PAWN⟩) ⟨1, 3, 1, 4, WHITE_PAWN⟩)
          ⟨5, 7, 6, 6, BLACK_BISHOP⟩) WHITE :=
      legal_of_emitted _ _ 1 4 _ (Or.inl rfl) (by decide!) (by decide!) (by decide!)
        (by decide!)
    have h6 : (⟨6, 6, 0, 0, BLACK_BISHOP⟩ : move) ∈
        legal_moves (move_piece (move_piece (move_piece (move_piece (move_piece setup_game
          ⟨1, 1, 1, 3, WHITE_PAWN⟩) ⟨6, 6, 6, 5, BLACK_PAWN⟩) ⟨1, 3, 1, 4, WHITE_PAWN⟩)
          ⟨5, 7, 6, 6, BLACK_BISHOP⟩) ⟨1, 4, 1, 5, WHITE_PAWN⟩) BLACK :=
      legal_of_emitted _ _ 6 6 _ (Or.inr rfl) (by decide!) (by decide!) (by decide!)
        (by decide!)
    rw [play_cons _ _ _ _ h1, ow, play_cons _ _ _ _ h2, ob, play_cons _ _ _ _ h3, ow,
      play_cons _ _ _ _ h4, ob, play_cons _ _ _ _ h5, ow, play_cons _ _ _ _ h6, play,
      Option.map_some']
    decide!

/-- C30 (fails on the code). A white pawn on a8 and a white rook on h8: the
four candidates emitted for the pawn end on h8, which holds the white rook.
White king c1 and rook a1 with the queenside right set: the candidate c1-a1
ends on the white rook. Apart from these two families (a pawn on the farthest
rank of its colour, a two-file king move onto a corner) no candidate ends on
a square holding a piece of the mover's colour. -/
theorem candidate_onto_own_piece :
    update_game_state own_piece_on_h8 = own_piece_on_h8 ∧
    get_piece own_piece_on_h8.b 0 7 = WHITE_PAWN ∧
    get_piece own_piece_on_h8.b 7 7 = WHITE_ROOK ∧
    emitted own_piece_on_h8 WHITE 0 7 =
      [⟨7, 7, 7, 7, WHITE_KNIGHT⟩, ⟨7, 7, 7, 7, WHITE_BISHOP⟩,
       ⟨7, 7, 7, 7, WHITE_ROOK⟩, ⟨7, 7, 7, 7, WHITE_QUEEN⟩] ∧
    (∀ m ∈ emitted own_piece_on_h8 WHITE 0 7,
      get_piece own_piece_on_h8.b m.dst_x m.dst_y ≠ EMPTY ∧
      get_color (get_piece own_piece_on_h8.b m.dst_x m.dst_y) = WHITE ∧
      m ∈ legal_moves own_piece_on_h8 WHITE) ∧
    update_game_state king_beside_corner = king_beside_corner ∧
    (⟨2, 0, 0, 0, WHITE_KING⟩ : move) ∈ emitted king_beside_corner WHITE 2 0 ∧
    get_piece king_beside_corner.b 0 0 = WHITE_ROOK ∧
    (∀ (g : game) (c : color) (x y : Fin 8) (m : move), update_game_state g = g →
      get_color (get_piece g.b x y) = c →
      (get_kind (get_piece g.b x y) = PAWN →
        0 ≤ (y.val : Int) + forward c ∧ (y.val : Int) + forward c < 8) →
      m ∈ emitted g c x y →
      (get_kind (get_piece g.b x y) = KING →
        ((m.dst_x.val : Int) = x.val - 2 → m.dst_x ≠ 0) ∧
        ((m.dst_x.val : Int) = x.val + 2 → m.dst_x ≠ 7)) →
      ¬ (get_piece g.b m.dst_x m.dst_y ≠ EMPTY ∧
          get_color (get_piece g.b m.dst_x m.dst_y) = c)) :=
  ⟨update_game_state_idem _, by decide!, by decide!, by decide!, by decide!,
   update_game_state_idem _, by decide!, by decide!,
   fun g c x y m hf hc hr hm hcorner => emitted_not_allied g hf c x y hc hr m hm hcorner⟩

/-- C31. In a fresh state, for a knight, bishop, rook, queen or king of colour
`c` on `(x, y)` and every square `(tx, ty)` of the board: the per-square
generator emits a candidate with destination `(tx, ty)` (for a king: a
candidate other than the castling ones, which go to file `x - 2` or `x + 2`)
if and only if `threaten`, run for that single piece on an empty target set
with the combined occupancy `g.pieces`, marks `(tx, ty)` and the square holds
no piece of colour `c`. The ray walks of the generator and of the attack
computation agree square for square. -/
theorem generator_agrees_with_threaten (g : game) (hf : update_game_state g = g) (c : color)
    (x y : Fin 8) (hc : get_color (get_piece g.b x y) = c)
    (hk : get_kind (get_piece g.b x y) = KNIGHT ∨ get_kind (get_piece g.b x y) = BISHOP ∨
      get_kind (get_piece g.b x y) = ROOK ∨ get_kind (get_piece g.b x y) = QUEEN ∨
      get_kind (get_piece g.b x y) = KING) (tx ty : Fin 8) :
    (∃ m ∈ emitted g c x y, m.dst_x = tx ∧ m.dst_y = ty ∧
        (get_kind (get_piece g.b x y) = KING →
          ¬ ((m.dst_x.val : Int) = x.val - 2 ∨ (m.dst_x.val : Int) = x.val + 2))) ↔
      (is_targeted (threaten g.pieces 0 (get_piece g.b x y) x.val y.val) tx.val ty.val = true ∧
        ¬ (get_piece g.b tx ty ≠ EMPTY ∧ get_color (get_piece g.b tx ty) = c)) :=
  emitted_dst_iff_threaten g hf c x y hc hk tx ty

theorem generator_agrees_with_threaten_witness :
    update_game_state rook_and_enemy = rook_and_enemy ∧
    get_piece rook_and_enemy.b 0 0 = WHITE_ROOK ∧
    get_piece rook_and_enemy.b 4 0 = BLACK_KNIGHT ∧
    (⟨0, 0, 4, 0, WHITE_ROOK⟩ : move) ∈ emitted rook_and_enemy WHITE 0 0 ∧
    (is_targeted (threaten rook_and_enemy.pieces 0 (get_piece rook_and_enemy.b 0 0)
        ((0 : Fin 8).val : Int) ((0 : Fin 8).val : Int))
        ((4 : Fin 8).val : Int) ((0 : Fin 8).val : Int) = true ∧
      ¬ (get_piece rook_and_enemy.b 4 0 ≠ EMPTY ∧
          get_color (get_piece rook_and_enemy.b 4 0) = WHITE)) ∧
    update_game_state rook_and_ally = rook_and_ally ∧
    get_piece rook_and_ally.b 4 0 = WHITE_KNIGHT ∧
    is_targeted (threaten rook_and_ally.pieces 0 WHITE_ROOK 0 0) 4 0 = true ∧
    (emitted rook_and_ally WHITE 0 0).filter (fun m => m.dst_x = 4 ∧ m.dst_y = 0) = [] :=
  ⟨update_game_state_idem _, by decide!, by decide!, by decide!,
   (generator_agrees_with_threaten rook_and_enemy (update_game_state_idem _) WHITE 0 0
      (by decide!) (by decide!) 4 0).mp
     ⟨⟨0, 0, 4, 0, WHITE_ROOK⟩, by decide!, rfl, rfl, fun h => absurd h (by decide!)⟩,
   update_game_state_idem _, by decide!, by decide!, by decide!⟩

end Mockfish
